import Mathlib

/-!
# SmartTODO: the task store, the Pomodoro store and the habit tracker

A shallow embedding of `smart-task-manager/src/store/taskStore.js` (the zustand
store that keeps the in-memory task collection in step with Firestore) and of
the views derived from the collection: the Kanban columns of
`components/KanbanBoard.jsx`, the filter of `pages/Tasks.jsx` and the counts of
`pages/Analytics.jsx`; of `store/pomodoroStore.js` and the countdown of
`components/PomodoroTimer.jsx`; of `isOverdue` of `components/TaskCard.jsx`; and
of the habit toggle of `pages/HabitTracker.jsx`.

Conventions of the embedding.

* A JavaScript object with optional keys is a structure whose optional keys are
  `Option`s; `undefined` and `null` are both `none`.
* `userId` and `taskId` are strings; the empty string stands for every falsy
  value (`!userId`).
* `new Date()` is a reading of the clock, passed in as an `Int` (milliseconds
  since the epoch).  `now` is the reading in the synchronous part of an
  operation, `later` the reading after the awaited Firestore call returned.
* `new Date(s)` on a string is the runtime's date parser, passed in as
  `parseDate : String → Option Int` (`none` is an Invalid Date).
* The outcome of an awaited Firestore call is an argument of the operation
  (`remote`, `remoteOk`), and every call issued is recorded in `writes`.
* A JavaScript number that need not be an integer is an IEEE-754 binary64
  value, each operation rounding its exact result to nearest, ties to even:
  `Double`, a mantissa over a power of two, for the quotient of the Analytics
  page, and `JsNumber`, a rational value or one of `-0`, `Infinity`,
  `-Infinity` and `NaN`, for the numbers of the Pomodoro store.
-/

namespace SmartTodo

/-! ## Data model -/

/-- A JavaScript `Date` object: a time value in milliseconds, or an Invalid Date. -/
inductive JsDate where
  | time (ms : Int)
  | invalid
  deriving DecidableEq, Repr

/-- The document `addTask` builds and hands to `addDoc` (taskStore.js 173-189):
a task that has no id yet. -/
structure TaskDoc where
  title : String
  description : String
  priority : String
  status : String
  completed : Bool
  userId : String
  createdAt : Int
  updatedAt : Int
  dueDate : Option JsDate
  completedAt : Option Int
  deriving DecidableEq, Repr

/-- A task of the local collection: a document together with its Firestore id. -/
structure Task extends TaskDoc where
  id : String
  deriving DecidableEq, Repr

/-- The `dueDate` value of a draft handed to `addTask`, by the cases the code
distinguishes. -/
inductive DueInput where
  /-- The key is missing, `null` or `undefined`. -/
  | absent
  /-- A string (`typeof taskData.dueDate === 'string'`). -/
  | str (s : String)
  /-- A `Date` object (`taskData.dueDate instanceof Date`). -/
  | date (d : JsDate)
  /-- Any other truthy value (a number, a plain object, ...). -/
  | other
  deriving DecidableEq, Repr

/-- The `taskData` argument of `addTask`. -/
structure TaskDraft where
  title : String
  description : Option String := none
  priority : Option String := none
  status : Option String := none
  dueDate : DueInput := DueInput.absent
  deriving DecidableEq, Repr

/-- The `taskData` argument of `updateTask`: a partial task.  A key that is
present with the value `null` is `some none`. -/
structure Patch where
  id : Option String := none
  title : Option String := none
  description : Option String := none
  priority : Option String := none
  status : Option String := none
  completed : Option Bool := none
  userId : Option String := none
  createdAt : Option Int := none
  updatedAt : Option Int := none
  dueDate : Option (Option JsDate) := none
  completedAt : Option (Option Int) := none
  deriving DecidableEq, Repr

/-- The `Error` object a rejected Firestore call throws; an empty `message`
stands for a missing one. -/
structure JsError where
  message : String
  deriving DecidableEq, Repr

/-- A call issued to Firestore. -/
inductive RemoteOp where
  | addDoc (userId : String) (doc : TaskDoc)
  | updateDoc (userId : String) (taskId : String) (data : Patch)
  | deleteDoc (userId : String) (taskId : String)
  deriving DecidableEq, Repr

/-- The state of `useTaskStore` (taskStore.js 16-20). -/
structure StoreState where
  tasks : List Task
  loading : Bool
  error : Option String
  /-- The handle of the active snapshot listener, if any. -/
  unsubscribe : Option Nat
  deriving DecidableEq, Repr

/-- The store as created: `tasks: [], loading: false, error: null, unsubscribe: null`. -/
def StoreState.initial : StoreState :=
  { tasks := [], loading := false, error := none, unsubscribe := none }

/-- What an operation that returns nothing leaves behind: the new state and the
Firestore calls it issued. -/
structure Run where
  state : StoreState
  writes : List RemoteOp
  /-- The error the call throws to its caller, if it throws. -/
  thrown : Option JsError := none
  deriving DecidableEq, Repr

/-- What `addTask` leaves behind; `result` is the returned task or the thrown error. -/
structure AddRun where
  state : StoreState
  writes : List RemoteOp
  result : Except JsError Task

/-! ## addTask (taskStore.js 147-215) -/

/-- JavaScript `v || d` on an optional string: the empty string is falsy. -/
def orDefault (v : Option String) (d : String) : String :=
  match v with
  | some s => if s = "" then d else s
  | none => d

/-- The `new Date(s)` of line 164. -/
def newDate (parseDate : String → Option Int) (s : String) : JsDate :=
  match parseDate s with
  | some ms => JsDate.time ms
  | none => JsDate.invalid

/-- Lines 160-170: `formattedDueDate`. -/
def formatDueDate (parseDate : String → Option Int) : DueInput → Option JsDate
  | DueInput.absent => none
  | DueInput.str s => if s = "" then none else some (newDate parseDate s)
  | DueInput.date d => some d
  | DueInput.other => none

/-- Lines 173-189: the `task` object, `completedAt` included. -/
def buildTask (parseDate : String → Option Int) (taskData : TaskDraft) (userId : String)
    (now : Int) : TaskDoc :=
  let status := orDefault taskData.status "to-do"
  { title := taskData.title
    description := orDefault taskData.description ""
    priority := orDefault taskData.priority "medium"
    status := status
    completed := decide (taskData.status = some "completed")
    userId := userId
    createdAt := now
    updatedAt := now
    dueDate := formatDueDate parseDate taskData.dueDate
    completedAt := if status = "completed" then some now else none }

/-- The store's `addTask`.  `remote` is the outcome of `addDoc`: the id of the
new document, or the error it rejects with. -/
def addTask (parseDate : String → Option Int) (taskData : TaskDraft) (userId : String)
    (now : Int) (remote : Except JsError String) (s : StoreState) : AddRun :=
  if userId = "" then
    { state := { s with error := some "User not authenticated", loading := false }
      writes := []
      result := Except.error { message := "User not authenticated" } }
  else
    let task := buildTask parseDate taskData userId now
    match remote with
    | Except.ok docId =>
      let newTask : Task := { toTaskDoc := task, id := docId }
      { state := { s with tasks := s.tasks ++ [newTask], loading := false, error := none }
        writes := [RemoteOp.addDoc userId task]
        result := Except.ok newTask }
    | Except.error e =>
      { state := { s with
                   error := some (if e.message = "" then "Failed to add task" else e.message)
                   loading := false }
        writes := [RemoteOp.addDoc userId task]
        result := Except.error e }

/-! ## updateTask (taskStore.js 217-248) -/

/-- Line 240: `{ ...task, ...taskData, updatedAt: new Date() }`. -/
def mergeTask (task : Task) (taskData : Patch) (now : Int) : Task :=
  { id := taskData.id.getD task.id
    title := taskData.title.getD task.title
    description := taskData.description.getD task.description
    priority := taskData.priority.getD task.priority
    status := taskData.status.getD task.status
    completed := taskData.completed.getD task.completed
    userId := taskData.userId.getD task.userId
    createdAt := taskData.createdAt.getD task.createdAt
    updatedAt := now
    dueDate := taskData.dueDate.getD task.dueDate
    completedAt := taskData.completedAt.getD task.completedAt }

/-- The store's `updateTask`.  `remoteOk` tells whether `updateDoc` resolved. -/
def updateTask (taskId : String) (taskData : Patch) (userId : String) (now later : Int)
    (remoteOk : Bool) (s : StoreState) : Run :=
  if userId = "" ∨ taskId = "" then
    { state := s, writes := [] }
  else
    let sent := RemoteOp.updateDoc userId taskId { taskData with updatedAt := some now }
    if remoteOk then
      { state := { s with
                   tasks := s.tasks.map fun task =>
                     if task.id = taskId then mergeTask task taskData later else task
                   loading := false
                   error := none }
        writes := [sent] }
    else
      { state := { s with error := some "Failed to update task", loading := false }
        writes := [sent] }

/-! ## toggleTaskCompletion, updateTaskStatus, updateTaskPriority (taskStore.js 275-354) -/

/-- Lines 286-300: the `updateData` of `toggleTaskCompletion` for the task found. -/
def toggleData (task : Task) (now : Int) : Patch :=
  if !task.completed then
    { completed := some true, status := some "completed", completedAt := some (some now) }
  else if task.status = "completed" then
    { completed := some false, status := some "in-progress" }
  else
    { completed := some false }

/-- The store's `toggleTaskCompletion`. -/
def toggleTaskCompletion (taskId userId : String) (now later : Int) (remoteOk : Bool)
    (s : StoreState) : Run :=
  if userId = "" ∨ taskId = "" then
    { state := s, writes := [] }
  else
    match s.tasks.find? fun t => decide (t.id = taskId) with
    | none => { state := s, writes := [] }
    | some task => updateTask taskId (toggleData task now) userId now later remoteOk s

/-- Lines 320-330: the `updateData` of `updateTaskStatus`. -/
def statusData (status : String) (now : Int) : Patch :=
  if status = "completed" then
    { status := some status, completed := some true, completedAt := some (some now) }
  else
    { status := some status, completed := some false }

/-- The store's `updateTaskStatus`.  The store has no `currentUser` key, so the
fallback of lines 310-311 finds no user id and a falsy `userId` returns early. -/
def updateTaskStatus (taskId status userId : String) (now later : Int) (remoteOk : Bool)
    (s : StoreState) : Run :=
  if userId = "" then
    { state := s, writes := [] }
  else
    updateTask taskId (statusData status now) userId now later remoteOk s

/-- The store's `updateTaskPriority`; the same fallback as `updateTaskStatus`. -/
def updateTaskPriority (taskId priority userId : String) (now later : Int) (remoteOk : Bool)
    (s : StoreState) : Run :=
  if userId = "" then
    { state := s, writes := [] }
  else
    updateTask taskId { priority := some priority } userId now later remoteOk s

/-! ## Sequences of mutations -/

/-- One call of a store mutation, with the clock readings and the Firestore
outcome it meets. -/
inductive Mutation where
  | addTask (parseDate : String → Option Int) (taskData : TaskDraft) (userId : String)
      (now : Int) (remote : Except JsError String)
  | updateTask (taskId : String) (taskData : Patch) (userId : String) (now later : Int)
      (remoteOk : Bool)
  | toggleTaskCompletion (taskId userId : String) (now later : Int) (remoteOk : Bool)
  | updateTaskStatus (taskId status userId : String) (now later : Int) (remoteOk : Bool)
  | updateTaskPriority (taskId priority userId : String) (now later : Int) (remoteOk : Bool)

/-- The store state a mutation leaves. -/
def Mutation.apply (m : Mutation) (s : StoreState) : StoreState :=
  match m with
  | Mutation.addTask parseDate taskData userId now remote =>
    (SmartTodo.addTask parseDate taskData userId now remote s).state
  | Mutation.updateTask taskId taskData userId now later remoteOk =>
    (SmartTodo.updateTask taskId taskData userId now later remoteOk s).state
  | Mutation.toggleTaskCompletion taskId userId now later remoteOk =>
    (SmartTodo.toggleTaskCompletion taskId userId now later remoteOk s).state
  | Mutation.updateTaskStatus taskId status userId now later remoteOk =>
    (SmartTodo.updateTaskStatus taskId status userId now later remoteOk s).state
  | Mutation.updateTaskPriority taskId priority userId now later remoteOk =>
    (SmartTodo.updateTaskPriority taskId priority userId now later remoteOk s).state

/-- The state after a sequence of mutations, applied from left to right. -/
def runAll (s : StoreState) (ms : List Mutation) : StoreState :=
  ms.foldl (fun st m => m.apply st) s

/-- The states a sequence of mutations passes through, the start included. -/
def trace (s : StoreState) : List Mutation → List StoreState
  | [] => [s]
  | m :: ms => s :: trace (m.apply s) ms

/-! ## Derived views -/

/-- KanbanBoard.jsx 51-56: `tasks.filter(task => task.status === columnId)`. -/
def getTasksByColumn (tasks : List Task) (columnId : String) : List Task :=
  tasks.filter fun task => decide (task.status = columnId)

/-- The `completed` flag mirrors the status. -/
def Task.inSync (t : Task) : Prop :=
  t.completed = decide (t.status = "completed")

instance (t : Task) : Decidable t.inSync := by
  unfold Task.inSync; infer_instance

/-- A patch that writes the status together with the matching `completed` flag. -/
def Patch.keepsSync (p : Patch) : Prop :=
  ∃ st, p.status = some st ∧ p.completed = some (decide (st = "completed"))

/-- The mutations that write `completed` along with the status: all of them,
except an `updateTask` whose patch does not. -/
def Mutation.keepsSync : Mutation → Prop
  | Mutation.updateTask _ taskData _ _ _ _ => taskData.keepsSync
  | _ => True

/-- A patch that stamps `completedAt` exactly when it sets the status to
`completed`, and otherwise leaves the key out. -/
def Patch.stamps (p : Patch) : Prop :=
  (p.status = some "completed" ∧ ∃ stamp, p.completedAt = some (some stamp)) ∨
    (p.status ≠ some "completed" ∧ p.completedAt = none)

/-- The mutations that stamp `completedAt` with the status: all of them, except
an `updateTask` whose patch does not. -/
def Mutation.stamps : Mutation → Prop
  | Mutation.updateTask _ taskData _ _ _ _ => taskData.stamps
  | _ => True

/-- A task whose status is `completed` carries a completion stamp. -/
def Task.stamped (t : Task) : Prop :=
  t.status = "completed" → t.completedAt.isSome = true

/-! ## Sample data -/

/-- A task in the to-do column, as `addTask` builds it. -/
def sampleTask : Task :=
  { id := "t1", title := "Write spec", description := "", priority := "high",
    status := "to-do", completed := false, userId := "u1", createdAt := 100,
    updatedAt := 100, dueDate := none, completedAt := none }

/-- A store holding `sampleTask` only. -/
def sampleStore : StoreState :=
  { tasks := [sampleTask], loading := false, error := none, unsubscribe := none }

/-- A draft whose due date is a string that is no date. -/
def unparsableDraft : TaskDraft :=
  { title := "Write spec", dueDate := DueInput.str "not-a-date" }

/-- A date parser that knows one date string and rejects every other string. -/
def sampleParser (s : String) : Option Int :=
  if s = "2024-05-01" then some 1714521600000 else none

/-- The draft of the spec's scenario. -/
def sampleDraft : TaskDraft :=
  { title := "Write spec", status := some "to-do", priority := some "high" }

/-! ## deleteTask (taskStore.js 250-273) -/

/-- The store's `deleteTask`.  `remoteOk` tells whether `deleteDoc` resolved. -/
def deleteTask (taskId userId : String) (remoteOk : Bool) (s : StoreState) : Run :=
  if userId = "" ∨ taskId = "" then
    { state := s, writes := [] }
  else if remoteOk then
    { state := { s with
                 tasks := s.tasks.filter fun task => decide (task.id ≠ taskId)
                 loading := false
                 error := none }
      writes := [RemoteOp.deleteDoc userId taskId] }
  else
    { state := { s with error := some "Failed to delete task", loading := false }
      writes := [RemoteOp.deleteDoc userId taskId] }

/-! ## Snapshots: subscribeToTasks, unsubscribeFromTasks, fetchTasks (taskStore.js 23-145) -/

/-- The value of a timestamp key of a raw record, by what `v?.toDate()` does on it. -/
inductive RawTime where
  /-- The key is missing, `null` or `undefined`: `?.` gives `undefined`. -/
  | missing
  /-- A provider `Timestamp`; `toDate()` is the `Date` with this time value. -/
  | timestamp (toDate : Int)
  /-- A native `Date` object, which has no `toDate` method. -/
  | nativeDate (d : JsDate)
  /-- Any other value (a string, a number, ...), which has no `toDate` method. -/
  | other
  deriving DecidableEq, Repr

/-- The `doc.data()` of a document of `users/{userId}/tasks`.  `id` is a field
named `id` inside the data, which `updateDoc` writes when its patch has one. -/
structure RawData where
  id : Option String := none
  title : String
  description : String
  priority : String
  status : String
  completed : Bool
  userId : String
  createdAt : RawTime
  updatedAt : RawTime
  dueDate : RawTime
  completedAt : RawTime
  deriving DecidableEq, Repr

/-- A document of a snapshot: `doc.id` and `doc.data()`. -/
structure RawDoc where
  id : String
  data : RawData
  deriving DecidableEq, Repr

/-- The call `v?.toDate()`: `undefined` on a missing value, the date of a
provider timestamp, and a `TypeError` on a value that has no such method. -/
def toDate? : RawTime → Except JsError (Option Int)
  | RawTime.missing => Except.ok none
  | RawTime.timestamp t => Except.ok (some t)
  | RawTime.nativeDate _ => Except.error { message := "toDate is not a function" }
  | RawTime.other => Except.error { message := "toDate is not a function" }

/-- Lines 64-72 (and 130-138): `processedTask`,
`{ id: doc.id, ...data, createdAt: data.createdAt?.toDate() || new Date(), ... }`.
The keys of `data` come after `id: doc.id`, so an `id` of the data wins. -/
def processTask (doc : RawDoc) (now : Int) : Except JsError Task :=
  match toDate? doc.data.createdAt with
  | Except.error e => Except.error e
  | Except.ok createdAt =>
    match toDate? doc.data.updatedAt with
    | Except.error e => Except.error e
    | Except.ok updatedAt =>
      match toDate? doc.data.dueDate with
      | Except.error e => Except.error e
      | Except.ok dueDate =>
        match toDate? doc.data.completedAt with
        | Except.error e => Except.error e
        | Except.ok completedAt =>
          Except.ok
            { id := doc.data.id.getD doc.id
              title := doc.data.title
              description := doc.data.description
              priority := doc.data.priority
              status := doc.data.status
              completed := doc.data.completed
              userId := doc.data.userId
              createdAt := createdAt.getD now
              updatedAt := updatedAt.getD now
              dueDate := dueDate.map JsDate.time
              completedAt := completedAt }

/-- The `snapshot.docs.map(...)` of lines 60-83: the first record that throws
ends the map. -/
def processDocs (now : Int) : List RawDoc → Except JsError (List Task)
  | [] => Except.ok []
  | doc :: docs =>
    match processTask doc now with
    | Except.error e => Except.error e
    | Except.ok task =>
      match processDocs now docs with
      | Except.error e => Except.error e
      | Except.ok tasks => Except.ok (task :: tasks)

/-- Lines 47-97: the snapshot callback `subscribeToTasks(userId)` registers.
It has no `try`: an error of the map leaves the callback before any `set`. -/
def snapshotCallback (_userId : String) (docs : List RawDoc) (now : Int)
    (s : StoreState) : Run :=
  if docs.length = 0 then
    { state := { s with tasks := [], loading := false }, writes := [] }
  else
    match processDocs now docs with
    | Except.ok tasksData =>
      { state := { s with tasks := tasksData, loading := false }, writes := [] }
    | Except.error e => { state := s, writes := [], thrown := some e }

/-- Lines 98-101: the error callback of the subscription. -/
def snapshotErrorCallback (s : StoreState) : Run :=
  { state := { s with error := some "Failed to load tasks", loading := false }, writes := [] }

/-- The store's `fetchTasks`.  `remote` is the outcome of `getDocs`. -/
def fetchTasks (_userId : String) (remote : Except JsError (List RawDoc)) (now : Int)
    (s : StoreState) : Run :=
  match remote with
  | Except.error _ =>
    { state := { s with error := some "Failed to fetch tasks", loading := false }, writes := [] }
  | Except.ok docs =>
    match processDocs now docs with
    | Except.ok tasksData =>
      { state := { s with tasks := tasksData, loading := false, error := none }, writes := [] }
    | Except.error _ =>
      { state := { s with error := some "Failed to fetch tasks", loading := false }
        writes := [] }

/-- A call on the provider's listener interface. -/
inductive ListenerOp where
  /-- The unsubscribe function `onSnapshot` returned as `handle` is called. -/
  | cancel (handle : Nat)
  /-- `onSnapshot` is called on `users/{userId}/tasks`. -/
  | listen (userId : String)
  deriving DecidableEq, Repr

/-- What a subscription operation leaves behind. -/
structure SubRun where
  state : StoreState
  calls : List ListenerOp
  deriving DecidableEq, Repr

/-- Lines 30-33: the earlier subscription, if any, is cancelled. -/
def cancelCalls (s : StoreState) : List ListenerOp :=
  match s.unsubscribe with
  | some handle => [ListenerOp.cancel handle]
  | none => []

/-- The store's `subscribeToTasks`.  `remote` is the outcome of `onSnapshot`:
the handle of the new listener, or the error it throws. -/
def subscribeToTasks (userId : String) (remote : Except JsError Nat) (s : StoreState) :
    SubRun :=
  if userId = "" then
    { state := s, calls := [] }
  else
    match remote with
    | Except.ok newUnsubscribe =>
      { state := { s with loading := true, error := none, unsubscribe := some newUnsubscribe }
        calls := cancelCalls s ++ [ListenerOp.listen userId] }
    | Except.error _ =>
      { state := { s with error := some "Failed to subscribe to tasks", loading := false }
        calls := cancelCalls s ++ [ListenerOp.listen userId] }

/-- The store's `unsubscribeFromTasks` (lines 115-122). -/
def unsubscribeFromTasks (s : StoreState) : SubRun :=
  match s.unsubscribe with
  | some handle => { state := { s with unsubscribe := none }, calls := [ListenerOp.cancel handle] }
  | none => { state := s, calls := [] }

/-! ## addTask around its `await` -/

/-- Line 154: the state `addTask` leaves, for a user id that is there, while it
waits for `addDoc`. -/
def addTaskStart (s : StoreState) : StoreState :=
  { s with loading := true, error := none }

/-- Lines 197-214: what `addTask` does once `addDoc` has settled, on the state
the store has at that moment. -/
def addTaskSettle (parseDate : String → Option Int) (taskData : TaskDraft) (userId : String)
    (now : Int) (remote : Except JsError String) (s : StoreState) : AddRun :=
  let task := buildTask parseDate taskData userId now
  match remote with
  | Except.ok docId =>
    let newTask : Task := { toTaskDoc := task, id := docId }
    { state := { s with tasks := s.tasks ++ [newTask], loading := false }
      writes := [RemoteOp.addDoc userId task]
      result := Except.ok newTask }
  | Except.error e =>
    { state := { s with
                 error := some (if e.message = "" then "Failed to add task" else e.message)
                 loading := false }
      writes := [RemoteOp.addDoc userId task]
      result := Except.error e }

/-! ## The filter of the Tasks page (Tasks.jsx 50-74) -/

/-- The test `text.includes(query)`: `query` is a run of consecutive characters of `text`. -/
def includes (text query : String) : Bool :=
  decide (query.data <:+: text.data)

/-- Lines 55-57: the status step. -/
def filterByStatus (filterStatus : String) (filtered : List Task) : List Task :=
  if filterStatus ≠ "all" then filtered.filter fun task => decide (task.status = filterStatus)
  else filtered

/-- Lines 60-62: the priority step. -/
def filterByPriority (filterPriority : String) (filtered : List Task) : List Task :=
  if filterPriority ≠ "all" then
    filtered.filter fun task => decide (task.priority = filterPriority)
  else filtered

/-- The predicate of lines 67-70, `query` being lower-cased already.
`toLowerCase` is the runtime's `String.prototype.toLowerCase`. -/
def matchesQuery (toLowerCase : String → String) (query : String) (task : Task) : Bool :=
  includes (toLowerCase task.title) query ||
    (task.description != "" && includes (toLowerCase task.description) query)

/-- Lines 65-71: the search step. -/
def filterBySearch (toLowerCase : String → String) (searchQuery : String)
    (filtered : List Task) : List Task :=
  if searchQuery ≠ "" then
    filtered.filter (matchesQuery toLowerCase (toLowerCase searchQuery))
  else filtered

/-- Lines 52-73: the value handed to `setFilteredTasks`. -/
def filterTasks (toLowerCase : String → String) (filterStatus filterPriority searchQuery : String)
    (tasks : List Task) : List Task :=
  filterBySearch toLowerCase searchQuery
    (filterByPriority filterPriority (filterByStatus filterStatus tasks))

/-! ## The counts of the Analytics page (Analytics.jsx 38-79, 232-236) -/

/-- The `data` arrays of the component states `tasksByStatus` and `tasksByPriority`. -/
structure ChartCounts where
  todo : Nat
  inProgress : Nat
  completed : Nat
  high : Nat
  medium : Nat
  low : Nat
  deriving DecidableEq, Repr

/-- Lines 38-46: the `useState` defaults, `data: [0, 0, 0]` twice. -/
def ChartCounts.initial : ChartCounts :=
  { todo := 0, inProgress := 0, completed := 0, high := 0, medium := 0, low := 0 }

/-- `tasks.filter(task => task.status === status).length`. -/
def countStatus (tasks : List Task) (status : String) : Nat :=
  (tasks.filter fun task => decide (task.status = status)).length

/-- `tasks.filter(task => task.priority === priority).length`. -/
def countPriority (tasks : List Task) (priority : String) : Nat :=
  (tasks.filter fun task => decide (task.priority = priority)).length

/-- Lines 59-79: the effect run when `tasks` changes; `counts` is the component
state it finds.  Nothing is set when the collection is empty. -/
def countsEffect (tasks : List Task) (counts : ChartCounts) : ChartCounts :=
  if tasks.length > 0 then
    { todo := countStatus tasks "to-do"
      inProgress := countStatus tasks "in-progress"
      completed := countStatus tasks "completed"
      high := countPriority tasks "high"
      medium := countPriority tasks "medium"
      low := countPriority tasks "low" }
  else counts

/-- A finite non-negative IEEE-754 binary64 number, `mantissa / 2 ^ shift`. -/
structure Double where
  mantissa : Nat
  shift : Nat
  deriving DecidableEq, Repr

/-- The integer nearest to `p / q`, a tie going to the even one. -/
def roundHalfEven (p q : Nat) : Nat :=
  if 2 * (p % q) < q then p / q
  else if q < 2 * (p % q) then p / q + 1
  else if (p / q) % 2 = 0 then p / q
  else p / q + 1

/-- The least `s` from `s` on, with at most `fuel` steps, at which
`a * 2 ^ s / b` has reached `2 ^ 52`. -/
def Double.scale (a b : Nat) : Nat → Nat → Nat
  | 0, s => s
  | fuel + 1, s => if a * 2 ^ s < 2 ^ 52 * b then Double.scale a b fuel (s + 1) else s

/-- The binary64 number nearest to `a / b` (round to nearest, ties to even),
for `a / b` below `2 ^ 53`: the quotient is scaled by the power of two that
brings it into `[2 ^ 52, 2 ^ 53)`, by `2 ^ 1074` at most (the subnormal
numbers), and rounded to an integer mantissa. -/
def Double.ofRatio (a b : Nat) : Double :=
  if a = 0 then { mantissa := 0, shift := 0 }
  else
    { mantissa := roundHalfEven (a * 2 ^ Double.scale a b 1074 0) b
      shift := Double.scale a b 1074 0 }

/-- The JavaScript quotient `a / b` of two array lengths. -/
def Double.div (a b : Nat) : Double :=
  Double.ofRatio a b

/-- The JavaScript product `x * k` of a double and a small integer. -/
def Double.mulNat (x : Double) (k : Nat) : Double :=
  Double.ofRatio (x.mantissa * k) (2 ^ x.shift)

/-- `Math.round(x)` for `x ≥ 0`: the nearest integer, a tie going up. -/
def Double.round (x : Double) : Nat :=
  (2 * x.mantissa + 2 ^ x.shift) / 2 ^ (x.shift + 1)

/-- The rational number a double stands for. -/
def Double.toRat (x : Double) : ℚ :=
  (x.mantissa : ℚ) / 2 ^ x.shift

/-- Lines 233-235: the number shown before the `%` sign,
`Math.round((completed.length / tasks.length) * 100)`, or `0`. -/
def completionRate (tasks : List Task) : Nat :=
  if tasks.length > 0 then
    Double.round (Double.mulNat (Double.div (countStatus tasks "completed") tasks.length) 100)
  else 0

/-- A task with status `completed`, as `updateTaskStatus` leaves `sampleTask`. -/
def doneTask : Task :=
  { sampleTask with status := "completed", completed := true, completedAt := some 5,
                    updatedAt := 6 }

/-- A raw record of `sampleTask`, as Firestore returns what `addTask` wrote. -/
def sampleDoc : RawDoc :=
  { id := "t1"
    data := { title := "Write spec", description := "", priority := "high", status := "to-do",
              completed := false, userId := "u1", createdAt := RawTime.timestamp 100,
              updatedAt := RawTime.timestamp 100, dueDate := RawTime.missing,
              completedAt := RawTime.missing } }

/-! ## Normalisation, as the specification words it -/

/-- The converted timestamp of a provider timestamp; nothing for any other value. -/
def RawTime.converted : RawTime → Option Int
  | RawTime.timestamp t => some t
  | _ => none

/-- The value is missing or a provider timestamp. -/
def RawTime.convertible : RawTime → Bool
  | RawTime.missing => true
  | RawTime.timestamp _ => true
  | _ => false

/-- Every timestamp key of the record is missing or a provider timestamp. -/
def RawDoc.wellTimed (doc : RawDoc) : Bool :=
  doc.data.createdAt.convertible && doc.data.updatedAt.convertible &&
    doc.data.dueDate.convertible && doc.data.completedAt.convertible

/-- The id of the task a record gives: the `id` field of the record when it
has one, the document id otherwise. -/
def RawDoc.taskId (doc : RawDoc) : String :=
  doc.data.id.getD doc.id

/-- Normalisation in the words of the specification: the record's fields are
kept, `createdAt` and `updatedAt` are the converted timestamp or now when
missing, `dueDate` and `completedAt` the converted timestamp or null when
missing. -/
def normalizeSpec (now : Int) (doc : RawDoc) : Task :=
  { id := doc.taskId
    title := doc.data.title
    description := doc.data.description
    priority := doc.data.priority
    status := doc.data.status
    completed := doc.data.completed
    userId := doc.data.userId
    createdAt := doc.data.createdAt.converted.getD now
    updatedAt := doc.data.updatedAt.converted.getD now
    dueDate := doc.data.dueDate.converted.map JsDate.time
    completedAt := doc.data.completedAt.converted }

/-- The ids of the tasks of a collection, in order. -/
def taskIds (tasks : List Task) : List String :=
  tasks.map fun task => task.id

/-! ## The Tasks-page filter, as the specification words it -/

/-- A task satisfies all active predicates: its status is the status filter
unless that is `all`, its priority is the priority filter unless that is `all`,
and, when the search text is not empty, the lower-cased text is a substring of
its lower-cased title or of its lower-cased description. -/
def satisfiesFilters (toLowerCase : String → String)
    (filterStatus filterPriority searchQuery : String) (task : Task) : Bool :=
  (filterStatus == "all" || task.status == filterStatus) &&
    (filterPriority == "all" || task.priority == filterPriority) &&
    (searchQuery == "" ||
      includes (toLowerCase task.title) (toLowerCase searchQuery) ||
      includes (toLowerCase task.description) (toLowerCase searchQuery))

/-- Lower-casing of the ASCII letters, the other characters kept. -/
def asciiLower (s : String) : String :=
  String.mk (s.data.map Char.toLower)

/-- Forty tasks, twenty-three of them completed. -/
def fortyTasks : List Task :=
  List.replicate 23 doneTask ++ List.replicate 17 sampleTask

/-! ## JavaScript numbers

The numbers of the Pomodoro store are JavaScript numbers: IEEE-754 binary64
values.  A finite one is given by its rational value; an arithmetic operation
rounds its exact result to the nearest binary64 number, a tie going to the even
mantissa. -/

/-- A JavaScript number: a finite binary64 number other than `-0`, by its
value, or one of `-0`, `Infinity`, `-Infinity` and `NaN`. -/
inductive JsNumber where
  | finite (value : ℚ)
  | negZero
  | posInf
  | negInf
  | nan
  deriving DecidableEq, Repr

/-- The integer nearest to `x`, a tie going to the even one. -/
def roundTiesEven (x : ℚ) : ℤ :=
  if Int.fract x < 1 / 2 then ⌊x⌋
  else if 1 / 2 < Int.fract x then ⌊x⌋ + 1
  else if ⌊x⌋ % 2 = 0 then ⌊x⌋
  else ⌊x⌋ + 1

/-- The exponent of the unit in the last place of the binary64 numbers around
`q`: 52 below the exponent of `q`, which is -1022 at least (the subnormal
numbers). -/
def ulpExponent (q : ℚ) : ℤ :=
  max (Int.log 2 |q|) (-1022) - 52

/-- The multiple of the unit in the last place nearest to `q`, a tie going to
the even mantissa. -/
def nearest (q : ℚ) : ℚ :=
  roundTiesEven (q / 2 ^ ulpExponent q) * 2 ^ ulpExponent q

/-- The binary64 number for the real number `q`: round to nearest, ties to
even, an overflow giving an infinity and a negative underflow `-0`. -/
def JsNumber.ofRat (q : ℚ) : JsNumber :=
  if 2 ^ 1024 ≤ nearest q then JsNumber.posInf
  else if nearest q ≤ -2 ^ 1024 then JsNumber.negInf
  else if nearest q = 0 ∧ q < 0 then JsNumber.negZero
  else JsNumber.finite (nearest q)

/-- A numeric literal. -/
instance (n : Nat) : OfNat JsNumber n := ⟨JsNumber.ofRat n⟩

/-- The value of a finite number or a zero. -/
def JsNumber.toRat? : JsNumber → Option ℚ
  | JsNumber.finite value => some value
  | JsNumber.negZero => some 0
  | _ => none

/-- The sign bit. -/
def JsNumber.isNegative : JsNumber → Bool
  | JsNumber.finite value => decide (value < 0)
  | JsNumber.negZero => true
  | JsNumber.negInf => true
  | _ => false

/-- The product `x * y`. -/
def JsNumber.mul (x y : JsNumber) : JsNumber :=
  if x = JsNumber.nan ∨ y = JsNumber.nan then JsNumber.nan
  else
    match x.toRat?, y.toRat? with
    | some a, some b =>
      if a * b = 0 then
        if x.isNegative != y.isNegative then JsNumber.negZero else JsNumber.finite 0
      else JsNumber.ofRat (a * b)
    | some a, none =>
      if a = 0 then JsNumber.nan
      else if x.isNegative != y.isNegative then JsNumber.negInf else JsNumber.posInf
    | none, some b =>
      if b = 0 then JsNumber.nan
      else if x.isNegative != y.isNegative then JsNumber.negInf else JsNumber.posInf
    | none, none =>
      if x.isNegative != y.isNegative then JsNumber.negInf else JsNumber.posInf

/-- The difference `x - y`. -/
def JsNumber.sub (x y : JsNumber) : JsNumber :=
  if x = JsNumber.nan ∨ y = JsNumber.nan then JsNumber.nan
  else
    match x.toRat?, y.toRat? with
    | some a, some b =>
      if a - b = 0 then
        if x = JsNumber.negZero ∧ y = JsNumber.finite 0 then JsNumber.negZero
        else JsNumber.finite 0
      else JsNumber.ofRat (a - b)
    | some _, none => if y = JsNumber.posInf then JsNumber.negInf else JsNumber.posInf
    | none, some _ => x
    | none, none => if x = y then JsNumber.nan else x

instance : Mul JsNumber := ⟨JsNumber.mul⟩

instance : Sub JsNumber := ⟨JsNumber.sub⟩

/-- The comparison `x < y`: false when either is `NaN`. -/
def JsNumber.lt : JsNumber → JsNumber → Bool
  | JsNumber.nan, _ => false
  | _, JsNumber.nan => false
  | JsNumber.posInf, _ => false
  | _, JsNumber.negInf => false
  | JsNumber.negInf, _ => true
  | _, JsNumber.posInf => true
  | JsNumber.finite a, JsNumber.finite b => decide (a < b)
  | JsNumber.finite a, JsNumber.negZero => decide (a < 0)
  | JsNumber.negZero, JsNumber.finite b => decide (0 < b)
  | JsNumber.negZero, JsNumber.negZero => false

/-- The comparison `x <= y`: false when either is `NaN`. -/
def JsNumber.le : JsNumber → JsNumber → Bool
  | JsNumber.nan, _ => false
  | _, JsNumber.nan => false
  | JsNumber.negInf, _ => true
  | _, JsNumber.posInf => true
  | JsNumber.posInf, _ => false
  | _, JsNumber.negInf => false
  | JsNumber.finite a, JsNumber.finite b => decide (a ≤ b)
  | JsNumber.finite a, JsNumber.negZero => decide (a ≤ 0)
  | JsNumber.negZero, JsNumber.finite b => decide (0 ≤ b)
  | JsNumber.negZero, JsNumber.negZero => true

instance : LT JsNumber := ⟨fun x y => JsNumber.lt x y = true⟩

instance : LE JsNumber := ⟨fun x y => JsNumber.le x y = true⟩

instance (x y : JsNumber) : Decidable (x < y) :=
  inferInstanceAs (Decidable (JsNumber.lt x y = true))

instance (x y : JsNumber) : Decidable (x ≤ y) :=
  inferInstanceAs (Decidable (JsNumber.le x y = true))

/-- The rational number is a finite binary64 number: an integer mantissa below
`2 ^ 53` times a power of two from `2 ^ -1074` on, below `2 ^ 1024`. -/
def isDouble (q : ℚ) : Prop :=
  ∃ m e : ℤ, q = m * 2 ^ e ∧ |m| < 2 ^ 53 ∧ -1074 ≤ e ∧ |q| < 2 ^ 1024

/-! ## The Pomodoro store (store/pomodoroStore.js)

The durations, the remaining time and the `minutes` handed to the store are
JavaScript numbers.  `completedSessions`, which starts at 0 and is only ever
increased by one, is a natural number.  The sound and the browser notification
of `completeSession` do not touch the state and are left out. -/

/-- The kind of session, `'work'` or `'break'`. -/
inductive Session where
  | work
  | break_
  deriving DecidableEq, Repr

/-- The data of `usePomodoroStore` (lines 7-14). -/
structure PomodoroState where
  isActive : Bool
  isPaused : Bool
  workDuration : JsNumber
  breakDuration : JsNumber
  currentSession : Session
  timeRemaining : JsNumber
  completedSessions : Nat
  currentTaskId : Option String
  deriving DecidableEq, Repr

/-- The store as created (lines 7-14). -/
def PomodoroState.initial : PomodoroState :=
  { isActive := false, isPaused := false, workDuration := 25 * 60, breakDuration := 5 * 60,
    currentSession := Session.work, timeRemaining := 25 * 60, completedSessions := 0,
    currentTaskId := none }

/-- The configured duration of a session kind:
`session === 'work' ? get().workDuration : get().breakDuration`. -/
def PomodoroState.durationOf (s : PomodoroState) (session : Session) : JsNumber :=
  if session = Session.work then s.workDuration else s.breakDuration

/-- Lines 16-35: `startTimer(taskId = null)`. -/
def startTimer (taskId : Option String) (s : PomodoroState) : PomodoroState :=
  if s.isActive && !s.isPaused then s
  else if s.isActive && s.isPaused then { s with isPaused := false }
  else
    { s with
      isActive := true
      isPaused := false
      currentTaskId := taskId
      timeRemaining := s.durationOf s.currentSession }

/-- Lines 37-44: `pauseTimer`. -/
def pauseTimer (s : PomodoroState) : PomodoroState :=
  if s.isActive && !s.isPaused then { s with isPaused := true } else s

/-- Lines 46-54: `resetTimer`. -/
def resetTimer (s : PomodoroState) : PomodoroState :=
  { s with
    isActive := false
    isPaused := false
    timeRemaining := s.durationOf s.currentSession
    currentTaskId := none }

/-- Lines 70-97: `completeSession`. -/
def completeSession (s : PomodoroState) : PomodoroState :=
  let newSession := if s.currentSession = Session.work then Session.break_ else Session.work
  { s with
    currentSession := newSession
    timeRemaining := s.durationOf newSession
    completedSessions :=
      if s.currentSession = Session.work then s.completedSessions + 1 else s.completedSessions
    currentTaskId := if newSession = Session.break_ then none else s.currentTaskId }

/-- Lines 56-68: `tick`.  Both tests read the `timeRemaining` taken at the
start of the call; `completeSession` works on the state of its moment. -/
def tick (s : PomodoroState) : PomodoroState :=
  let ticked :=
    if s.isActive && !s.isPaused && decide (s.timeRemaining > 0) then
      { s with timeRemaining := s.timeRemaining - 1 }
    else s
  if s.timeRemaining ≤ 0 then completeSession ticked else ticked

/-- Lines 99-105: `setWorkDuration(minutes)`. -/
def setWorkDuration (minutes : JsNumber) (s : PomodoroState) : PomodoroState :=
  { s with
    workDuration := minutes * 60
    timeRemaining := if s.currentSession = Session.work then minutes * 60 else s.timeRemaining }

/-- Lines 107-113: `setBreakDuration(minutes)`. -/
def setBreakDuration (minutes : JsNumber) (s : PomodoroState) : PomodoroState :=
  { s with
    breakDuration := minutes * 60
    timeRemaining :=
      if s.currentSession = Session.break_ then minutes * 60 else s.timeRemaining }

/-- One call of an operation of the Pomodoro store. -/
inductive PomodoroOp where
  | startTimer (taskId : Option String)
  | pauseTimer
  | resetTimer
  | tick
  | completeSession
  | setWorkDuration (minutes : JsNumber)
  | setBreakDuration (minutes : JsNumber)
  deriving DecidableEq, Repr

/-- The state an operation leaves. -/
def PomodoroOp.apply (op : PomodoroOp) (s : PomodoroState) : PomodoroState :=
  match op with
  | PomodoroOp.startTimer taskId => SmartTodo.startTimer taskId s
  | PomodoroOp.pauseTimer => SmartTodo.pauseTimer s
  | PomodoroOp.resetTimer => SmartTodo.resetTimer s
  | PomodoroOp.tick => SmartTodo.tick s
  | PomodoroOp.completeSession => SmartTodo.completeSession s
  | PomodoroOp.setWorkDuration minutes => SmartTodo.setWorkDuration minutes s
  | PomodoroOp.setBreakDuration minutes => SmartTodo.setBreakDuration minutes s

/-- The state after a sequence of operations, applied from left to right. -/
def runOps (s : PomodoroState) (ops : List PomodoroOp) : PomodoroState :=
  ops.foldl (fun st op => op.apply st) s

/-- The operation is called with non-negative minutes, if it takes minutes:
`minutes >= 0` holds. -/
def PomodoroOp.nonNegative : PomodoroOp → Prop
  | PomodoroOp.setWorkDuration minutes => 0 ≤ minutes
  | PomodoroOp.setBreakDuration minutes => 0 ≤ minutes
  | _ => True

/-- The number is a whole number not below zero: `0`, `-0`, or a positive
integer. -/
def JsNumber.isWhole (x : JsNumber) : Prop :=
  x = JsNumber.negZero ∨ ∃ n : ℕ, x = JsNumber.finite n

/-- The operation is called with whole minutes not below zero, if it takes
minutes. -/
def PomodoroOp.wholeMinutes : PomodoroOp → Prop
  | PomodoroOp.setWorkDuration minutes => minutes.isWhole
  | PomodoroOp.setBreakDuration minutes => minutes.isWhole
  | _ => True

/-- The number is a whole binary64 number not below zero, or `Infinity`. -/
def JsNumber.isCount (x : JsNumber) : Prop :=
  x = JsNumber.negZero ∨ x = JsNumber.posInf ∨
    ∃ n : ℕ, x = JsNumber.finite n ∧ isDouble (n : ℚ)

/-- `tick` called `n` times. -/
def ticks : Nat → PomodoroState → PomodoroState
  | 0, s => s
  | n + 1, s => ticks n (tick s)

/-- The timer runs: `isActive` and not `isPaused`. -/
def PomodoroState.running (s : PomodoroState) : Prop :=
  s.isActive = true ∧ s.isPaused = false

instance (s : PomodoroState) : Decidable s.running := by
  unfold PomodoroState.running; infer_instance

/-- The durations and the remaining time are whole numbers or `Infinity`, the
remaining time lies within the duration of the current session kind, and a
paused timer is active. -/
def PomodoroState.wellFormed (s : PomodoroState) : Prop :=
  s.workDuration.isCount ∧ s.breakDuration.isCount ∧ s.timeRemaining.isCount ∧
    s.timeRemaining ≤ s.durationOf s.currentSession ∧ (s.isPaused = true → s.isActive = true)

/-- A work timer that has run down to zero: the store after `setWorkDuration(1)`,
`startTimer()` and sixty ticks. -/
def ranDown : PomodoroState :=
  { PomodoroState.initial with
    isActive := true, workDuration := 60, timeRemaining := 0 }

/-- The number is `-0`, `Infinity`, or a finite binary64 number that is `lo`
at least. -/
def JsNumber.isFrom (lo : ℚ) (x : JsNumber) : Prop :=
  x = JsNumber.negZero ∨ x = JsNumber.posInf ∨
    ∃ q : ℚ, x = JsNumber.finite q ∧ lo ≤ q ∧ isDouble q

/-- The durations are not negative, the remaining time is at least -1 and
lies within the duration of the current session kind, and a paused timer is
active. -/
def PomodoroState.bounded (s : PomodoroState) : Prop :=
  s.workDuration.isFrom 0 ∧ s.breakDuration.isFrom 0 ∧ s.timeRemaining.isFrom (-1) ∧
    s.timeRemaining ≤ s.durationOf s.currentSession ∧ (s.isPaused = true → s.isActive = true)

/-! ## The PomodoroTimer component (components/PomodoroTimer.jsx 7-65) -/

/-- The functions of the store object that can be called without an argument,
by their key (pomodoroStore.js 16-97); any other key gives no function. -/
def pomodoroStoreCall (key : String) : Option (PomodoroState → PomodoroState) :=
  if key = "startTimer" then some (startTimer none)
  else if key = "pauseTimer" then some pauseTimer
  else if key = "resetTimer" then some resetTimer
  else if key = "tick" then some tick
  else if key = "completeSession" then some completeSession
  else none

/-- The local state of the component (lines 15-17). -/
structure TimerState where
  timeLeft : Int
  isActive : Bool
  isBreak : Bool
  deriving DecidableEq, Repr

/-- What a callback of the component leaves behind. -/
structure TimerRun where
  timer : TimerState
  store : PomodoroState
  thrown : Option JsError := none
  deriving DecidableEq, Repr

/-- Lines 39-57: the callback of the one-second interval, with the updater it
hands to `setTimeLeft`.  `incrementCompletedSessions` is what the destructuring
of line 10 finds under that key of the store. -/
def intervalTick (timer : TimerState) (store : PomodoroState) : TimerRun :=
  if timer.timeLeft ≤ 1 then
    if !timer.isBreak then
      match pomodoroStoreCall "incrementCompletedSessions" with
      | some incrementCompletedSessions =>
        { timer := { timeLeft := 0, isActive := false, isBreak := !timer.isBreak }
          store := incrementCompletedSessions store }
      | none =>
        { timer := timer, store := store
          thrown := some { message := "incrementCompletedSessions is not a function" } }
    else
      { timer := { timeLeft := 0, isActive := false, isBreak := !timer.isBreak }, store := store }
  else
    { timer := { timer with timeLeft := timer.timeLeft - 1 }, store := store }

/-! ## isOverdue (components/TaskCard.jsx 124-150) -/

/-- The `dueDate` of the task a card is given, by the cases `isOverdue` distinguishes. -/
inductive DueValue where
  /-- The key is missing, `null` or `undefined`. -/
  | absent
  /-- A `Date` object. -/
  | date (d : JsDate)
  /-- A string. -/
  | str (s : String)
  /-- An object with a numeric `seconds` field, such as a provider timestamp. -/
  | timestamp (seconds : Int)
  /-- Any other truthy value. -/
  | other
  deriving DecidableEq, Repr

/-- The task of a card, as far as `isOverdue` reads it. -/
structure CardTask where
  status : String
  dueDate : DueValue
  deriving DecidableEq, Repr

/-- The comparison `dueDate < now` of a `Date` with the `Date` of the time
`now`: false for an Invalid Date. -/
def JsDate.before (d : JsDate) (now : Int) : Bool :=
  match d with
  | JsDate.time ms => decide (ms < now)
  | JsDate.invalid => false

/-- The largest time value of a `Date`, in milliseconds on either side of the
epoch: 8.64e15. -/
def maxTimeValue : Int := 8640000000000000

/-- `new Date(ms)` for a whole number of milliseconds: an Invalid Date when
`ms` lies beyond the largest time value. -/
def dateOfMillis (ms : Int) : JsDate :=
  if ms < -maxTimeValue ∨ maxTimeValue < ms then JsDate.invalid else JsDate.time ms

/-- Lines 125-149: `isOverdue`, `now` being the `new Date()` of line 144.  The
test `task.dueDate.seconds` of line 135 is false for `seconds: 0`. -/
def isOverdue (parseDate : String → Option Int) (task : CardTask) (now : Int) : Bool :=
  match task.dueDate with
  | DueValue.absent => false
  | DueValue.date d => task.status != "completed" && d.before now
  | DueValue.str s =>
    if s = "" then false
    else task.status != "completed" && (newDate parseDate s).before now
  | DueValue.timestamp seconds =>
    if seconds = 0 then false
    else task.status != "completed" && (dateOfMillis (seconds * 1000)).before now
  | DueValue.other => false

/-- The instant of a due date, in the words of the specification: the time of
a valid `Date`, the date a non-empty string parses to, `seconds × 1000` for an
object with a `seconds` field; none when the due date is absent or no date. -/
def DueValue.instant (parseDate : String → Option Int) : DueValue → Option Int
  | DueValue.date (JsDate.time ms) => some ms
  | DueValue.str s => if s = "" then none else parseDate s
  | DueValue.timestamp seconds => some (seconds * 1000)
  | _ => none

/-- The due date is one `isOverdue` is specified for and can hold as a `Date`:
not a timestamp object with `seconds: 0`, and not one whose instant lies
beyond the largest time value. -/
def DueValue.regular : DueValue → Prop
  | DueValue.timestamp seconds =>
    seconds ≠ 0 ∧ -maxTimeValue ≤ seconds * 1000 ∧ seconds * 1000 ≤ maxTimeValue
  | _ => True

/-! ## The habit tracker (pages/HabitTracker.jsx 169-264) -/

/-- The `logData` of lines 229-236: a habit log that has no id yet. -/
structure HabitLogData where
  habitId : String
  date : String
  progress : Nat
  userId : String
  createdAt : Int
  updatedAt : Int
  deriving DecidableEq, Repr

/-- A habit log of the local state: the data together with the Firestore id. -/
structure HabitLog extends HabitLogData where
  id : String
  deriving DecidableEq, Repr

/-- A habit of the local state, with its logs. -/
structure Habit where
  id : String
  name : String
  goal : Nat
  frequency : String
  color : String
  userId : String
  logs : List HabitLog
  deriving DecidableEq, Repr

/-- A call issued to Firestore on `users/{userId}/habitLogs`. -/
inductive HabitOp where
  | addDoc (userId : String) (logData : HabitLogData)
  | updateDoc (userId : String) (logId : String) (progress : Nat) (updatedAt : Int)
  | deleteDoc (userId : String) (logId : String)
  deriving DecidableEq, Repr

/-- What `toggleHabitCompletion` leaves behind: the component states `habits`
and `error`, the Firestore calls issued, and the error thrown, if any. -/
structure HabitRun where
  habits : List Habit
  error : Option String
  writes : List HabitOp
  thrown : Option JsError := none
  deriving DecidableEq, Repr

/-- `date.toISOString().split('T')[0]`: the day of a valid date, by the
runtime's `toISODay`, and a `RangeError` on an Invalid Date. -/
def dateString (toISODay : Int → String) : JsDate → Except JsError String
  | JsDate.time ms => Except.ok (toISODay ms)
  | JsDate.invalid => Except.error { message := "Invalid time value" }

/-- Lines 173-175 and 262: `habit.logs.find(log => log.date === dateString)`. -/
def findLog (habit : Habit) (day : String) : Option HabitLog :=
  habit.logs.find? fun log => decide (log.date = day)

/-- Lines 260-264: `getHabitProgress`. -/
def getHabitProgress (toISODay : Int → String) (habit : Habit) (date : JsDate) :
    Except JsError Nat :=
  match dateString toISODay date with
  | Except.error e => Except.error e
  | Except.ok day =>
    match findLog habit day with
    | some log => Except.ok log.progress
    | none => Except.ok 0

/-- Lines 191-199: the habits once the log is deleted. -/
def withoutLog (habit : Habit) (existingLog : HabitLog) (habits : List Habit) : List Habit :=
  habits.map fun h =>
    if h.id = habit.id then
      { h with logs := h.logs.filter fun log => decide (log.id ≠ existingLog.id) }
    else h

/-- Lines 211-223: the habits once the log has its new progress. -/
def withProgress (habit : Habit) (existingLog : HabitLog) (newProgress : Nat)
    (habits : List Habit) : List Habit :=
  habits.map fun h =>
    if h.id = habit.id then
      { h with
        logs := h.logs.map fun log =>
          if log.id = existingLog.id then { log with progress := newProgress } else log }
    else h

/-- Lines 242-250: the habits once the new log is appended. -/
def withNewLog (habit : Habit) (newLog : HabitLog) (habits : List Habit) : List Habit :=
  habits.map fun h =>
    if h.id = habit.id then { h with logs := h.logs ++ [newLog] } else h

/-- Lines 169-258: `toggleHabitCompletion(habit, date)`, on the component states
`habits` and `error`.  `remote` is the outcome of the one Firestore call: for
`addDoc` the id of the new document. -/
def toggleHabitCompletion (toISODay : Int → String) (habit : Habit) (date : JsDate)
    (userId : String) (now : Int) (remote : Except JsError String)
    (habits : List Habit) (error : Option String) : HabitRun :=
  match dateString toISODay date with
  | Except.error e => { habits := habits, error := error, writes := [], thrown := some e }
  | Except.ok day =>
    match findLog habit day with
    | some existingLog =>
      let newProgress :=
        if existingLog.progress + 1 > habit.goal then 0 else existingLog.progress + 1
      if newProgress = 0 then
        match remote with
        | Except.ok _ =>
          { habits := withoutLog habit existingLog habits, error := error
            writes := [HabitOp.deleteDoc userId existingLog.id] }
        | Except.error _ =>
          { habits := habits, error := some "Failed to update habit completion"
            writes := [HabitOp.deleteDoc userId existingLog.id] }
      else
        match remote with
        | Except.ok _ =>
          { habits := withProgress habit existingLog newProgress habits, error := error
            writes := [HabitOp.updateDoc userId existingLog.id newProgress now] }
        | Except.error _ =>
          { habits := habits, error := some "Failed to update habit completion"
            writes := [HabitOp.updateDoc userId existingLog.id newProgress now] }
    | none =>
      let logData : HabitLogData :=
        { habitId := habit.id, date := day, progress := 1, userId := userId,
          createdAt := now, updatedAt := now }
      match remote with
      | Except.ok docId =>
        { habits := withNewLog habit { toHabitLogData := logData, id := docId } habits
          error := error
          writes := [HabitOp.addDoc userId logData] }
      | Except.error _ =>
        { habits := habits, error := some "Failed to update habit completion"
          writes := [HabitOp.addDoc userId logData] }

/-- A click on the cell of the `i`-th habit row (line 360): the habit handed to
`toggleHabitCompletion` is the `i`-th habit of the state, and the Firestore call
resolves, with `docId` when it is `addDoc`. -/
def clickHabit (toISODay : Int → String) (i : Nat) (date : JsDate) (userId : String)
    (habits : List Habit) (click : String × Int) : List Habit :=
  match habits[i]? with
  | some habit =>
    (toggleHabitCompletion toISODay habit date userId click.2 (Except.ok click.1)
      habits none).habits
  | none => habits

/-- Consecutive clicks on the same cell, each on the state the one before left. -/
def clickHabitTimes (toISODay : Int → String) (i : Nat) (date : JsDate) (userId : String)
    (habits : List Habit) (clicks : List (String × Int)) : List Habit :=
  clicks.foldl (clickHabit toISODay i date userId) habits

/-- The invariant of the logs of a habit: a goal of at least 1, pairwise
distinct date keys, and every progress between 1 and the goal. -/
def Habit.logsOk (habit : Habit) : Prop :=
  1 ≤ habit.goal ∧ (habit.logs.map fun log => log.date).Nodup ∧
    ∀ log ∈ habit.logs, 1 ≤ log.progress ∧ log.progress ≤ habit.goal

/-- The write stores no progress of 0. -/
def HabitOp.storesProgress : HabitOp → Prop
  | HabitOp.addDoc _ logData => 1 ≤ logData.progress
  | HabitOp.updateDoc _ _ progress _ => 1 ≤ progress
  | HabitOp.deleteDoc _ _ => True

/-- The habit has, for the day, no log when `progress` is 0, and otherwise one
log, the last, with that progress. -/
def Habit.atProgress (habit : Habit) (day : String) (progress : Nat) : Prop :=
  (progress = 0 ∧ ∀ log ∈ habit.logs, log.date ≠ day) ∨
    (1 ≤ progress ∧ ∃ earlier last, habit.logs = earlier ++ [last] ∧
      (∀ log ∈ earlier, log.date ≠ day) ∧ last.date = day ∧ last.progress = progress)

/-- The first two days of 1970, by the millisecond. -/
def sampleDay (ms : Int) : String :=
  if ms < 86400000 then "1970-01-01" else "1970-01-02"

/-- A habit with goal 3 and no log. -/
def sampleHabit : Habit :=
  { id := "h1", name := "Read", goal := 3, frequency := "daily", color := "#3B82F6",
    userId := "u1", logs := [] }

/-- A second habit under the id of the sample habit, with one log, for the
first day of 1970. -/
def twinHabit : Habit :=
  { id := "h1", name := "Run", goal := 3, frequency := "daily", color := "#10B981",
    userId := "u1",
    logs :=
      [{ habitId := "h1", date := "1970-01-01", progress := 1, userId := "u1",
         createdAt := 1, updatedAt := 1, id := "l1" }] }

end SmartTodo

namespace SmartTodo

/-! ## Lemmas on the operations -/

theorem updateTask_tasks (taskId : String) (taskData : Patch) (userId : String)
    (now later : Int) (remoteOk : Bool) (s : StoreState) :
    (updateTask taskId taskData userId now later remoteOk s).state.tasks =
      if userId = "" ∨ taskId = "" ∨ remoteOk = false then s.tasks
      else s.tasks.map fun task =>
        if task.id = taskId then mergeTask task taskData later else task := by
  unfold updateTask
  by_cases hu : userId = ""
  · simp [hu]
  · by_cases ht : taskId = ""
    · simp [ht]
    · cases remoteOk <;> simp [hu, ht]

theorem updateTask_tasks_noop (taskId : String) (taskData : Patch) (userId : String)
    (now later : Int) (s : StoreState) :
    (updateTask taskId taskData userId now later false s).state.tasks = s.tasks := by
  rw [updateTask_tasks]; simp

theorem orDefault_todo_completed (v : Option String) :
    orDefault v "to-do" = "completed" ↔ v = some "completed" := by
  cases v with
  | none => simp [orDefault]
  | some st =>
    by_cases h0 : st = ""
    · subst h0; simp [orDefault]
    · simp [orDefault, h0]

theorem buildTask_inSync (parseDate : String → Option Int) (taskData : TaskDraft)
    (userId : String) (now : Int) :
    (buildTask parseDate taskData userId now).completed =
      decide ((buildTask parseDate taskData userId now).status = "completed") := by
  simp only [buildTask]
  exact (decide_eq_decide.mpr (orDefault_todo_completed taskData.status)).symm

theorem buildTask_completedAt (parseDate : String → Option Int) (taskData : TaskDraft)
    (userId : String) (now : Int) :
    (buildTask parseDate taskData userId now).completedAt.isSome = true ↔
      (buildTask parseDate taskData userId now).status = "completed" := by
  simp only [buildTask]
  by_cases h : orDefault taskData.status "to-do" = "completed" <;> simp [h]

theorem addTask_tasks (parseDate : String → Option Int) (taskData : TaskDraft)
    (userId : String) (now : Int) (remote : Except JsError String) (s : StoreState) :
    (addTask parseDate taskData userId now remote s).state.tasks =
      match remote with
      | Except.ok docId =>
        if userId = "" then s.tasks
        else s.tasks ++ [{ toTaskDoc := buildTask parseDate taskData userId now, id := docId }]
      | Except.error _ => s.tasks := by
  unfold addTask
  by_cases hu : userId = ""
  · cases remote <;> simp [hu]
  · cases remote <;> simp [hu]

/-- A patch that keeps the flag in step does so on every task it is merged into. -/
theorem mergeTask_inSync (t : Task) (p : Patch) (later : Int) (hp : p.keepsSync) :
    (mergeTask t p later).inSync := by
  obtain ⟨st, h1, h2⟩ := hp
  simp [Task.inSync, mergeTask, h1, h2]

/-- If merging the patch keeps every synchronised task synchronised, `updateTask`
keeps the collection synchronised. -/
theorem updateTask_inSync (taskId : String) (p : Patch) (userId : String)
    (now later : Int) (remoteOk : Bool) (s : StoreState)
    (hp : ∀ t ∈ s.tasks, t.id = taskId → (mergeTask t p later).inSync)
    (h : ∀ t ∈ s.tasks, t.inSync) :
    ∀ t ∈ (updateTask taskId p userId now later remoteOk s).state.tasks, t.inSync := by
  rw [updateTask_tasks]
  split
  · exact h
  · intro t ht
    rw [List.mem_map] at ht
    obtain ⟨u, hu, rfl⟩ := ht
    by_cases hid : u.id = taskId
    · simp only [hid, if_true]; exact hp u hu hid
    · simp only [hid, if_false]; exact h u hu

theorem toggleData_inSync (task u : Task) (now later : Int) (h : task.inSync) :
    (mergeTask u (toggleData task now) later).inSync := by
  unfold Task.inSync at h
  unfold toggleData
  cases hc : task.completed with
  | false => simp [Task.inSync, mergeTask]
  | true =>
    have hs : task.status = "completed" := by simpa [hc] using h.symm
    simp [Task.inSync, mergeTask, hs]

theorem statusData_keepsSync (status : String) (now : Int) :
    (statusData status now).keepsSync := by
  unfold statusData Patch.keepsSync
  by_cases h : status = "completed"
  · exact ⟨status, by simp [h], by simp [h]⟩
  · exact ⟨status, by simp [h], by simp [h]⟩

theorem toggleTaskCompletion_inSync (taskId userId : String) (now later : Int)
    (remoteOk : Bool) (s : StoreState) (h : ∀ t ∈ s.tasks, t.inSync) :
    ∀ t ∈ (toggleTaskCompletion taskId userId now later remoteOk s).state.tasks,
      t.inSync := by
  unfold toggleTaskCompletion
  split
  · exact h
  · split
    · exact h
    · next task hfind =>
      have hmem : task ∈ s.tasks := List.mem_of_find?_eq_some hfind
      exact updateTask_inSync _ _ _ _ _ _ _
        (fun u _ _ => toggleData_inSync task u now later (h task hmem)) h

/-! ## C1: the `completed` flag mirrors the status -/

/-- C1 (as stated, refuted): `updateTask` with the patch `{status: 'completed'}`
succeeds on a synchronised collection and leaves a task whose status is
`completed` while its `completed` flag is still false. -/
theorem updateTask_status_patch_desyncs :
    (∀ t ∈ sampleStore.tasks, t.inSync) ∧
    (updateTask "t1" { status := some "completed" } "u1" 5 6 true sampleStore).state.tasks
      = [{ sampleTask with status := "completed", updatedAt := 6 }] ∧
    ¬ (∀ t ∈ (Mutation.apply
          (Mutation.updateTask "t1" { status := some "completed" } "u1" 5 6 true)
          sampleStore).tasks, t.inSync) := by
  decide

/-- C1 (amended): every store mutation keeps `completed = (status == 'completed')`
on every task of the collection, provided it held before and provided an
`updateTask` patch writes `completed` to match the status it writes; this
covers addTask, toggleTaskCompletion, updateTaskStatus and updateTaskPriority
whatever their outcome. -/
theorem mutation_keeps_completed_in_sync (m : Mutation) (s : StoreState)
    (hm : m.keepsSync) (h : ∀ t ∈ s.tasks, t.inSync) :
    ∀ t ∈ (m.apply s).tasks, t.inSync := by
  cases m with
  | addTask parseDate taskData userId now remote =>
    simp only [Mutation.apply, addTask_tasks]
    cases remote with
    | error e => exact h
    | ok docId =>
      by_cases hu : userId = ""
      · simpa [hu] using h
      · simp only [hu, if_false]
        intro t ht
        rcases List.mem_append.mp ht with ht | ht
        · exact h t ht
        · rw [List.mem_singleton] at ht
          subst ht
          exact buildTask_inSync parseDate taskData userId now
  | updateTask taskId taskData userId now later remoteOk =>
    exact updateTask_inSync _ _ _ _ _ _ _
      (fun t _ _ => mergeTask_inSync t taskData later hm) h
  | toggleTaskCompletion taskId userId now later remoteOk =>
    exact toggleTaskCompletion_inSync _ _ _ _ _ _ h
  | updateTaskStatus taskId status userId now later remoteOk =>
    simp only [Mutation.apply, updateTaskStatus]
    split
    · exact h
    · exact updateTask_inSync _ _ _ _ _ _ _
        (fun t _ _ => mergeTask_inSync t _ later (statusData_keepsSync status now)) h
  | updateTaskPriority taskId priority userId now later remoteOk =>
    simp only [Mutation.apply, updateTaskPriority]
    split
    · exact h
    · refine updateTask_inSync _ _ _ _ _ _ _ (fun t ht _ => ?_) h
      have := h t ht
      simpa [Task.inSync, mergeTask] using this

/-- Witness for C1: `updateTaskStatus` to `completed` on the sample store. -/
theorem mutation_keeps_completed_in_sync_witness :
    ((Mutation.updateTaskStatus "t1" "completed" "u1" 5 6 true).keepsSync ∧
      ∀ t ∈ sampleStore.tasks, t.inSync) ∧
    ∀ t ∈ ((Mutation.updateTaskStatus "t1" "completed" "u1" 5 6 true).apply
        sampleStore).tasks, t.inSync :=
  ⟨⟨trivial, by decide⟩,
    mutation_keeps_completed_in_sync _ sampleStore trivial (by decide)⟩

/-! ## C2: `completedAt` records that the task was once completed -/

theorem toggleData_stamps (task : Task) (now : Int) : (toggleData task now).stamps := by
  unfold toggleData Patch.stamps
  cases task.completed with
  | false => left; exact ⟨rfl, now, rfl⟩
  | true =>
    by_cases hs : task.status = "completed"
    · right; simp [hs]
    · right; simp [hs]

theorem statusData_stamps (status : String) (now : Int) : (statusData status now).stamps := by
  unfold statusData Patch.stamps
  by_cases hs : status = "completed"
  · left; simp [hs]
  · right; simp [hs]

/-- Merging a stamping patch keeps the stamp, and sets it exactly when the new
status is `completed`. -/
theorem mergeTask_stamped (t : Task) (p : Patch) (later : Int) (hp : p.stamps)
    (ht : t.stamped) :
    (mergeTask t p later).stamped ∧
      ((mergeTask t p later).completedAt.isSome = true ↔
        t.completedAt.isSome = true ∨ (mergeTask t p later).status = "completed") := by
  unfold Task.stamped at *
  rcases hp with ⟨h1, stamp, h2⟩ | ⟨h1, h2⟩
  · simp [mergeTask, h1, h2]
  · have key : (mergeTask t p later).status = "completed" → t.status = "completed" := by
      intro h
      cases hst : p.status with
      | none => simpa [mergeTask, hst] using h
      | some st =>
        have : st = "completed" := by simpa [mergeTask, hst] using h
        exact absurd (by rw [hst, this]) h1
    have hc : (mergeTask t p later).completedAt = t.completedAt := by
      simp [mergeTask, h2]
    rw [hc]
    refine ⟨fun h => ht (key h), ⟨Or.inl, ?_⟩⟩
    rintro (h | h)
    · exact h
    · exact ht (key h)

theorem updateTask_getElem? (taskId : String) (p : Patch) (userId : String)
    (now later : Int) (remoteOk : Bool) (s : StoreState) (k : Nat) (t : Task)
    (hk : s.tasks[k]? = some t) :
    (updateTask taskId p userId now later remoteOk s).state.tasks[k]? = some t ∨
      (updateTask taskId p userId now later remoteOk s).state.tasks[k]? =
        some (mergeTask t p later) := by
  rw [updateTask_tasks]
  split
  · exact Or.inl hk
  · rw [List.getElem?_map, hk]
    by_cases hid : t.id = taskId
    · right; simp [hid]
    · left; simp [hid]

/-- A stamping mutation leaves the task at a position as it was, or merges a
stamping patch into it. -/
theorem apply_getElem? (m : Mutation) (s : StoreState) (k : Nat) (t : Task)
    (hm : m.stamps) (hk : s.tasks[k]? = some t) :
    ∃ u, (m.apply s).tasks[k]? = some u ∧
      (u = t ∨ ∃ p later, p.stamps ∧ u = mergeTask t p later) := by
  have upd : ∀ (taskId : String) (p : Patch) (userId : String) (now later : Int)
      (remoteOk : Bool), p.stamps →
      ∃ u, (updateTask taskId p userId now later remoteOk s).state.tasks[k]? = some u ∧
        (u = t ∨ ∃ p later, p.stamps ∧ u = mergeTask t p later) := by
    intro taskId p userId now later remoteOk hp
    rcases updateTask_getElem? taskId p userId now later remoteOk s k t hk with h | h
    · exact ⟨t, h, Or.inl rfl⟩
    · exact ⟨_, h, Or.inr ⟨p, later, hp, rfl⟩⟩
  cases m with
  | addTask parseDate taskData userId now remote =>
    refine ⟨t, ?_, Or.inl rfl⟩
    simp only [Mutation.apply, addTask_tasks]
    cases remote with
    | error e => exact hk
    | ok docId =>
      by_cases hu : userId = ""
      · simpa [hu] using hk
      · simp only [hu, if_false]
        have hlt : k < s.tasks.length := (List.getElem?_eq_some.mp hk).1
        rw [List.getElem?_append_left hlt]; exact hk
  | updateTask taskId taskData userId now later remoteOk =>
    exact upd _ _ _ _ _ _ hm
  | toggleTaskCompletion taskId userId now later remoteOk =>
    simp only [Mutation.apply, toggleTaskCompletion]
    split
    · exact ⟨t, hk, Or.inl rfl⟩
    · split
      · exact ⟨t, hk, Or.inl rfl⟩
      · next task _ => exact upd _ _ _ _ _ _ (toggleData_stamps task now)
  | updateTaskStatus taskId status userId now later remoteOk =>
    simp only [Mutation.apply, updateTaskStatus]
    split
    · exact ⟨t, hk, Or.inl rfl⟩
    · exact upd _ _ _ _ _ _ (statusData_stamps status now)
  | updateTaskPriority taskId priority userId now later remoteOk =>
    simp only [Mutation.apply, updateTaskPriority]
    split
    · exact ⟨t, hk, Or.inl rfl⟩
    · exact upd _ _ _ _ _ _ (Or.inr ⟨by simp, rfl⟩)

/-- Along a sequence of stamping mutations the task at position `k` ends with a
stamp exactly when it had one at the start or its status was `completed` in one
of the states passed through. -/
theorem runAll_stamped (k : Nat) (ms : List Mutation) :
    ∀ (s : StoreState) (t : Task), (∀ m ∈ ms, m.stamps) → s.tasks[k]? = some t →
      t.stamped →
      ∃ u, (runAll s ms).tasks[k]? = some u ∧ u.stamped ∧
        (u.completedAt.isSome = true ↔
          t.completedAt.isSome = true ∨
            ∃ st ∈ trace s ms, ∃ v, st.tasks[k]? = some v ∧ v.status = "completed") := by
  induction ms with
  | nil =>
    intro s t _ hk ht
    refine ⟨t, hk, ht, ⟨Or.inl, ?_⟩⟩
    rintro (h | ⟨st, hst, v, hv, hc⟩)
    · exact h
    · simp only [trace, List.mem_singleton] at hst
      subst hst
      rw [hk] at hv
      cases hv
      exact ht hc
  | cons m ms ih =>
    intro s t hms hk ht
    have hm : m.stamps := hms m (List.mem_cons_self _ _)
    have hrest : ∀ m' ∈ ms, m'.stamps := fun m' h => hms m' (List.mem_cons_of_mem _ h)
    obtain ⟨u, hu, hcase⟩ := apply_getElem? m s k t hm hk
    have hu_st : u.stamped ∧
        (u.completedAt.isSome = true ↔ t.completedAt.isSome = true ∨ u.status = "completed") := by
      rcases hcase with rfl | ⟨p, later, hp, rfl⟩
      · exact ⟨ht, ⟨Or.inl, fun h => h.elim id ht⟩⟩
      · exact mergeTask_stamped t p later hp ht
    obtain ⟨w, hw, hwst, hiff⟩ := ih (m.apply s) u hrest hu hu_st.1
    refine ⟨w, by simpa [runAll] using hw, hwst, ?_⟩
    rw [hiff, hu_st.2]
    constructor
    · rintro ((h | h) | ⟨st, hst, hv⟩)
      · exact Or.inl h
      · refine Or.inr ⟨m.apply s, ?_, u, hu, h⟩
        simp only [trace, List.mem_cons]
        right
        cases ms <;> simp [trace]
      · exact Or.inr ⟨st, by simp only [trace, List.mem_cons]; exact Or.inr hst, hv⟩
    · rintro (h | ⟨st, hst, v, hv, hc⟩)
      · exact Or.inl (Or.inl h)
      · simp only [trace, List.mem_cons] at hst
        rcases hst with rfl | hst
        · rw [hk] at hv
          cases hv
          exact Or.inl (Or.inl (ht hc))
        · exact Or.inr ⟨st, hst, v, hv, hc⟩

theorem mem_trace_self (s : StoreState) (ms : List Mutation) : s ∈ trace s ms := by
  cases ms <;> simp [trace]

/-- C2 (as stated, refuted): a task created by addTask with status `to-do` and
then moved to `completed` by `updateTask` with the patch `{status: 'completed'}`
ends with status `completed` and no `completedAt`. -/
theorem updateTask_status_patch_leaves_no_stamp :
    runAll (addTask (fun _ => none) sampleDraft "u1" 100 (Except.ok "t1")
        StoreState.initial).state
      [Mutation.updateTask "t1" { status := some "completed" } "u1" 5 6 true]
      = { sampleStore with
          tasks := [{ sampleTask with status := "completed", updatedAt := 6,
                                      completedAt := none }] } := by
  decide

/-- C2 (amended): for a task created by a successful addTask and any finite
sequence of later store mutations in which every `updateTask` patch stamps
`completedAt` exactly when it sets the status to `completed` (toggleTaskCompletion,
updateTaskStatus and updateTaskPriority always do), the task ends with
`completedAt` present if and only if its status was `completed` in one of the
states of that history. -/
theorem completedAt_iff_was_completed (parseDate : String → Option Int)
    (taskData : TaskDraft) (userId : String) (now : Int) (docId : String)
    (s0 : StoreState) (ms : List Mutation)
    (hu : userId ≠ "") (hms : ∀ m ∈ ms, m.stamps) :
    ∃ t,
      (runAll (addTask parseDate taskData userId now (Except.ok docId) s0).state
        ms).tasks[s0.tasks.length]? = some t ∧
      (t.completedAt.isSome = true ↔
        ∃ st ∈ trace (addTask parseDate taskData userId now (Except.ok docId) s0).state ms,
          ∃ v, st.tasks[s0.tasks.length]? = some v ∧ v.status = "completed") := by
  have hk : (addTask parseDate taskData userId now (Except.ok docId) s0).state.tasks[
      s0.tasks.length]? =
      some { toTaskDoc := buildTask parseDate taskData userId now, id := docId } := by
    rw [addTask_tasks]
    simp [hu]
  have hst : Task.stamped
      { toTaskDoc := buildTask parseDate taskData userId now, id := docId } :=
    fun h => (buildTask_completedAt parseDate taskData userId now).mpr h
  obtain ⟨u, hu1, _, hiff⟩ := runAll_stamped s0.tasks.length ms _ _ hms hk hst
  refine ⟨u, hu1, ?_⟩
  rw [hiff]
  constructor
  · rintro (h | h)
    · exact ⟨_, mem_trace_self _ ms, _, hk,
        (buildTask_completedAt parseDate taskData userId now).mp h⟩
    · exact h
  · exact Or.inr

/-- Witness for C2: the sample task is created, completed through
updateTaskStatus and toggled back. -/
theorem completedAt_iff_was_completed_witness :
    ("u1" ≠ "" ∧
      ∀ m ∈ [Mutation.updateTaskStatus "t1" "completed" "u1" 5 6 true,
             Mutation.toggleTaskCompletion "t1" "u1" 7 8 true], m.stamps) ∧
    ∃ t,
      (runAll (addTask (fun _ => none) sampleDraft "u1" 100 (Except.ok "t1")
          StoreState.initial).state
        [Mutation.updateTaskStatus "t1" "completed" "u1" 5 6 true,
         Mutation.toggleTaskCompletion "t1" "u1" 7 8 true]).tasks[
          StoreState.initial.tasks.length]? = some t ∧
      (t.completedAt.isSome = true ↔
        ∃ st ∈ trace (addTask (fun _ => none) sampleDraft "u1" 100 (Except.ok "t1")
            StoreState.initial).state
            [Mutation.updateTaskStatus "t1" "completed" "u1" 5 6 true,
             Mutation.toggleTaskCompletion "t1" "u1" 7 8 true],
          ∃ v, st.tasks[StoreState.initial.tasks.length]? = some v ∧
            v.status = "completed") :=
  have hms : ∀ m ∈ [Mutation.updateTaskStatus "t1" "completed" "u1" 5 6 true,
      Mutation.toggleTaskCompletion "t1" "u1" 7 8 true], m.stamps := by
    intro m hm
    simp only [List.mem_cons, List.mem_singleton, List.not_mem_nil, or_false] at hm
    rcases hm with rfl | rfl <;> trivial
  ⟨⟨by decide, hms⟩,
    completedAt_iff_was_completed (fun _ => none) sampleDraft "u1" 100 "t1"
      StoreState.initial _ (by decide) hms⟩

/-! ## C3, C4, C5: toggleTaskCompletion and updateTaskStatus -/

theorem updateTask_ok (taskId : String) (p : Patch) (userId : String) (now later : Int)
    (s : StoreState) (hu : userId ≠ "") (ht : taskId ≠ "") :
    (updateTask taskId p userId now later true s).state.tasks =
      s.tasks.map fun task => if task.id = taskId then mergeTask task p later else task := by
  rw [updateTask_tasks]; simp [hu, ht]

/-- A successful `updateTask` whose patch has no `id` key maps the first task
with the id to its merge. -/
theorem updateTask_find? (taskId : String) (p : Patch) (userId : String)
    (now later : Int) (s : StoreState) (t : Task) (hu : userId ≠ "") (ht : taskId ≠ "")
    (hp : p.id = none) (hfind : s.tasks.find? (fun u => decide (u.id = taskId)) = some t) :
    (updateTask taskId p userId now later true s).state.tasks.find?
      (fun u => decide (u.id = taskId)) = some (mergeTask t p later) := by
  rw [updateTask_ok _ _ _ _ _ _ hu ht, List.find?_map]
  have hcomp : ((fun u : Task => decide (u.id = taskId)) ∘
      fun task => if task.id = taskId then mergeTask task p later else task) =
      fun u => decide (u.id = taskId) := by
    funext u
    by_cases hid : u.id = taskId
    · simp [hid, mergeTask, hp]
    · simp [hid]
  have hid : t.id = taskId := by simpa using List.find?_some hfind
  rw [hcomp, hfind]
  simp [hid]

theorem toggleTaskCompletion_found (taskId userId : String) (now later : Int)
    (remoteOk : Bool) (s : StoreState) (t : Task) (hu : userId ≠ "") (ht : taskId ≠ "")
    (hfind : s.tasks.find? (fun u => decide (u.id = taskId)) = some t) :
    toggleTaskCompletion taskId userId now later remoteOk s =
      updateTask taskId (toggleData t now) userId now later remoteOk s := by
  simp [toggleTaskCompletion, hu, ht, hfind]

theorem toggleData_id (t : Task) (now : Int) : (toggleData t now).id = none := by
  unfold toggleData
  split
  · rfl
  · split <;> rfl

/-- C3 (as stated, refuted): two successful toggles of a `to-do` task leave it
`in-progress`, not `to-do`. -/
theorem toggle_twice_from_todo :
    (toggleTaskCompletion "t1" "u1" 7 8 true
        (toggleTaskCompletion "t1" "u1" 5 6 true sampleStore).state).state.tasks
      = [{ sampleTask with status := "in-progress", completed := false,
                           completedAt := some 5, updatedAt := 8 }] ∧
    sampleTask.status = "to-do" := by
  decide

/-- C3 (amended): for the task toggleTaskCompletion looks up, two successful
toggles in succession restore the `completed` flag and leave the status
`completed` when the flag was true and `in-progress` when it was false; so the
original status comes back exactly when it was that one, and a `to-do` task
ends `in-progress`. -/
theorem toggle_twice_status (taskId userId : String) (n1 l1 n2 l2 : Int)
    (s : StoreState) (t : Task) (hu : userId ≠ "") (ht : taskId ≠ "")
    (hfind : s.tasks.find? (fun u => decide (u.id = taskId)) = some t) :
    ∃ t2,
      (toggleTaskCompletion taskId userId n2 l2 true
          (toggleTaskCompletion taskId userId n1 l1 true s).state).state.tasks.find?
        (fun u => decide (u.id = taskId)) = some t2 ∧
      t2.completed = t.completed ∧
      t2.status = (if t.completed = true then "completed" else "in-progress") ∧
      (t2.status = t.status ↔
        t.status = (if t.completed = true then "completed" else "in-progress")) := by
  have h1 := updateTask_find? taskId (toggleData t n1) userId n1 l1 s t hu ht
    (toggleData_id t n1) hfind
  rw [← toggleTaskCompletion_found taskId userId n1 l1 true s t hu ht hfind] at h1
  have h2 := updateTask_find? taskId (toggleData (mergeTask t (toggleData t n1) l1) n2)
    userId n2 l2 _ _ hu ht (toggleData_id _ n2) h1
  rw [← toggleTaskCompletion_found taskId userId n2 l2 true _ _ hu ht h1] at h2
  refine ⟨_, h2, ?_⟩
  have hst : (mergeTask (mergeTask t (toggleData t n1) l1)
      (toggleData (mergeTask t (toggleData t n1) l1) n2) l2).status =
      (if t.completed = true then "completed" else "in-progress") := by
    cases hc : t.completed with
    | false => simp [mergeTask, toggleData, hc]
    | true =>
      by_cases hs : t.status = "completed"
      · simp [mergeTask, toggleData, hc, hs]
      · simp [mergeTask, toggleData, hc, hs]
  refine ⟨?_, hst, ?_⟩
  · cases hc : t.completed with
    | false => simp [mergeTask, toggleData, hc]
    | true =>
      by_cases hs : t.status = "completed"
      · simp [mergeTask, toggleData, hc, hs]
      · simp [mergeTask, toggleData, hc, hs]
  · rw [hst]
    exact eq_comm

/-- Witness for C3: the sample task once it is `in-progress`. -/
theorem toggle_twice_status_witness :
    ("u1" ≠ "" ∧ "t1" ≠ "" ∧
      [{ sampleTask with status := "in-progress" }].find? (fun u => decide (u.id = "t1"))
        = some { sampleTask with status := "in-progress" }) ∧
    ∃ t2,
      (toggleTaskCompletion "t1" "u1" 7 8 true
          (toggleTaskCompletion "t1" "u1" 5 6 true
            { sampleStore with tasks := [{ sampleTask with status := "in-progress" }] }
          ).state).state.tasks.find?
        (fun u => decide (u.id = "t1")) = some t2 ∧
      t2.completed = false ∧
      t2.status = "in-progress" ∧
      (t2.status = "in-progress" ↔ "in-progress" = "in-progress") :=
  ⟨⟨by decide, by decide, by decide⟩,
    toggle_twice_status "t1" "u1" 5 6 7 8
      { sampleStore with tasks := [{ sampleTask with status := "in-progress" }] }
      { sampleTask with status := "in-progress" }
      (by decide) (by decide) (by decide)⟩

/-- C4: toggleTaskCompletion with a user id and a task id, the remote write
succeeding.  If the task found has `completed` false, every task with that id
gets `completed = true`, `status = 'completed'` and `completedAt = now`; if it
has `completed` true and status `completed`, every task with that id gets
`completed = false` and `status = 'in-progress'` and keeps its `completedAt`;
all other fields but `updatedAt` stay.  If no task has the id, the store is
unchanged and nothing is written, whatever the user id and the remote outcome. -/
theorem toggleTaskCompletion_effect (taskId userId : String) (now later : Int)
    (s : StoreState) (hu : userId ≠ "") (ht : taskId ≠ "") :
    (∀ task, s.tasks.find? (fun u => decide (u.id = taskId)) = some task →
      task.completed = false →
      (toggleTaskCompletion taskId userId now later true s).state.tasks =
        s.tasks.map fun u =>
          if u.id = taskId then
            { u with completed := true, status := "completed", completedAt := some now,
                     updatedAt := later }
          else u) ∧
    (∀ task, s.tasks.find? (fun u => decide (u.id = taskId)) = some task →
      task.completed = true → task.status = "completed" →
      (toggleTaskCompletion taskId userId now later true s).state.tasks =
        s.tasks.map fun u =>
          if u.id = taskId then
            { u with completed := false, status := "in-progress", updatedAt := later }
          else u) ∧
    (s.tasks.find? (fun u => decide (u.id = taskId)) = none →
      ∀ (uid : String) (remoteOk : Bool),
        toggleTaskCompletion taskId uid now later remoteOk s =
          { state := s, writes := [] }) := by
  refine ⟨?_, ?_, ?_⟩
  · intro task hfind hc
    rw [toggleTaskCompletion_found taskId userId now later true s task hu ht hfind,
      updateTask_ok _ _ _ _ _ _ hu ht]
    simp [toggleData, hc, mergeTask]
  · intro task hfind hc hs
    rw [toggleTaskCompletion_found taskId userId now later true s task hu ht hfind,
      updateTask_ok _ _ _ _ _ _ hu ht]
    simp [toggleData, hc, hs, mergeTask]
  · intro hnone uid remoteOk
    unfold toggleTaskCompletion
    split
    · rfl
    · rw [hnone]

/-- Witness for C4: toggling the sample task. -/
theorem toggleTaskCompletion_effect_witness :
    ("u1" ≠ "" ∧ "t1" ≠ "") ∧
    (toggleTaskCompletion "t1" "u1" 5 6 true sampleStore).state.tasks =
      [{ sampleTask with completed := true, status := "completed", completedAt := some 5,
                         updatedAt := 6 }] :=
  ⟨⟨by decide, by decide⟩,
    (toggleTaskCompletion_effect "t1" "u1" 5 6 sampleStore (by decide) (by decide)).1
      sampleTask (by decide) (by decide)⟩

/-- C5: updateTaskStatus to `completed` at time `t1` and then to `in-progress`,
both writes succeeding, leaves every task with that id with status
`in-progress`, `completed = false` and `completedAt = t1`; no other task changes. -/
theorem updateTaskStatus_completed_then_inProgress (taskId userId : String)
    (t1 l1 t2 l2 : Int) (s : StoreState) (hu : userId ≠ "") (ht : taskId ≠ "") :
    (updateTaskStatus taskId "in-progress" userId t2 l2 true
        (updateTaskStatus taskId "completed" userId t1 l1 true s).state).state.tasks =
      s.tasks.map fun u =>
        if u.id = taskId then
          { u with status := "in-progress", completed := false, completedAt := some t1,
                   updatedAt := l2 }
        else u := by
  simp only [updateTaskStatus, hu, if_false]
  rw [updateTask_ok _ _ _ _ _ _ hu ht, updateTask_ok _ _ _ _ _ _ hu ht, List.map_map]
  apply List.map_congr_left
  intro u _
  by_cases hid : u.id = taskId
  · simp [hid, statusData, mergeTask]
  · simp [hid]

/-- Witness for C5: the sample task completed at 5 and reopened at 7. -/
theorem updateTaskStatus_completed_then_inProgress_witness :
    ("u1" ≠ "" ∧ "t1" ≠ "") ∧
    (updateTaskStatus "t1" "in-progress" "u1" 7 8 true
        (updateTaskStatus "t1" "completed" "u1" 5 6 true sampleStore).state).state.tasks =
      sampleStore.tasks.map fun u =>
        if u.id = "t1" then
          { u with status := "in-progress", completed := false, completedAt := some 5,
                   updatedAt := 8 }
        else u :=
  ⟨⟨by decide, by decide⟩,
    updateTaskStatus_completed_then_inProgress "t1" "u1" 5 6 7 8 sampleStore
      (by decide) (by decide)⟩

/-! ## C6, C7, C8, C9: addTask -/

/-- C6: with a user id and a resolving `addDoc`, addTask returns the task it
built carrying the id the server assigned, and the new collection is the old
one with exactly that task appended: one longer, every earlier position
unchanged. -/
theorem addTask_appends (parseDate : String → Option Int) (taskData : TaskDraft)
    (userId : String) (now : Int) (docId : String) (s : StoreState) (hu : userId ≠ "") :
    ∃ newTask : Task,
      (addTask parseDate taskData userId now (Except.ok docId) s).result = Except.ok newTask ∧
      newTask.id = docId ∧
      newTask.toTaskDoc = buildTask parseDate taskData userId now ∧
      (addTask parseDate taskData userId now (Except.ok docId) s).state.tasks =
        s.tasks ++ [newTask] ∧
      (addTask parseDate taskData userId now (Except.ok docId) s).state.tasks.length =
        s.tasks.length + 1 ∧
      (∀ i, i < s.tasks.length →
        (addTask parseDate taskData userId now (Except.ok docId) s).state.tasks[i]? =
          s.tasks[i]?) ∧
      (addTask parseDate taskData userId now (Except.ok docId) s).state.tasks.getLast? =
        some newTask := by
  refine ⟨{ toTaskDoc := buildTask parseDate taskData userId now, id := docId }, ?_⟩
  have hst : (addTask parseDate taskData userId now (Except.ok docId) s).state.tasks =
      s.tasks ++ [{ toTaskDoc := buildTask parseDate taskData userId now, id := docId }] := by
    rw [addTask_tasks]; simp [hu]
  refine ⟨by simp [addTask, hu], rfl, rfl, hst, ?_, ?_, ?_⟩
  · rw [hst]; simp
  · intro i hi
    rw [hst, List.getElem?_append_left hi]
  · rw [hst]; simp

/-- Witness for C6: the scenario's draft added to the sample store. -/
theorem addTask_appends_witness :
    "u1" ≠ "" ∧
    ∃ newTask : Task,
      (addTask (fun _ => none) sampleDraft "u1" 200 (Except.ok "t2") sampleStore).result =
        Except.ok newTask ∧
      newTask.id = "t2" ∧
      newTask.toTaskDoc = buildTask (fun _ => none) sampleDraft "u1" 200 ∧
      (addTask (fun _ => none) sampleDraft "u1" 200 (Except.ok "t2") sampleStore).state.tasks =
        sampleStore.tasks ++ [newTask] ∧
      (addTask (fun _ => none) sampleDraft "u1" 200 (Except.ok "t2")
        sampleStore).state.tasks.length = sampleStore.tasks.length + 1 ∧
      (∀ i, i < sampleStore.tasks.length →
        (addTask (fun _ => none) sampleDraft "u1" 200 (Except.ok "t2")
          sampleStore).state.tasks[i]? = sampleStore.tasks[i]?) ∧
      (addTask (fun _ => none) sampleDraft "u1" 200 (Except.ok "t2")
        sampleStore).state.tasks.getLast? = some newTask :=
  ⟨by decide, addTask_appends (fun _ => none) sampleDraft "u1" 200 "t2" sampleStore
    (by decide)⟩

/-- C7: the task addTask builds has `completed = (status == 'completed')` and
has `completedAt` exactly when its status is `completed`, its status being the
draft's status, or `to-do` when the draft has none (or an empty one).  For the
draft of the scenario and user `u1`, the returned task has `completed = false`,
no `completedAt`, and is in the `to-do` column of the new collection. -/
theorem addTask_derives_completed (parseDate : String → Option Int) (taskData : TaskDraft)
    (userId : String) (now : Int) :
    (buildTask parseDate taskData userId now).completed =
      decide ((buildTask parseDate taskData userId now).status = "completed") ∧
    ((buildTask parseDate taskData userId now).completedAt.isSome = true ↔
      (buildTask parseDate taskData userId now).status = "completed") ∧
    (∀ st, taskData.status = some st → st ≠ "" →
      (buildTask parseDate taskData userId now).status = st) ∧
    (taskData.status = none ∨ taskData.status = some "" →
      (buildTask parseDate taskData userId now).status = "to-do") ∧
    (∀ (s : StoreState) (docId : String), ∃ newTask : Task,
      (addTask parseDate sampleDraft "u1" now (Except.ok docId) s).result =
        Except.ok newTask ∧
      newTask.completed = false ∧ newTask.completedAt = none ∧
      newTask ∈ getTasksByColumn
        (addTask parseDate sampleDraft "u1" now (Except.ok docId) s).state.tasks "to-do") := by
  refine ⟨buildTask_inSync _ _ _ _, buildTask_completedAt _ _ _ _, ?_, ?_, ?_⟩
  · intro st hst h0
    simp [buildTask, orDefault, hst, h0]
  · rintro (h | h) <;> simp [buildTask, orDefault, h]
  · intro s docId
    refine ⟨{ toTaskDoc := buildTask parseDate sampleDraft "u1" now, id := docId }, ?_⟩
    have hst : (addTask parseDate sampleDraft "u1" now (Except.ok docId) s).state.tasks =
        s.tasks ++ [{ toTaskDoc := buildTask parseDate sampleDraft "u1" now, id := docId }] := by
      rw [addTask_tasks]; simp
    refine ⟨by simp [addTask], ?_, ?_, ?_⟩
    · simp [buildTask, sampleDraft]
    · simp [buildTask, sampleDraft, orDefault]
    · rw [hst, getTasksByColumn, List.mem_filter]
      refine ⟨by simp, ?_⟩
      simp [buildTask, sampleDraft, orDefault]

/-- C8 (the code at the failing input): a draft whose `dueDate` is a non-empty
string the date parser rejects is stored and sent to Firestore with an Invalid
Date as its due date, not with `null`. -/
theorem addTask_keeps_unparsable_dueDate (parseDate : String → Option Int)
    (now : Int) (docId : String) (s : StoreState)
    (hp : parseDate "not-a-date" = none) :
    ∃ newTask : Task,
      (addTask parseDate unparsableDraft "u1" now (Except.ok docId) s).result = Except.ok newTask ∧
      newTask.dueDate = some JsDate.invalid ∧
      (addTask parseDate unparsableDraft "u1" now (Except.ok docId) s).state.tasks = s.tasks ++ [newTask] ∧
      (addTask parseDate unparsableDraft "u1" now (Except.ok docId) s).writes = [RemoteOp.addDoc "u1" newTask.toTaskDoc] := by
  refine ⟨{ toTaskDoc := buildTask parseDate unparsableDraft "u1" now, id := docId },
    ?_, ?_, ?_, ?_⟩
  · simp [addTask]
  · simp [buildTask, unparsableDraft, formatDueDate, newDate, hp]
  · rw [addTask_tasks]; simp
  · simp [addTask]

/-- Witness for C8: a parser that rejects `not-a-date`. -/
theorem addTask_keeps_unparsable_dueDate_witness :
    sampleParser "not-a-date" = none ∧
    ∃ newTask : Task,
      (addTask sampleParser
        unparsableDraft "u1" 100 (Except.ok "t2") sampleStore).result = Except.ok newTask ∧
      newTask.dueDate = some JsDate.invalid ∧
      (addTask sampleParser
        unparsableDraft "u1" 100 (Except.ok "t2") sampleStore).state.tasks = sampleStore.tasks ++ [newTask] ∧
      (addTask sampleParser
        unparsableDraft "u1" 100 (Except.ok "t2") sampleStore).writes =
          [RemoteOp.addDoc "u1" newTask.toTaskDoc] :=
  ⟨by decide,
    addTask_keeps_unparsable_dueDate
      sampleParser
      100 "t2" sampleStore (by decide)⟩

/-- C9: when addTask fails, because the user id is empty or because `addDoc`
rejects, the task collection is what it was, an error string is recorded,
loading is off, and the error is thrown; with an empty user id the error is
`User not authenticated` and no remote write is issued; a rejection is
rethrown as it came. -/
theorem addTask_failure (parseDate : String → Option Int) (taskData : TaskDraft)
    (userId : String) (now : Int) (remote : Except JsError String) (s : StoreState)
    (hfail : userId = "" ∨ ∃ e, remote = Except.error e) :
    (addTask parseDate taskData userId now remote s).state.tasks = s.tasks ∧
    (∃ msg, msg ≠ "" ∧ (addTask parseDate taskData userId now remote s).state.error = some msg) ∧
    (addTask parseDate taskData userId now remote s).state.loading = false ∧
    (∃ e, (addTask parseDate taskData userId now remote s).result = Except.error e) ∧
    (userId = "" →
      (addTask parseDate taskData userId now remote s).state.error =
        some "User not authenticated" ∧
      (addTask parseDate taskData userId now remote s).result =
        Except.error { message := "User not authenticated" } ∧
      (addTask parseDate taskData userId now remote s).writes = []) ∧
    (userId ≠ "" → ∀ e, remote = Except.error e →
      (addTask parseDate taskData userId now remote s).result = Except.error e ∧
      (addTask parseDate taskData userId now remote s).state.error =
        some (if e.message = "" then "Failed to add task" else e.message)) := by
  by_cases hu : userId = ""
  · subst hu
    simp [addTask]
  · rcases hfail with h | ⟨e, rfl⟩
    · exact absurd h hu
    · refine ⟨by simp [addTask, hu], ?_, by simp [addTask, hu], ⟨e, by simp [addTask, hu]⟩,
        fun h => absurd h hu, ?_⟩
      · by_cases hm : e.message = ""
        · exact ⟨"Failed to add task", by decide, by simp [addTask, hu, hm]⟩
        · exact ⟨e.message, hm, by simp [addTask, hu, hm]⟩
      · intro _ e2 he
        cases he
        simp [addTask, hu]

/-- Witness for C9: `addDoc` rejects with `permission-denied`. -/
theorem addTask_failure_witness :
    ("u1" = "" ∨ ∃ e, (Except.error { message := "permission-denied" } :
        Except JsError String) = Except.error e) ∧
    (addTask (fun _ => none) sampleDraft "u1" 200
        (Except.error { message := "permission-denied" }) sampleStore).state.tasks =
      sampleStore.tasks :=
  ⟨Or.inr ⟨_, rfl⟩,
    (addTask_failure (fun _ => none) sampleDraft "u1" 200
      (Except.error { message := "permission-denied" }) sampleStore (Or.inr ⟨_, rfl⟩)).1⟩

/-! ## C10: updateTask -/

/-- C10: with a user id and a task id, when `updateDoc` resolves, updateTask
replaces every task whose id is `taskId` by that task overridden key by key
with the patch and given the new `updatedAt`, and leaves every other task as
it is, position by position: the length and the order are kept, and when no
task has the id the collection is unchanged. -/
theorem updateTask_merges_in_place (taskId : String) (taskData : Patch) (userId : String)
    (now later : Int) (s : StoreState) (hu : userId ≠ "") (ht : taskId ≠ "") :
    (updateTask taskId taskData userId now later true s).state.tasks =
      (s.tasks.map fun task =>
        if task.id = taskId then mergeTask task taskData later else task) ∧
    (updateTask taskId taskData userId now later true s).state.tasks.length =
      s.tasks.length ∧
    (∀ (i : Nat) (task : Task), s.tasks[i]? = some task →
      (task.id ≠ taskId →
        (updateTask taskId taskData userId now later true s).state.tasks[i]? = some task) ∧
      (task.id = taskId →
        (updateTask taskId taskData userId now later true s).state.tasks[i]? =
          some { id := taskData.id.getD task.id
                 title := taskData.title.getD task.title
                 description := taskData.description.getD task.description
                 priority := taskData.priority.getD task.priority
                 status := taskData.status.getD task.status
                 completed := taskData.completed.getD task.completed
                 userId := taskData.userId.getD task.userId
                 createdAt := taskData.createdAt.getD task.createdAt
                 updatedAt := later
                 dueDate := taskData.dueDate.getD task.dueDate
                 completedAt := taskData.completedAt.getD task.completedAt })) ∧
    ((∀ task ∈ s.tasks, task.id ≠ taskId) →
      (updateTask taskId taskData userId now later true s).state.tasks = s.tasks) := by
  have hst := updateTask_ok taskId taskData userId now later s hu ht
  refine ⟨hst, by rw [hst, List.length_map], ?_, ?_⟩
  · intro i task hi
    rw [hst, List.getElem?_map, hi]
    constructor
    · intro hne; simp [hne]
    · intro heq; simp [heq, mergeTask]
  · intro hnone
    rw [hst]
    conv_rhs => rw [← List.map_id s.tasks]
    apply List.map_congr_left
    intro task hmem
    simp [hnone task hmem]

/-- Witness for C10: the priority of the sample task is patched. -/
theorem updateTask_merges_in_place_witness :
    ("u1" ≠ "" ∧ "t1" ≠ "") ∧
    (updateTask "t1" { priority := some "low" } "u1" 5 6 true sampleStore).state.tasks =
      sampleStore.tasks.map fun task =>
        if task.id = "t1" then mergeTask task { priority := some "low" } 6 else task :=
  ⟨⟨by decide, by decide⟩,
    (updateTask_merges_in_place "t1" { priority := some "low" } "u1" 5 6 sampleStore
      (by decide) (by decide)).1⟩

/-! ## C11, C12: deleteTask and the failure paths -/

/-- C11: with a user id and a task id, when `deleteDoc` resolves, deleteTask
leaves exactly the tasks whose id is not `taskId`, in their order, having
issued the one remote delete; when the user id or the task id is missing the
store state is unchanged, whatever the remote would answer, and no remote call
is issued. -/
theorem deleteTask_effect (taskId userId : String) (s : StoreState) :
    (userId ≠ "" ∧ taskId ≠ "" →
      (deleteTask taskId userId true s).state.tasks =
        (s.tasks.filter fun task => decide (task.id ≠ taskId)) ∧
      (deleteTask taskId userId true s).state.tasks.Sublist s.tasks ∧
      (∀ task, task ∈ (deleteTask taskId userId true s).state.tasks ↔
        task ∈ s.tasks ∧ task.id ≠ taskId) ∧
      (deleteTask taskId userId true s).writes = [RemoteOp.deleteDoc userId taskId]) ∧
    (userId = "" ∨ taskId = "" →
      ∀ remoteOk, deleteTask taskId userId remoteOk s = { state := s, writes := [] }) ∧
    (deleteTask "t1" "u1" true
        { sampleStore with tasks := [sampleTask, { sampleTask with id := "t2" }] }).state.tasks =
      [{ sampleTask with id := "t2" }] := by
  refine ⟨?_, ?_, by decide⟩
  · rintro ⟨hu, ht⟩
    have hst : (deleteTask taskId userId true s).state.tasks =
        (s.tasks.filter fun task => decide (task.id ≠ taskId)) := by
      simp [deleteTask, hu, ht]
    refine ⟨hst, ?_, ?_, by simp [deleteTask, hu, ht]⟩
    · rw [hst]; exact List.filter_sublist _
    · intro task
      rw [hst, List.mem_filter]
      simp
  · intro h remoteOk
    simp [deleteTask, h]

/-- C12: when the remote write of updateTask or of deleteTask is rejected, and
when the error callback of the subscription fires, the task collection is what
it was, an error string is recorded and loading is off; updateTask and
deleteTask throw nothing to their caller, whatever the remote outcome. -/
theorem remote_failure_recorded (taskId : String) (taskData : Patch) (userId : String)
    (now later : Int) (s : StoreState) (hu : userId ≠ "") (ht : taskId ≠ "") :
    ((updateTask taskId taskData userId now later false s).state.tasks = s.tasks ∧
      (updateTask taskId taskData userId now later false s).state.error =
        some "Failed to update task" ∧
      (updateTask taskId taskData userId now later false s).state.loading = false) ∧
    ((deleteTask taskId userId false s).state.tasks = s.tasks ∧
      (deleteTask taskId userId false s).state.error = some "Failed to delete task" ∧
      (deleteTask taskId userId false s).state.loading = false) ∧
    ((snapshotErrorCallback s).state.tasks = s.tasks ∧
      (snapshotErrorCallback s).state.error = some "Failed to load tasks" ∧
      (snapshotErrorCallback s).state.loading = false) ∧
    (∀ remoteOk, (updateTask taskId taskData userId now later remoteOk s).thrown = none ∧
      (deleteTask taskId userId remoteOk s).thrown = none) := by
  refine ⟨?_, ?_, ?_, ?_⟩
  · simp [updateTask, hu, ht]
  · simp [deleteTask, hu, ht]
  · simp [snapshotErrorCallback]
  · intro remoteOk
    cases remoteOk <;> simp [updateTask, deleteTask, hu, ht]

/-- Witness for C12: the writes on the sample task are rejected. -/
theorem remote_failure_recorded_witness :
    ("u1" ≠ "" ∧ "t1" ≠ "") ∧
    (updateTask "t1" { status := some "completed" } "u1" 5 6 false sampleStore).state.tasks =
      sampleStore.tasks ∧
    (deleteTask "t1" "u1" false sampleStore).state.error = some "Failed to delete task" :=
  ⟨⟨by decide, by decide⟩,
    (remote_failure_recorded "t1" { status := some "completed" } "u1" 5 6 sampleStore
      (by decide) (by decide)).1.1,
    (remote_failure_recorded "t1" { status := some "completed" } "u1" 5 6 sampleStore
      (by decide) (by decide)).2.1.2.1⟩

/-! ## C13, C14: snapshots and normalisation -/

theorem toDate?_convertible (v : RawTime) (h : v.convertible = true) :
    toDate? v = Except.ok v.converted := by
  cases v <;> simp_all [toDate?, RawTime.converted, RawTime.convertible]

theorem toDate?_not_convertible (v : RawTime) (h : v.convertible = false) :
    toDate? v = Except.error { message := "toDate is not a function" } := by
  cases v <;> simp_all [toDate?, RawTime.convertible]

theorem processTask_wellTimed (doc : RawDoc) (now : Int) (h : doc.wellTimed = true) :
    processTask doc now = Except.ok (normalizeSpec now doc) := by
  simp only [RawDoc.wellTimed, Bool.and_eq_true] at h
  obtain ⟨⟨⟨h1, h2⟩, h3⟩, h4⟩ := h
  simp [processTask, toDate?_convertible _ h1, toDate?_convertible _ h2,
    toDate?_convertible _ h3, toDate?_convertible _ h4, normalizeSpec, RawDoc.taskId]

theorem processTask_not_wellTimed (doc : RawDoc) (now : Int) (h : doc.wellTimed = false) :
    processTask doc now = Except.error { message := "toDate is not a function" } := by
  unfold processTask
  cases h1 : doc.data.createdAt.convertible with
  | false => simp [toDate?_not_convertible _ h1]
  | true =>
    cases h2 : doc.data.updatedAt.convertible with
    | false => simp [toDate?_convertible _ h1, toDate?_not_convertible _ h2]
    | true =>
      cases h3 : doc.data.dueDate.convertible with
      | false =>
        simp [toDate?_convertible _ h1, toDate?_convertible _ h2, toDate?_not_convertible _ h3]
      | true =>
        cases h4 : doc.data.completedAt.convertible with
        | false =>
          simp [toDate?_convertible _ h1, toDate?_convertible _ h2, toDate?_convertible _ h3,
            toDate?_not_convertible _ h4]
        | true => simp [RawDoc.wellTimed, h1, h2, h3, h4] at h

theorem processDocs_wellTimed (now : Int) (docs : List RawDoc)
    (h : ∀ doc ∈ docs, doc.wellTimed = true) :
    processDocs now docs = Except.ok (docs.map (normalizeSpec now)) := by
  induction docs with
  | nil => rfl
  | cons doc docs ih =>
    have hd := processTask_wellTimed doc now (h doc (List.mem_cons_self _ _))
    have hrest := ih fun d hmem => h d (List.mem_cons_of_mem _ hmem)
    simp [processDocs, hd, hrest]

theorem processDocs_not_wellTimed (now : Int) (docs : List RawDoc)
    (h : ∃ doc ∈ docs, doc.wellTimed = false) :
    processDocs now docs = Except.error { message := "toDate is not a function" } := by
  induction docs with
  | nil => simp at h
  | cons doc docs ih =>
    cases hw : doc.wellTimed with
    | false => simp [processDocs, processTask_not_wellTimed doc now hw]
    | true =>
      have hrest : ∃ d ∈ docs, d.wellTimed = false := by
        obtain ⟨d, hmem, hd⟩ := h
        rcases List.mem_cons.mp hmem with rfl | hmem
        · rw [hw] at hd; cases hd
        · exact ⟨d, hmem, hd⟩
      simp [processDocs, processTask_wellTimed doc now hw, ih hrest]

theorem snapshotCallback_wellTimed (userId : String) (docs : List RawDoc) (now : Int)
    (s : StoreState) (h : ∀ doc ∈ docs, doc.wellTimed = true) :
    snapshotCallback userId docs now s =
      { state := { s with tasks := docs.map (normalizeSpec now), loading := false }
        writes := [] } := by
  unfold snapshotCallback
  cases docs with
  | nil => simp
  | cons doc docs => simp [processDocs_wellTimed now _ h]

/-- C13 (as stated, refuted): a snapshot record with document id `t1` whose data
has an `id` field `t9` becomes a task with id `t9`: the document id is not kept. -/
theorem snapshot_record_own_id_wins :
    (snapshotCallback "u1"
        [{ sampleDoc with data := { sampleDoc.data with id := some "t9" } }] 300
        sampleStore).state.tasks = [{ sampleTask with id := "t9" }] ∧
    sampleDoc.id = "t1" := by
  decide

/-- C13 (amended): for every previous store state and every delivered snapshot
(and every fetchTasks result) whose records have each timestamp key missing or
a provider timestamp, the new collection is the list of the normalised records
in the order of the snapshot, whatever the collection was before; a normalised
record keeps the fields of the record, has the record's own `id` field as its
id when there is one and the document id otherwise, has `createdAt` and
`updatedAt` converted or set to now when missing, and `dueDate` and
`completedAt` converted or null when missing. -/
theorem snapshot_replaces_collection (userId : String) (docs : List RawDoc) (now : Int)
    (s : StoreState) (h : ∀ doc ∈ docs, doc.wellTimed = true) :
    (snapshotCallback userId docs now s).state.tasks = docs.map (normalizeSpec now) ∧
    (snapshotCallback userId docs now s).thrown = none ∧
    (fetchTasks userId (Except.ok docs) now s).state.tasks = docs.map (normalizeSpec now) ∧
    (∀ doc ∈ docs, doc.data.id = none → (normalizeSpec now doc).id = doc.id) ∧
    (∀ doc ∈ docs, ∀ own, doc.data.id = some own → (normalizeSpec now doc).id = own) := by
  refine ⟨?_, ?_, ?_, ?_, ?_⟩
  · rw [snapshotCallback_wellTimed userId docs now s h]
  · rw [snapshotCallback_wellTimed userId docs now s h]
  · simp [fetchTasks, processDocs_wellTimed now docs h]
  · intro doc _ hid
    simp [normalizeSpec, RawDoc.taskId, hid]
  · intro doc _ own hid
    simp [normalizeSpec, RawDoc.taskId, hid]

/-- Witness for C13: the snapshot that holds the sample record. -/
theorem snapshot_replaces_collection_witness :
    (∀ doc ∈ [sampleDoc], doc.wellTimed = true) ∧
    (snapshotCallback "u1" [sampleDoc] 300 StoreState.initial).state.tasks =
      [sampleDoc].map (normalizeSpec 300) :=
  ⟨by decide,
    (snapshot_replaces_collection "u1" [sampleDoc] 300 StoreState.initial (by decide)).1⟩

/-- C14 (as stated, refuted): the sample record normalises when `createdAt` is
a provider timestamp; with the same instant as a native date, `toDate` is not
there to call, normalisation throws, the snapshot callback throws with the
store untouched and fetchTasks records a failure. -/
theorem native_date_breaks_normalisation :
    processTask sampleDoc 300 = Except.ok sampleTask ∧
    processTask
        { sampleDoc with
          data := { sampleDoc.data with createdAt := RawTime.nativeDate (JsDate.time 100) } }
        300 = Except.error { message := "toDate is not a function" } ∧
    snapshotCallback "u1"
        [{ sampleDoc with
           data := { sampleDoc.data with createdAt := RawTime.nativeDate (JsDate.time 100) } }]
        300 StoreState.initial =
      { state := StoreState.initial, writes := []
        thrown := some { message := "toDate is not a function" } } ∧
    (fetchTasks "u1"
        (Except.ok [{ sampleDoc with
           data := { sampleDoc.data with createdAt := RawTime.nativeDate (JsDate.time 100) } }])
        300 StoreState.initial).state =
      { StoreState.initial with error := some "Failed to fetch tasks" } := by
  refine ⟨rfl, rfl, by decide, by decide⟩

/-- C14 (amended): normalisation of a raw record succeeds exactly when each of
`createdAt`, `updatedAt`, `dueDate` and `completedAt` is missing or a provider
timestamp, and then yields the instant of that timestamp; a native date value,
like any other value without a `toDate` method, makes it throw, upon which the
snapshot callback throws and leaves the store as it was, and fetchTasks leaves
the collection as it was and records `Failed to fetch tasks`. -/
theorem normalisation_accepts_timestamps_only (doc : RawDoc) (now : Int) :
    (doc.wellTimed = true → processTask doc now = Except.ok (normalizeSpec now doc)) ∧
    (doc.wellTimed = false →
      processTask doc now = Except.error { message := "toDate is not a function" }) ∧
    (∀ t, doc.data.createdAt = RawTime.timestamp t → (normalizeSpec now doc).createdAt = t) ∧
    (∀ t, doc.data.updatedAt = RawTime.timestamp t → (normalizeSpec now doc).updatedAt = t) ∧
    (∀ t, doc.data.dueDate = RawTime.timestamp t →
      (normalizeSpec now doc).dueDate = some (JsDate.time t)) ∧
    (∀ t, doc.data.completedAt = RawTime.timestamp t →
      (normalizeSpec now doc).completedAt = some t) ∧
    (∀ d, (RawTime.nativeDate d).convertible = false) ∧
    (doc.wellTimed = false → ∀ (userId : String) (before after : List RawDoc) (s : StoreState),
      snapshotCallback userId (before ++ doc :: after) now s =
        { state := s, writes := [], thrown := some { message := "toDate is not a function" } } ∧
      (fetchTasks userId (Except.ok (before ++ doc :: after)) now s).state =
        { s with error := some "Failed to fetch tasks", loading := false }) := by
  refine ⟨processTask_wellTimed doc now, processTask_not_wellTimed doc now, ?_, ?_, ?_, ?_,
    fun _ => rfl, ?_⟩
  · intro t ht; simp [normalizeSpec, ht, RawTime.converted]
  · intro t ht; simp [normalizeSpec, ht, RawTime.converted]
  · intro t ht; simp [normalizeSpec, ht, RawTime.converted]
  · intro t ht; simp [normalizeSpec, ht, RawTime.converted]
  · intro hw userId before after s
    have herr := processDocs_not_wellTimed now (before ++ doc :: after)
      ⟨doc, by simp, hw⟩
    constructor
    · simp [snapshotCallback, herr]
    · simp [fetchTasks, herr]

/-! ## C15: snapshots and the local append of addTask -/

theorem taskIds_normalizeSpec (now : Int) (docs : List RawDoc) :
    taskIds (docs.map (normalizeSpec now)) = docs.map RawDoc.taskId := by
  simp [taskIds, normalizeSpec, Function.comp_def]

theorem addTaskSettle_tasks (parseDate : String → Option Int) (taskData : TaskDraft)
    (userId : String) (now : Int) (docId : String) (s : StoreState) :
    (addTaskSettle parseDate taskData userId now (Except.ok docId) s).state.tasks =
      s.tasks ++ [{ toTaskDoc := buildTask parseDate taskData userId now, id := docId }] := by
  simp [addTaskSettle]

/-- The store's `addTask` is its start followed by its settling, when nothing
happens in between. -/
theorem addTask_eq_settle_start (parseDate : String → Option Int) (taskData : TaskDraft)
    (userId : String) (now : Int) (remote : Except JsError String) (s : StoreState)
    (hu : userId ≠ "") :
    addTask parseDate taskData userId now remote s =
      addTaskSettle parseDate taskData userId now remote (addTaskStart s) := by
  cases remote <;> simp [addTask, addTaskSettle, addTaskStart, hu]

/-- C15 (as stated, refuted): addTask has issued its `addDoc`; a snapshot with
the distinct document ids `t1` and `t2`, the second being the new record, is
delivered; `addDoc` resolves with `t2` and addTask appends: the collection
holds the id `t2` twice. -/
theorem snapshot_before_append_duplicates :
    ([sampleDoc, { sampleDoc with id := "t2" }].map fun doc => doc.id).Nodup ∧
    taskIds (addTaskSettle sampleParser sampleDraft "u1" 100 (Except.ok "t2")
        (snapshotCallback "u1" [sampleDoc, { sampleDoc with id := "t2" }] 150
          (addTaskStart sampleStore)).state).state.tasks = ["t1", "t2", "t2"] ∧
    ¬ (taskIds (addTaskSettle sampleParser sampleDraft "u1" 100 (Except.ok "t2")
        (snapshotCallback "u1" [sampleDoc, { sampleDoc with id := "t2" }] 150
          (addTaskStart sampleStore)).state).state.tasks).Nodup := by
  decide

/-- C15 (amended): a delivered snapshot whose records normalise and give
pairwise distinct task ids (distinct document ids, when no record has an `id`
field of its own) leaves a collection without two tasks of the same id,
whatever the collection was; the local append of a successful addTask leaves
the ids distinct exactly when they were distinct and the server-assigned id
was not yet in the collection. -/
theorem ids_distinct_after_snapshot_or_append (parseDate : String → Option Int)
    (taskData : TaskDraft) (userId : String) (docs : List RawDoc) (now : Int)
    (docId : String) (s : StoreState) :
    ((∀ doc ∈ docs, doc.wellTimed = true) → (docs.map RawDoc.taskId).Nodup →
      (taskIds (snapshotCallback userId docs now s).state.tasks).Nodup) ∧
    ((∀ doc ∈ docs, doc.wellTimed = true) → (∀ doc ∈ docs, doc.data.id = none) →
      (docs.map fun doc => doc.id).Nodup →
      (taskIds (snapshotCallback userId docs now s).state.tasks).Nodup) ∧
    ((taskIds (addTaskSettle parseDate taskData userId now (Except.ok docId) s).state.tasks).Nodup
      ↔ (taskIds s.tasks).Nodup ∧ docId ∉ taskIds s.tasks) ∧
    (userId ≠ "" →
      addTask parseDate taskData userId now (Except.ok docId) s =
        addTaskSettle parseDate taskData userId now (Except.ok docId) (addTaskStart s)) := by
  have hsnap : (∀ doc ∈ docs, doc.wellTimed = true) → (docs.map RawDoc.taskId).Nodup →
      (taskIds (snapshotCallback userId docs now s).state.tasks).Nodup := by
    intro hw hnd
    rw [snapshotCallback_wellTimed userId docs now s hw]
    simpa [taskIds_normalizeSpec] using hnd
  refine ⟨hsnap, ?_, ?_, addTask_eq_settle_start _ _ _ _ _ _⟩
  · intro hw hown hnd
    apply hsnap hw
    have : docs.map RawDoc.taskId = docs.map fun doc => doc.id := by
      apply List.map_congr_left
      intro doc hmem
      simp [RawDoc.taskId, hown doc hmem]
    rw [this]; exact hnd
  · rw [addTaskSettle_tasks]
    simp only [taskIds, List.map_append, List.map_cons, List.map_nil]
    rw [List.nodup_append]
    constructor
    · rintro ⟨h1, _, h3⟩
      exact ⟨h1, fun hmem => h3 hmem (List.mem_singleton.mpr rfl)⟩
    · rintro ⟨h1, h2⟩
      refine ⟨h1, List.nodup_singleton _, fun a ha hb => h2 ?_⟩
      rw [List.mem_singleton] at hb
      subst hb
      exact ha

/-! ## C16, C17: the subscription lifecycle -/

/-- C16 (as stated, refuted): after subscribeToTasks for `u1` and then for `u2`
the store has cancelled the first listener and holds no task; the snapshot
callback of the `u1` subscription, invoked then, fills the collection all the
same, and so it does after unsubscribeFromTasks. -/
theorem cancelled_subscription_snapshot_replaces :
    (subscribeToTasks "u2" (Except.ok 2)
        (subscribeToTasks "u1" (Except.ok 1) StoreState.initial).state).calls =
      [ListenerOp.cancel 1, ListenerOp.listen "u2"] ∧
    (subscribeToTasks "u2" (Except.ok 2)
        (subscribeToTasks "u1" (Except.ok 1) StoreState.initial).state).state.tasks = [] ∧
    (snapshotCallback "u1" [sampleDoc] 300
        (subscribeToTasks "u2" (Except.ok 2)
          (subscribeToTasks "u1" (Except.ok 1) StoreState.initial).state).state).state.tasks =
      [sampleTask] ∧
    (snapshotCallback "u1" [sampleDoc] 300
        (unsubscribeFromTasks
          (subscribeToTasks "u1" (Except.ok 1) StoreState.initial).state).state).state.tasks =
      [sampleTask] := by
  decide

/-- C16 (amended): after subscribeToTasks for `u1` followed by subscribeToTasks
for `u2`, and after unsubscribeFromTasks, the store has called the unsubscribe
function of the `u1` listener, before it opens the new one, and holds that
handle no more; these calls leave the task collection as it was.  The snapshot
callback has no guard of its own: it does the same whichever subscription
registered it and whichever handle the store holds. -/
theorem resubscribe_cancels_earlier_listener (u1 u2 : String) (h1 h2 : Nat) (s : StoreState)
    (hu1 : u1 ≠ "") (hu2 : u2 ≠ "") :
    (subscribeToTasks u2 (Except.ok h2) (subscribeToTasks u1 (Except.ok h1) s).state).calls =
      [ListenerOp.cancel h1, ListenerOp.listen u2] ∧
    (subscribeToTasks u2 (Except.ok h2)
      (subscribeToTasks u1 (Except.ok h1) s).state).state.unsubscribe = some h2 ∧
    (subscribeToTasks u2 (Except.ok h2)
      (subscribeToTasks u1 (Except.ok h1) s).state).state.tasks = s.tasks ∧
    (unsubscribeFromTasks (subscribeToTasks u1 (Except.ok h1) s).state).calls =
      [ListenerOp.cancel h1] ∧
    (unsubscribeFromTasks (subscribeToTasks u1 (Except.ok h1) s).state).state.unsubscribe =
      none ∧
    (unsubscribeFromTasks (subscribeToTasks u1 (Except.ok h1) s).state).state.tasks = s.tasks ∧
    (∀ (docs : List RawDoc) (now : Int) (st : StoreState) (handle : Option Nat),
      snapshotCallback u1 docs now st = snapshotCallback u2 docs now st ∧
      (snapshotCallback u1 docs now { st with unsubscribe := handle }).state.tasks =
        (snapshotCallback u1 docs now st).state.tasks) := by
  refine ⟨?_, ?_, ?_, ?_, ?_, ?_, ?_⟩
  · simp [subscribeToTasks, hu1, hu2, cancelCalls]
  · simp [subscribeToTasks, hu1, hu2]
  · simp [subscribeToTasks, hu1, hu2]
  · simp [subscribeToTasks, hu1, unsubscribeFromTasks]
  · simp [subscribeToTasks, hu1, unsubscribeFromTasks]
  · simp [subscribeToTasks, hu1, unsubscribeFromTasks]
  · intro docs now st handle
    refine ⟨rfl, ?_⟩
    unfold snapshotCallback
    split
    · rfl
    · cases processDocs now docs <;> rfl

/-- Witness for C16: the handles 1 and 2 on the store as created. -/
theorem resubscribe_cancels_earlier_listener_witness :
    ("u1" ≠ "" ∧ "u2" ≠ "") ∧
    (subscribeToTasks "u2" (Except.ok 2)
        (subscribeToTasks "u1" (Except.ok 1) StoreState.initial).state).calls =
      [ListenerOp.cancel 1, ListenerOp.listen "u2"] :=
  ⟨⟨by decide, by decide⟩,
    (resubscribe_cancels_earlier_listener "u1" "u2" 1 2 StoreState.initial
      (by decide) (by decide)).1⟩

/-- C17 (as stated, refuted): unsubscribeFromTasks on a store that holds the
sample task and a listener leaves the sample task in the collection. -/
theorem unsubscribe_keeps_tasks :
    (unsubscribeFromTasks { sampleStore with unsubscribe := some 1 }).state.tasks =
      [sampleTask] ∧
    (unsubscribeFromTasks { sampleStore with unsubscribe := some 1 }).state.tasks ≠ [] := by
  decide

/-- C17 (amended): the task collection is empty in the store's initial state,
and for every store state unsubscribeFromTasks leaves the task collection, the
loading flag and the error exactly as they were; it only calls the unsubscribe
function it holds, if any, and forgets it. -/
theorem unsubscribe_leaves_collection (s : StoreState) :
    StoreState.initial.tasks = [] ∧
    (unsubscribeFromTasks s).state = { s with unsubscribe := none } ∧
    (unsubscribeFromTasks s).state.tasks = s.tasks ∧
    (unsubscribeFromTasks s).calls = cancelCalls s := by
  refine ⟨rfl, ?_, ?_, ?_⟩
  · unfold unsubscribeFromTasks
    cases h : s.unsubscribe with
    | none =>
      cases s
      simp_all
    | some handle => rfl
  · unfold unsubscribeFromTasks
    cases s.unsubscribe <;> rfl
  · unfold unsubscribeFromTasks cancelCalls
    cases s.unsubscribe <;> rfl

/-! ## C18: the filter of the Tasks page -/

theorem filterByStatus_eq_filter (filterStatus : String) (l : List Task) :
    filterByStatus filterStatus l =
      l.filter fun task => filterStatus == "all" || task.status == filterStatus := by
  unfold filterByStatus
  by_cases h : filterStatus = "all"
  · simp [h]
  · have hb : (filterStatus == "all") = false := by simpa using h
    simp only [ne_eq, h, not_false_eq_true, if_true]
    apply List.filter_congr
    intro task _
    simp only [hb, Bool.false_or]
    rfl

theorem filterByPriority_eq_filter (filterPriority : String) (l : List Task) :
    filterByPriority filterPriority l =
      l.filter fun task => filterPriority == "all" || task.priority == filterPriority := by
  unfold filterByPriority
  by_cases h : filterPriority = "all"
  · simp [h]
  · have hb : (filterPriority == "all") = false := by simpa using h
    simp only [ne_eq, h, not_false_eq_true, if_true]
    apply List.filter_congr
    intro task _
    simp only [hb, Bool.false_or]
    rfl

theorem includes_empty_text (query : String) (h : query ≠ "") : includes "" query = false := by
  unfold includes
  have : query.data ≠ [] := fun hd => h (String.ext hd)
  simpa using this

theorem filterBySearch_eq_filter (toLowerCase : String → String) (searchQuery : String)
    (l : List Task) (h0 : toLowerCase "" = "")
    (h1 : ∀ q, q ≠ "" → toLowerCase q ≠ "") :
    filterBySearch toLowerCase searchQuery l =
      l.filter fun task => searchQuery == "" ||
        includes (toLowerCase task.title) (toLowerCase searchQuery) ||
        includes (toLowerCase task.description) (toLowerCase searchQuery) := by
  unfold filterBySearch
  by_cases h : searchQuery = ""
  · simp [h]
  · simp only [ne_eq, h, not_false_eq_true, if_true]
    apply List.filter_congr
    intro task _
    have hq : (searchQuery == "") = false := by simpa using h
    simp only [matchesQuery, hq, Bool.false_or]
    by_cases hd : task.description = ""
    · simp [hd, h0, includes_empty_text _ (h1 searchQuery h)]
    · have : (task.description != "") = true := by simpa using hd
      simp [this]

/-- C18: for every collection and every status filter, priority filter and
search text, the filter of the Tasks page returns exactly the tasks that
satisfy all active predicates, in their original order, and the three filter
steps give that same list in each of their six orders.  `toLowerCase` is the
runtime's lower-casing, which keeps the empty string empty and no other. -/
theorem filterTasks_all_orders (toLowerCase : String → String)
    (filterStatus filterPriority searchQuery : String) (tasks : List Task)
    (h0 : toLowerCase "" = "") (h1 : ∀ q, q ≠ "" → toLowerCase q ≠ "") :
    filterTasks toLowerCase filterStatus filterPriority searchQuery tasks =
      tasks.filter (satisfiesFilters toLowerCase filterStatus filterPriority searchQuery) ∧
    (filterTasks toLowerCase filterStatus filterPriority searchQuery tasks).Sublist tasks ∧
    filterBySearch toLowerCase searchQuery
        (filterByStatus filterStatus (filterByPriority filterPriority tasks)) =
      filterTasks toLowerCase filterStatus filterPriority searchQuery tasks ∧
    filterByPriority filterPriority
        (filterBySearch toLowerCase searchQuery (filterByStatus filterStatus tasks)) =
      filterTasks toLowerCase filterStatus filterPriority searchQuery tasks ∧
    filterByPriority filterPriority
        (filterByStatus filterStatus (filterBySearch toLowerCase searchQuery tasks)) =
      filterTasks toLowerCase filterStatus filterPriority searchQuery tasks ∧
    filterByStatus filterStatus
        (filterBySearch toLowerCase searchQuery (filterByPriority filterPriority tasks)) =
      filterTasks toLowerCase filterStatus filterPriority searchQuery tasks ∧
    filterByStatus filterStatus
        (filterByPriority filterPriority (filterBySearch toLowerCase searchQuery tasks)) =
      filterTasks toLowerCase filterStatus filterPriority searchQuery tasks := by
  have hmain : filterTasks toLowerCase filterStatus filterPriority searchQuery tasks =
      tasks.filter (satisfiesFilters toLowerCase filterStatus filterPriority searchQuery) := by
    unfold filterTasks
    rw [filterBySearch_eq_filter _ _ _ h0 h1, filterByPriority_eq_filter,
      filterByStatus_eq_filter, List.filter_filter, List.filter_filter]
    apply List.filter_congr
    intro task _
    simp only [satisfiesFilters]
    cases (filterStatus == "all" || task.status == filterStatus) <;>
      cases (filterPriority == "all" || task.priority == filterPriority) <;>
      cases (searchQuery == "" ||
        includes (toLowerCase task.title) (toLowerCase searchQuery) ||
        includes (toLowerCase task.description) (toLowerCase searchQuery)) <;> rfl
  have horder : ∀ l : List Task,
      l = tasks.filter (satisfiesFilters toLowerCase filterStatus filterPriority searchQuery) →
      l = filterTasks toLowerCase filterStatus filterPriority searchQuery tasks :=
    fun l hl => hl.trans hmain.symm
  refine ⟨hmain, ?_, ?_, ?_, ?_, ?_, ?_⟩
  · rw [hmain]; exact List.filter_sublist _
  all_goals
    apply horder
    simp only [filterBySearch_eq_filter _ _ _ h0 h1, filterByPriority_eq_filter,
      filterByStatus_eq_filter, List.filter_filter]
    apply List.filter_congr
    intro task _
    simp only [satisfiesFilters]
    cases (filterStatus == "all" || task.status == filterStatus) <;>
      cases (filterPriority == "all" || task.priority == filterPriority) <;>
      cases (searchQuery == "" ||
        includes (toLowerCase task.title) (toLowerCase searchQuery) ||
        includes (toLowerCase task.description) (toLowerCase searchQuery)) <;> rfl

theorem asciiLower_ne_empty (q : String) (h : q ≠ "") : asciiLower q ≠ "" := by
  intro hq
  apply h
  apply String.ext
  have := congrArg String.data hq
  simpa [asciiLower] using this

/-- Witness for C18: the search text `SPEC` on the sample task and a completed one. -/
theorem filterTasks_all_orders_witness :
    (asciiLower "" = "" ∧ ∀ q, q ≠ "" → asciiLower q ≠ "") ∧
    filterTasks asciiLower "to-do" "all" "SPEC" [sampleTask, doneTask] =
      [sampleTask, doneTask].filter (satisfiesFilters asciiLower "to-do" "all" "SPEC") ∧
    filterTasks asciiLower "to-do" "all" "SPEC" [sampleTask, doneTask] = [sampleTask] :=
  ⟨⟨by decide, asciiLower_ne_empty⟩,
    (filterTasks_all_orders asciiLower "to-do" "all" "SPEC" [sampleTask, doneTask]
      (by decide) asciiLower_ne_empty).1,
    by decide⟩

/-! ## C19: the Kanban columns -/

theorem column_lengths (tasks : List Task)
    (hst : ∀ task ∈ tasks,
      task.status = "to-do" ∨ task.status = "in-progress" ∨ task.status = "completed") :
    (getTasksByColumn tasks "to-do").length + (getTasksByColumn tasks "in-progress").length +
      (getTasksByColumn tasks "completed").length = tasks.length := by
  induction tasks with
  | nil => rfl
  | cons task tasks ih =>
    have hrest := ih fun t ht => hst t (List.mem_cons_of_mem _ ht)
    simp only [getTasksByColumn] at hrest ⊢
    rcases hst task (List.mem_cons_self _ _) with h | h | h
    · simp [List.filter_cons, h]; omega
    · simp [List.filter_cons, h]; omega
    · simp [List.filter_cons, h]; omega

/-- C19: the Kanban column of a status holds exactly the tasks with that
status, in their original order; when every status is one of `to-do`,
`in-progress` and `completed`, each task of the collection is in exactly one of
the three columns and the lengths of the three columns add up to the length of
the collection. -/
theorem getTasksByColumn_partition (tasks : List Task) :
    (∀ columnId,
      getTasksByColumn tasks columnId =
        (tasks.filter fun task => decide (task.status = columnId)) ∧
      (getTasksByColumn tasks columnId).Sublist tasks ∧
      (∀ task, task ∈ getTasksByColumn tasks columnId ↔
        task ∈ tasks ∧ task.status = columnId) ∧
      (∀ task, task.status = columnId →
        (getTasksByColumn tasks columnId).count task = tasks.count task)) ∧
    ((∀ task ∈ tasks,
        task.status = "to-do" ∨ task.status = "in-progress" ∨ task.status = "completed") →
      (∀ task ∈ tasks, ∃! columnId,
        columnId ∈ ["to-do", "in-progress", "completed"] ∧
          task ∈ getTasksByColumn tasks columnId) ∧
      (getTasksByColumn tasks "to-do").length +
          (getTasksByColumn tasks "in-progress").length +
          (getTasksByColumn tasks "completed").length = tasks.length) ∧
    getTasksByColumn [sampleTask, doneTask, { sampleTask with id := "t3" }] "to-do" =
      [sampleTask, { sampleTask with id := "t3" }] := by
  refine ⟨?_, ?_, by decide⟩
  · intro columnId
    refine ⟨rfl, List.filter_sublist _, ?_, ?_⟩
    · intro task
      simp [getTasksByColumn, List.mem_filter]
    · intro task hs
      simp [getTasksByColumn, List.count_filter, hs]
  · intro hst
    refine ⟨?_, column_lengths tasks hst⟩
    intro task hmem
    refine ⟨task.status, ⟨?_, ?_⟩, ?_⟩
    · rcases hst task hmem with h | h | h <;> simp [h]
    · simp [getTasksByColumn, List.mem_filter, hmem]
    · rintro columnId ⟨_, hcol⟩
      have : task.status = columnId := by
        simpa [getTasksByColumn, List.mem_filter, hmem] using hcol
      exact this.symm

/-! ## C20: the counts and the completion rate of the Analytics page -/

theorem roundHalfEven_le (p q k : Nat) (h : p ≤ k * q) : roundHalfEven p q ≤ k := by
  rcases Nat.eq_zero_or_pos q with hq | hq
  · subst hq
    have hp : p = 0 := by simpa using h
    subst hp
    simp [roundHalfEven]
  have hdiv : p / q ≤ k := Nat.div_le_of_le_mul (by rw [Nat.mul_comm]; exact h)
  have hstep : 0 < p % q → p / q + 1 ≤ k := by
    intro hr
    have hsplit := Nat.div_add_mod p q
    have hlt : q * (p / q) < q * k := by
      have : q * k = k * q := Nat.mul_comm _ _
      omega
    exact Nat.lt_of_mul_lt_mul_left hlt
  unfold roundHalfEven
  split
  · exact hdiv
  · split
    · exact hstep (by omega)
    · split
      · exact hdiv
      · exact hstep (by omega)

theorem roundHalfEven_mul (k q : Nat) (hq : 0 < q) : roundHalfEven (k * q) q = k := by
  simp [roundHalfEven, Nat.mul_mod_left, Nat.mul_div_cancel _ hq, hq]

theorem ofRatio_le (a b k : Nat) (h : a ≤ k * b) :
    (Double.ofRatio a b).mantissa ≤ k * 2 ^ (Double.ofRatio a b).shift := by
  unfold Double.ofRatio
  split
  · simp
  · simp only
    apply roundHalfEven_le
    calc a * 2 ^ Double.scale a b 1074 0 ≤ k * b * 2 ^ Double.scale a b 1074 0 :=
          Nat.mul_le_mul_right _ h
      _ = k * 2 ^ Double.scale a b 1074 0 * b := by ring

theorem ofRatio_mul (k b : Nat) (hk : 0 < k) (hb : 0 < b) :
    (Double.ofRatio (k * b) b).mantissa = k * 2 ^ (Double.ofRatio (k * b) b).shift := by
  have hne : k * b ≠ 0 := Nat.pos_iff_ne_zero.mp (Nat.mul_pos hk hb)
  simp only [Double.ofRatio, hne, if_false]
  rw [show k * b * 2 ^ Double.scale (k * b) b 1074 0 =
    k * 2 ^ Double.scale (k * b) b 1074 0 * b by ring]
  exact roundHalfEven_mul _ _ hb

theorem round_le (x : Double) (k : Nat) (h : x.mantissa ≤ k * 2 ^ x.shift) :
    Double.round x ≤ k := by
  unfold Double.round
  apply Nat.le_of_lt_succ
  rw [Nat.div_lt_iff_lt_mul (by positivity)]
  have hpos : 0 < 2 ^ x.shift := by positivity
  rw [pow_succ]
  nlinarith

theorem round_exact (x : Double) (k : Nat) (h : x.mantissa = k * 2 ^ x.shift) :
    Double.round x = k := by
  unfold Double.round
  have hpos : 0 < 2 ^ x.shift := by positivity
  rw [h, pow_succ]
  apply Nat.div_eq_of_lt_le
  · nlinarith
  · nlinarith

theorem countStatus_le (tasks : List Task) (status : String) :
    countStatus tasks status ≤ tasks.length :=
  List.length_filter_le _ _

theorem completionRate_le (tasks : List Task) : completionRate tasks ≤ 100 := by
  unfold completionRate
  split
  · apply round_le
    unfold Double.mulNat
    apply ofRatio_le
    have h1 := ofRatio_le (countStatus tasks "completed") tasks.length 1
      (by simpa using countStatus_le tasks "completed")
    unfold Double.div
    calc (Double.ofRatio (countStatus tasks "completed") tasks.length).mantissa * 100
        ≤ 1 * 2 ^ (Double.ofRatio (countStatus tasks "completed") tasks.length).shift * 100 :=
          Nat.mul_le_mul_right _ h1
      _ = 100 * 2 ^ (Double.ofRatio (countStatus tasks "completed") tasks.length).shift := by
          ring
  · omega

theorem completionRate_all_completed (tasks : List Task) (hne : tasks ≠ [])
    (hall : countStatus tasks "completed" = tasks.length) : completionRate tasks = 100 := by
  have hpos : 0 < tasks.length := List.length_pos.mpr hne
  unfold completionRate
  rw [if_pos hpos, hall]
  apply round_exact
  unfold Double.mulNat Double.div
  have h1 := ofRatio_mul 1 tasks.length Nat.one_pos hpos
  simp only [Nat.one_mul] at h1
  rw [h1, Nat.mul_comm]
  exact ofRatio_mul 100 _ (by norm_num) (by positivity)

theorem completionRate_none_completed (tasks : List Task)
    (hnone : countStatus tasks "completed" = 0) : completionRate tasks = 0 := by
  unfold completionRate
  split
  · rw [hnone]
    simp [Double.div, Double.mulNat, Double.ofRatio, Double.round]
  · rfl

theorem roundHalfEven_near (p q : Nat) (hq : 0 < q) :
    |(roundHalfEven p q : ℚ) - (p : ℚ) / q| ≤ 1 / 2 := by
  have hq' : (0 : ℚ) < q := by exact_mod_cast hq
  have hsplit : (p : ℚ) = (q : ℚ) * ((p / q : ℕ) : ℚ) + ((p % q : ℕ) : ℚ) := by
    exact_mod_cast (Nat.div_add_mod p q).symm
  have hmod : p % q < q := Nat.mod_lt _ hq
  have hmod' : ((p % q : ℕ) : ℚ) < q := by exact_mod_cast hmod
  have hmod0 : (0 : ℚ) ≤ ((p % q : ℕ) : ℚ) := by positivity
  have hdiv : (p : ℚ) / q = ((p / q : ℕ) : ℚ) + ((p % q : ℕ) : ℚ) / q := by
    field_simp
    linarith
  rw [hdiv, abs_le]
  unfold roundHalfEven
  split
  · next h =>
    have h' : 2 * ((p % q : ℕ) : ℚ) < q := by exact_mod_cast h
    have : ((p % q : ℕ) : ℚ) / q ≤ 1 / 2 := by
      rw [div_le_iff₀ hq']; linarith
    have : 0 ≤ ((p % q : ℕ) : ℚ) / q := by positivity
    constructor <;> linarith
  · next h =>
    have h' : (q : ℚ) ≤ 2 * ((p % q : ℕ) : ℚ) := by exact_mod_cast not_lt.mp h
    have h1 : 1 / 2 ≤ ((p % q : ℕ) : ℚ) / q := by
      rw [le_div_iff₀ hq']; linarith
    have h2 : ((p % q : ℕ) : ℚ) / q ≤ 1 := by
      rw [div_le_iff₀ hq']; linarith
    split
    · push_cast; constructor <;> linarith
    · next hlt =>
      have heq : 2 * ((p % q : ℕ) : ℚ) = q := by
        have : 2 * (p % q) = q := by omega
        exact_mod_cast this
      have h3 : ((p % q : ℕ) : ℚ) / q = 1 / 2 := by
        rw [div_eq_iff (ne_of_gt hq')]; linarith
      split
      · constructor <;> linarith
      · push_cast; constructor <;> linarith

theorem scale_ge_start (a b : Nat) : ∀ fuel s, s ≤ Double.scale a b fuel s := by
  intro fuel
  induction fuel with
  | zero => intro s; simp [Double.scale]
  | succ fuel ih =>
    intro s
    unfold Double.scale
    split
    · exact Nat.le_trans (Nat.le_succ s) (ih (s + 1))
    · exact Nat.le_refl s

theorem scale_ge (a b T : Nat) (hlow : ∀ t, t < T → a * 2 ^ t < 2 ^ 52 * b) :
    ∀ fuel s, s ≤ T → T ≤ s + fuel → T ≤ Double.scale a b fuel s := by
  intro fuel
  induction fuel with
  | zero => intro s _ h2; simpa [Double.scale] using h2
  | succ fuel ih =>
    intro s h1 h2
    unfold Double.scale
    split
    · rcases Nat.eq_or_lt_of_le h1 with heq | hlt
      · rw [← heq]
        exact Nat.le_trans (Nat.le_succ s) (scale_ge_start a b fuel (s + 1))
      · exact ih (s + 1) hlt (by omega)
    · next hnot =>
      by_contra hlt
      exact hnot (hlow s (by omega))

/-- The double nearest to `a / b` differs from it by half a unit of its last
place at most, a place that is at least the `T`-th binary one when `a / b`
stays below `2 ^ (52 - T)`. -/
theorem ofRatio_near (a b T : Nat) (hb : 0 < b) (hT : T ≤ 1074)
    (hlow : ∀ t, t < T → a * 2 ^ t < 2 ^ 52 * b) :
    |(Double.ofRatio a b).toRat - (a : ℚ) / b| ≤ 1 / 2 ^ (T + 1) := by
  have hb' : (0 : ℚ) < b := by exact_mod_cast hb
  by_cases ha : a = 0
  · subst ha
    simp [Double.ofRatio, Double.toRat]
  · have hs : T ≤ Double.scale a b 1074 0 := scale_ge a b T hlow 1074 0 (Nat.zero_le _) (by omega)
    have hnear := roundHalfEven_near (a * 2 ^ Double.scale a b 1074 0) b hb
    simp only [Double.ofRatio, ha, if_false, Double.toRat]
    have hpow : (0 : ℚ) < 2 ^ Double.scale a b 1074 0 := by positivity
    have hrw : (roundHalfEven (a * 2 ^ Double.scale a b 1074 0) b : ℚ) /
          2 ^ Double.scale a b 1074 0 - (a : ℚ) / b =
        ((roundHalfEven (a * 2 ^ Double.scale a b 1074 0) b : ℚ) -
          ((a * 2 ^ Double.scale a b 1074 0 : ℕ) : ℚ) / b) / 2 ^ Double.scale a b 1074 0 := by
      push_cast
      field_simp
      ring
    rw [hrw, abs_div, abs_of_pos hpow, div_le_iff₀ hpow]
    have hmono : (2 : ℚ) ^ T ≤ 2 ^ Double.scale a b 1074 0 :=
      pow_le_pow_right₀ (by norm_num) hs
    have h2 : (1 : ℚ) / 2 ^ (T + 1) * 2 ^ T = 1 / 2 := by
      rw [pow_succ]; field_simp
    have h3 : (1 : ℚ) / 2 ^ (T + 1) * 2 ^ T ≤
        1 / 2 ^ (T + 1) * 2 ^ Double.scale a b 1074 0 :=
      mul_le_mul_of_nonneg_left hmono (by positivity)
    linarith

/-- `Math.round` of a double is the floor of its value plus one half. -/
theorem round_eq_floor (x : Double) : ((Double.round x : ℕ) : ℤ) = ⌊x.toRat + 1 / 2⌋ := by
  symm
  rw [Int.floor_eq_iff]
  have hpos : 0 < 2 ^ (x.shift + 1) := by positivity
  have h1 : Double.round x * 2 ^ (x.shift + 1) ≤ 2 * x.mantissa + 2 ^ x.shift :=
    Nat.div_mul_le_self _ _
  have h2 : 2 * x.mantissa + 2 ^ x.shift < (Double.round x + 1) * 2 ^ (x.shift + 1) := by
    have := Nat.lt_succ_self ((2 * x.mantissa + 2 ^ x.shift) / 2 ^ (x.shift + 1))
    exact (Nat.div_lt_iff_lt_mul hpos).mp this
  have h1' : (Double.round x : ℚ) * 2 ^ (x.shift + 1) ≤ 2 * x.mantissa + 2 ^ x.shift := by
    exact_mod_cast h1
  have h2' : (2 * x.mantissa + 2 ^ x.shift : ℚ) < (Double.round x + 1) * 2 ^ (x.shift + 1) := by
    exact_mod_cast h2
  have hp : (0 : ℚ) < 2 ^ x.shift := by positivity
  have hval : x.toRat + 1 / 2 = (2 * x.mantissa + 2 ^ x.shift : ℚ) / 2 ^ (x.shift + 1) := by
    unfold Double.toRat
    rw [pow_succ]
    field_simp
    ring
  rw [hval]
  have hpq : (0 : ℚ) < 2 ^ (x.shift + 1) := by positivity
  constructor
  · rw [le_div_iff₀ hpq]
    exact_mod_cast h1'
  · rw [div_lt_iff₀ hpq]
    exact_mod_cast h2'

/-- The double `(c / n) * 100` differs from `100 c / n` by less than `2 ^ -45`. -/
theorem product_near (c n : Nat) (hn : 0 < n) (hc : c ≤ n) :
    |(Double.mulNat (Double.div c n) 100).toRat - (100 * c : ℚ) / n| ≤
      1 / 2 ^ 47 + 100 / 2 ^ 53 := by
  have hn' : (0 : ℚ) < n := by exact_mod_cast hn
  have hdiv : |(Double.div c n).toRat - (c : ℚ) / n| ≤ 1 / 2 ^ 53 := by
    apply ofRatio_near c n 52 hn (by norm_num)
    intro t ht
    have h1 : 2 ^ t < 2 ^ 52 := Nat.pow_lt_pow_right (by norm_num) ht
    calc c * 2 ^ t ≤ n * 2 ^ t := Nat.mul_le_mul_right _ hc
      _ < n * 2 ^ 52 := Nat.mul_lt_mul_of_pos_left h1 hn
      _ = 2 ^ 52 * n := Nat.mul_comm _ _
  have hle : (Double.div c n).mantissa ≤ 1 * 2 ^ (Double.div c n).shift :=
    ofRatio_le c n 1 (by simpa using hc)
  have hmul : |(Double.mulNat (Double.div c n) 100).toRat -
      (((Double.div c n).mantissa * 100 : ℕ) : ℚ) / ((2 ^ (Double.div c n).shift : ℕ) : ℚ)| ≤
      1 / 2 ^ 47 := by
    apply ofRatio_near _ _ 46 (by positivity) (by norm_num)
    intro t ht
    have h1 : 2 ^ t ≤ 2 ^ 45 := Nat.pow_le_pow_right (by norm_num) (by omega)
    calc (Double.div c n).mantissa * 100 * 2 ^ t
        ≤ 1 * 2 ^ (Double.div c n).shift * 100 * 2 ^ 45 :=
          Nat.mul_le_mul (Nat.mul_le_mul_right _ hle) h1
      _ < 2 ^ 52 * 2 ^ (Double.div c n).shift := by
          have hp : 0 < 2 ^ (Double.div c n).shift := by positivity
          nlinarith
  have hval : (((Double.div c n).mantissa * 100 : ℕ) : ℚ) /
      ((2 ^ (Double.div c n).shift : ℕ) : ℚ) = 100 * (Double.div c n).toRat := by
    unfold Double.toRat
    push_cast
    ring
  rw [hval] at hmul
  have htri : (Double.mulNat (Double.div c n) 100).toRat - (100 * c : ℚ) / n =
      ((Double.mulNat (Double.div c n) 100).toRat - 100 * (Double.div c n).toRat) +
        100 * ((Double.div c n).toRat - (c : ℚ) / n) := by
    ring
  rw [htri]
  have h100 : |100 * ((Double.div c n).toRat - (c : ℚ) / n)| ≤ 100 / 2 ^ 53 := by
    rw [abs_mul, abs_of_pos (by norm_num : (0 : ℚ) < 100)]
    calc 100 * |(Double.div c n).toRat - (c : ℚ) / n| ≤ 100 * (1 / 2 ^ 53) :=
          mul_le_mul_of_nonneg_left hdiv (by norm_num)
      _ = 100 / 2 ^ 53 := by ring
  exact le_trans (abs_add _ _) (add_le_add hmul h100)

/-- `Math.round((c / n) * 100)` against `round(100 c / n)`, for an array of
fewer than `2 ^ 32` elements: equal unless `100 c / n` lies exactly halfway
between two integers, and one below at most. -/
theorem rate_vs_round (c n : Nat) (hn : 0 < n) (hc : c ≤ n) (hlen : n < 2 ^ 32) :
    round ((100 * c : ℚ) / n) - 1 ≤ (Double.round (Double.mulNat (Double.div c n) 100) : ℤ) ∧
    (Double.round (Double.mulNat (Double.div c n) 100) : ℤ) ≤ round ((100 * c : ℚ) / n) ∧
    (Int.fract ((100 * c : ℚ) / n) ≠ 1 / 2 →
      (Double.round (Double.mulNat (Double.div c n) 100) : ℤ) = round ((100 * c : ℚ) / n)) := by
  have hn' : (0 : ℚ) < n := by exact_mod_cast hn
  have hnear := abs_le.mp (product_near c n hn hc)
  have hlen' : (n : ℚ) < 2 ^ 32 := by exact_mod_cast hlen
  have heps : (1 : ℚ) / 2 ^ 47 + 100 / 2 ^ 53 < 1 / (2 * n) := by
    rw [lt_div_iff₀ (by positivity)]
    have : (1 : ℚ) / 2 ^ 47 + 100 / 2 ^ 53 ≤ 1 / 2 ^ 45 := by norm_num
    calc ((1 : ℚ) / 2 ^ 47 + 100 / 2 ^ 53) * (2 * n) ≤ 1 / 2 ^ 45 * (2 * n) :=
          mul_le_mul_of_nonneg_right this (by positivity)
      _ < 1 / 2 ^ 45 * (2 * 2 ^ 32) := by
          apply mul_lt_mul_of_pos_left _ (by positivity)
          linarith
      _ < 1 := by norm_num
  have heps1 : (1 : ℚ) / (2 * n) ≤ 1 / 2 := by
    rw [div_le_div_iff₀ (by positivity) (by norm_num)]
    have : (1 : ℚ) ≤ n := by exact_mod_cast hn
    linarith
  rw [round_eq_floor, round_eq]
  set Y := (Double.mulNat (Double.div c n) 100).toRat with hY
  set R := ⌊(100 * c : ℚ) / n + 1 / 2⌋ with hR
  have hR1 : (R : ℚ) ≤ (100 * c : ℚ) / n + 1 / 2 := Int.floor_le _
  have hR2 : (100 * c : ℚ) / n + 1 / 2 < R + 1 := Int.lt_floor_add_one _
  have hX : (100 * c : ℚ) / n + 1 / 2 = (200 * c + n : ℚ) / (2 * n) := by
    field_simp
    ring
  have hup : (100 * c : ℚ) / n + 1 / 2 + 1 / (2 * n) ≤ R + 1 := by
    rw [hX] at hR2 ⊢
    rw [div_lt_iff₀ (by positivity)] at hR2
    have hint : (200 * c + n : ℤ) < (R + 1) * (2 * n) := by exact_mod_cast hR2
    have hint' : (200 * c + n : ℤ) + 1 ≤ (R + 1) * (2 * n) := hint
    have hq : (200 * c + n : ℚ) + 1 ≤ (R + 1) * (2 * n) := by exact_mod_cast hint'
    rw [← add_div, div_le_iff₀ (by positivity)]
    exact hq
  refine ⟨?_, ?_, ?_⟩
  · rw [sub_le_iff_le_add, ← Int.floor_add_one, Int.le_floor]
    linarith [hnear.1]
  · rw [← Int.lt_add_one_iff, Int.floor_lt]
    push_cast
    linarith [hnear.2]
  · intro hhalf
    have hne : (R : ℚ) ≠ (100 * c : ℚ) / n + 1 / 2 := by
      intro heq
      apply hhalf
      have hx : (100 * c : ℚ) / n = ((R - 1 : ℤ) : ℚ) + 1 / 2 := by
        push_cast
        linarith
      rw [hx, Int.fract_int_add]
      rw [Int.fract_eq_iff]
      refine ⟨by norm_num, by norm_num, 0, by norm_num⟩
    have hlt : (R : ℚ) < (100 * c : ℚ) / n + 1 / 2 := lt_of_le_of_ne hR1 hne
    have hlow : (R : ℚ) + 1 / (2 * n) ≤ (100 * c : ℚ) / n + 1 / 2 := by
      rw [hX] at hlt ⊢
      rw [lt_div_iff₀ (by positivity)] at hlt
      have hint : R * (2 * n) < (200 * c + n : ℤ) := by exact_mod_cast hlt
      have hint' : R * (2 * n) + 1 ≤ (200 * c + n : ℤ) := hint
      have hq : (R : ℚ) * (2 * n) + 1 ≤ (200 * c + n : ℚ) := by exact_mod_cast hint'
      rw [le_div_iff₀ (by positivity), add_mul, one_div, inv_mul_cancel₀ (by positivity)]
      exact hq
    apply le_antisymm
    · rw [← Int.lt_add_one_iff, Int.floor_lt]
      push_cast
      linarith [hnear.2]
    · rw [Int.le_floor]
      linarith [hnear.1]

/-- C20 (as stated, refuted): with 23 of 40 tasks completed the page shows 57,
the double `(23 / 40) * 100` being `57.49999999999999`, while
`round(100 × 23 / 40)` is 58. -/
theorem completion_rate_23_of_40 :
    fortyTasks.length = 40 ∧
    countStatus fortyTasks "completed" = 23 ∧
    Double.mulNat (Double.div 23 40) 100 = { mantissa := 8092405580431359, shift := 47 } ∧
    completionRate fortyTasks = 57 ∧
    round ((100 * 23 : ℚ) / 40) = 58 := by
  refine ⟨by decide, by decide, by decide, by decide, ?_⟩
  rw [round_eq, Int.floor_eq_iff]
  norm_num

/-- C20 (amended): from the initial state of the page the empty collection has
every per-status and per-priority count 0, and its completion rate is 0.  For a
non-empty collection the counts are the numbers of tasks of each status and
priority, and the completion rate is `Math.round` of the double
`(completedCount / totalCount) * 100`, the division having a positive divisor:
for an array, which holds fewer than `2 ^ 32` tasks, it is
`round(100 × completedCount / totalCount)` unless that quotient lies exactly
halfway between two integers, and then it is that or one below; it is 0 when no
task is completed and 100 when all are.  It lies between 0 and 100 always. -/
theorem analytics_counts_and_rate (tasks : List Task) (counts : ChartCounts) :
    countsEffect [] ChartCounts.initial =
      { todo := 0, inProgress := 0, completed := 0, high := 0, medium := 0, low := 0 } ∧
    completionRate [] = 0 ∧
    (tasks ≠ [] →
      countsEffect tasks counts =
        { todo := countStatus tasks "to-do"
          inProgress := countStatus tasks "in-progress"
          completed := countStatus tasks "completed"
          high := countPriority tasks "high"
          medium := countPriority tasks "medium"
          low := countPriority tasks "low" } ∧
      0 < tasks.length ∧
      completionRate tasks =
        Double.round
          (Double.mulNat (Double.div (countStatus tasks "completed") tasks.length) 100) ∧
      (tasks.length < 2 ^ 32 →
        round ((100 * countStatus tasks "completed" : ℚ) / tasks.length) - 1 ≤
            (completionRate tasks : ℤ) ∧
        (completionRate tasks : ℤ) ≤
            round ((100 * countStatus tasks "completed" : ℚ) / tasks.length) ∧
        (Int.fract ((100 * countStatus tasks "completed" : ℚ) / tasks.length) ≠ 1 / 2 →
          (completionRate tasks : ℤ) =
            round ((100 * countStatus tasks "completed" : ℚ) / tasks.length))) ∧
      (countStatus tasks "completed" = 0 → completionRate tasks = 0) ∧
      (countStatus tasks "completed" = tasks.length → completionRate tasks = 100)) ∧
    0 ≤ completionRate tasks ∧ completionRate tasks ≤ 100 := by
  refine ⟨rfl, rfl, ?_, Nat.zero_le _, completionRate_le tasks⟩
  intro hne
  have hpos : 0 < tasks.length := List.length_pos.mpr hne
  have hrate : completionRate tasks =
      Double.round
        (Double.mulNat (Double.div (countStatus tasks "completed") tasks.length) 100) := by
    simp [completionRate, hpos]
  refine ⟨by simp [countsEffect, hpos], hpos, hrate, ?_,
    completionRate_none_completed tasks, completionRate_all_completed tasks hne⟩
  intro hlen
  rw [hrate]
  exact rate_vs_round _ _ hpos (countStatus_le tasks "completed") hlen

/-- Witness for C20 (amended): the forty tasks, 23 of them completed, where
the quotient is 57.5 and the page shows one below its rounding. -/
theorem analytics_counts_and_rate_witness :
    fortyTasks ≠ [] ∧ fortyTasks.length < 2 ^ 32 ∧
    round ((100 * countStatus fortyTasks "completed" : ℚ) / fortyTasks.length) - 1 ≤
      (completionRate fortyTasks : ℤ) :=
  have hne : fortyTasks ≠ [] := by decide
  have hlen : fortyTasks.length < 2 ^ 32 := by decide
  ⟨hne, hlen,
    ((analytics_counts_and_rate fortyTasks ChartCounts.initial).2.2.1 hne).2.2.2.1 hlen |>.1⟩

/-! ## The rounding of JavaScript numbers -/

theorem roundTiesEven_intCast (z : ℤ) : roundTiesEven z = z := by
  simp [roundTiesEven]

theorem floor_le_roundTiesEven (x : ℚ) : ⌊x⌋ ≤ roundTiesEven x := by
  unfold roundTiesEven
  split_ifs <;> omega

theorem roundTiesEven_le (x : ℚ) (z : ℤ) (h : x ≤ z) : roundTiesEven x ≤ z := by
  have hfl : ⌊x⌋ ≤ z := Int.floor_le_iff.mpr (lt_of_le_of_lt h (by simp))
  have hstep : 0 < Int.fract x → ⌊x⌋ + 1 ≤ z := by
    intro hfr
    have hlt : (⌊x⌋ : ℚ) < x := by
      have := Int.self_sub_floor x
      linarith
    have : (⌊x⌋ : ℚ) < z := lt_of_lt_of_le hlt h
    have : ⌊x⌋ < z := by exact_mod_cast this
    omega
  unfold roundTiesEven
  split_ifs with h1 h2 h3
  · exact hfl
  · exact hstep (by linarith)
  · exact hfl
  · exact hstep (by linarith)

theorem le_roundTiesEven (x : ℚ) (z : ℤ) (h : (z : ℚ) ≤ x) : z ≤ roundTiesEven x :=
  le_trans (Int.le_floor.mpr h) (floor_le_roundTiesEven x)

theorem roundTiesEven_near (x : ℚ) (z : ℤ) (h : |x - z| < 1 / 2) : roundTiesEven x = z := by
  obtain ⟨h1, h2⟩ := abs_lt.mp h
  have hfr := Int.self_sub_floor x
  have hfl1 : (⌊x⌋ : ℚ) ≤ x := Int.floor_le x
  have hfl2 : x < ⌊x⌋ + 1 := Int.lt_floor_add_one x
  unfold roundTiesEven
  split_ifs with c1 c2 c3
  · have ha : (z : ℚ) < ⌊x⌋ + 1 := by linarith
    have hb : (⌊x⌋ : ℚ) < z + 1 := by linarith
    have ha' : z < ⌊x⌋ + 1 := by exact_mod_cast ha
    have hb' : ⌊x⌋ < z + 1 := by exact_mod_cast hb
    omega
  · have ha : (z : ℚ) < ⌊x⌋ + 2 := by linarith
    have hb : (⌊x⌋ : ℚ) < z := by linarith
    have ha' : z < ⌊x⌋ + 2 := by exact_mod_cast ha
    have hb' : ⌊x⌋ < z := by exact_mod_cast hb
    omega
  · have heq : Int.fract x = 1 / 2 := le_antisymm (not_lt.mp c2) (not_lt.mp c1)
    have ha : (z : ℚ) < ⌊x⌋ + 1 := by linarith
    have hb : (⌊x⌋ : ℚ) < z := by linarith
    have ha' : z < ⌊x⌋ + 1 := by exact_mod_cast ha
    have hb' : ⌊x⌋ < z := by exact_mod_cast hb
    omega
  · have heq : Int.fract x = 1 / 2 := le_antisymm (not_lt.mp c2) (not_lt.mp c1)
    have ha : (z : ℚ) < ⌊x⌋ + 1 := by linarith
    have hb : (⌊x⌋ : ℚ) < z := by linarith
    have ha' : z < ⌊x⌋ + 1 := by exact_mod_cast ha
    have hb' : ⌊x⌋ < z := by exact_mod_cast hb
    omega

theorem ulpExponent_ge (q : ℚ) : -1074 ≤ ulpExponent q := by
  unfold ulpExponent
  have := le_max_right (Int.log 2 |q|) (-1022)
  omega

theorem log_le_ulpExponent (q : ℚ) : Int.log 2 |q| - 52 ≤ ulpExponent q := by
  unfold ulpExponent
  have := le_max_left (Int.log 2 |q|) (-1022)
  omega

theorem two_zpow_pos (e : ℤ) : (0 : ℚ) < 2 ^ e := by positivity

/-- A double at least as large in magnitude as `q` lies on the grid of the
units in the last place around `q`. -/
theorem ulpExponent_le (q : ℚ) (m e : ℤ) (hq : q ≠ 0) (hm : |m| < 2 ^ 53) (he : -1074 ≤ e)
    (hle : |q| ≤ |(m : ℚ) * 2 ^ e|) : ulpExponent q ≤ e := by
  have hqpos : 0 < |q| := abs_pos.mpr hq
  have hm' : |(m : ℚ)| < 2 ^ 53 := by exact_mod_cast hm
  have hlt : |q| < (2 : ℚ) ^ (53 + e) := by
    calc |q| ≤ |(m : ℚ) * 2 ^ e| := hle
      _ = |(m : ℚ)| * 2 ^ e := by rw [abs_mul, abs_of_pos (two_zpow_pos e)]
      _ < 2 ^ 53 * 2 ^ e := mul_lt_mul_of_pos_right hm' (two_zpow_pos e)
      _ = 2 ^ (53 + e) := by
          rw [zpow_add₀ (by norm_num : (2 : ℚ) ≠ 0)]
          norm_num
  have hlog : Int.log 2 |q| < 53 + e := by
    have := (Int.lt_zpow_iff_log_lt (by norm_num : 1 < 2) hqpos).mp (by exact_mod_cast hlt)
    exact this
  unfold ulpExponent
  have : max (Int.log 2 |q|) (-1022) ≤ 52 + e := max_le (by omega) (by omega)
  omega

theorem on_grid (m e u : ℤ) (hu : u ≤ e) :
    ∃ D : ℤ, (m : ℚ) * 2 ^ e = D * 2 ^ u ∧ (m : ℚ) * 2 ^ e / 2 ^ u = D := by
  refine ⟨m * 2 ^ (e - u).toNat, ?_, ?_⟩
  · have hsplit : (2 : ℚ) ^ e = 2 ^ ((e - u).toNat : ℤ) * 2 ^ u := by
      rw [← zpow_add₀ (by norm_num : (2 : ℚ) ≠ 0), Int.toNat_of_nonneg (by omega)]
      congr 1
      omega
    rw [hsplit, zpow_natCast]
    push_cast
    ring
  · have hsplit : (2 : ℚ) ^ e = 2 ^ ((e - u).toNat : ℤ) * 2 ^ u := by
      rw [← zpow_add₀ (by norm_num : (2 : ℚ) ≠ 0), Int.toNat_of_nonneg (by omega)]
      congr 1
      omega
    rw [hsplit, zpow_natCast]
    push_cast
    field_simp
    ring

theorem nearest_zero : nearest 0 = 0 := by
  simp [nearest, roundTiesEven]

/-- A binary64 number is its own nearest binary64 number. -/
theorem nearest_of_isDouble (d : ℚ) (h : isDouble d) : nearest d = d := by
  obtain ⟨m, e, hd, hm, he, _⟩ := h
  by_cases h0 : d = 0
  · rw [h0, nearest_zero]
  · have hu : ulpExponent d ≤ e := ulpExponent_le d m e h0 hm he (by rw [← hd])
    obtain ⟨D, hD, hDdiv⟩ := on_grid m e (ulpExponent d) hu
    rw [← hd] at hD hDdiv
    unfold nearest
    rw [hDdiv, roundTiesEven_intCast, ← hD]

/-- Rounding does not cross a binary64 number that is at least as large in
magnitude: from below. -/
theorem nearest_le (q d : ℚ) (hd : isDouble d) (habs : |q| ≤ |d|) (hle : q ≤ d) :
    nearest q ≤ d := by
  obtain ⟨m, e, hde, hm, he, _⟩ := hd
  by_cases h0 : q = 0
  · rw [h0, nearest_zero]
    rw [h0] at hle
    exact hle
  · have hu : ulpExponent q ≤ e := ulpExponent_le q m e h0 hm he (by rw [← hde]; exact habs)
    obtain ⟨D, hD, hDdiv⟩ := on_grid m e (ulpExponent q) hu
    rw [← hde] at hD hDdiv
    have hpos := two_zpow_pos (ulpExponent q)
    have hx : q / 2 ^ ulpExponent q ≤ D := by
      rw [← hDdiv]
      exact div_le_div_of_nonneg_right hle (le_of_lt hpos)
    have hr : roundTiesEven (q / 2 ^ ulpExponent q) ≤ D := roundTiesEven_le _ _ hx
    unfold nearest
    rw [hD]
    exact mul_le_mul_of_nonneg_right (by exact_mod_cast hr) (le_of_lt hpos)

/-- Rounding does not cross a binary64 number that is at least as large in
magnitude: from above. -/
theorem le_nearest (q d : ℚ) (hd : isDouble d) (habs : |q| ≤ |d|) (hle : d ≤ q) :
    d ≤ nearest q := by
  obtain ⟨m, e, hde, hm, he, _⟩ := hd
  by_cases h0 : q = 0
  · rw [h0, nearest_zero]
    rw [h0] at hle
    exact hle
  · have hu : ulpExponent q ≤ e := ulpExponent_le q m e h0 hm he (by rw [← hde]; exact habs)
    obtain ⟨D, hD, hDdiv⟩ := on_grid m e (ulpExponent q) hu
    rw [← hde] at hD hDdiv
    have hpos := two_zpow_pos (ulpExponent q)
    have hx : (D : ℚ) ≤ q / 2 ^ ulpExponent q := by
      rw [← hDdiv]
      exact div_le_div_of_nonneg_right hle (le_of_lt hpos)
    have hr : D ≤ roundTiesEven (q / 2 ^ ulpExponent q) := le_roundTiesEven _ _ hx
    unfold nearest
    rw [hD]
    exact mul_le_mul_of_nonneg_right (by exact_mod_cast hr) (le_of_lt hpos)

theorem nearest_nonneg (q : ℚ) (h : 0 ≤ q) : 0 ≤ nearest q := by
  have hpos := two_zpow_pos (ulpExponent q)
  have hx : ((0 : ℤ) : ℚ) ≤ q / 2 ^ ulpExponent q := by
    push_cast
    positivity
  have hr : (0 : ℤ) ≤ roundTiesEven (q / 2 ^ ulpExponent q) := le_roundTiesEven _ _ hx
  unfold nearest
  have : (0 : ℚ) ≤ roundTiesEven (q / 2 ^ ulpExponent q) := by exact_mod_cast hr
  positivity

theorem nearest_nonpos (q : ℚ) (h : q ≤ 0) : nearest q ≤ 0 := by
  have hpos := two_zpow_pos (ulpExponent q)
  have hx : q / 2 ^ ulpExponent q ≤ ((0 : ℤ) : ℚ) := by
    push_cast
    exact div_nonpos_of_nonpos_of_nonneg h (le_of_lt hpos)
  have hr : roundTiesEven (q / 2 ^ ulpExponent q) ≤ (0 : ℤ) := roundTiesEven_le _ _ hx
  unfold nearest
  have : (roundTiesEven (q / 2 ^ ulpExponent q) : ℚ) ≤ 0 := by exact_mod_cast hr
  exact mul_nonpos_of_nonpos_of_nonneg this (le_of_lt hpos)

theorem log_eq_of_bounds (q : ℚ) (L : ℤ) (h1 : (2 : ℚ) ^ L ≤ |q|) (h2 : |q| < 2 ^ (L + 1)) :
    Int.log 2 |q| = L := by
  have hpos : 0 < |q| := lt_of_lt_of_le (two_zpow_pos L) h1
  have ha : L ≤ Int.log 2 |q| :=
    (Int.zpow_le_iff_le_log (by norm_num : 1 < 2) hpos).mp (by exact_mod_cast h1)
  have hb : Int.log 2 |q| < L + 1 :=
    (Int.lt_zpow_iff_log_lt (by norm_num : 1 < 2) hpos).mp (by exact_mod_cast h2)
  omega

/-- The nearest binary64 number, by the exponent and the mantissa. -/
theorem nearest_eq (q : ℚ) (L M : ℤ) (h1 : (2 : ℚ) ^ L ≤ |q|) (h2 : |q| < 2 ^ (L + 1))
    (hL : -1022 ≤ L) (hM : |q / 2 ^ (L - 52) - M| < 1 / 2) :
    nearest q = M * 2 ^ (L - 52) := by
  have hu : ulpExponent q = L - 52 := by
    unfold ulpExponent
    rw [log_eq_of_bounds q L h1 h2, max_eq_left hL]
  unfold nearest
  rw [hu, roundTiesEven_near _ M hM]

/-- The scaled quotient that is rounded to a mantissa lies within `2 ^ 53`. -/
theorem scaled_abs_lt (q : ℚ) (hq : q ≠ 0) : |q / 2 ^ ulpExponent q| < 2 ^ 53 := by
  have hqpos : 0 < |q| := abs_pos.mpr hq
  have hlt : |q| < (2 : ℚ) ^ (Int.log 2 |q| + 1) := by
    exact_mod_cast Int.lt_zpow_succ_log_self (by norm_num : 1 < 2) |q|
  have hu := log_le_ulpExponent q
  have hpos := two_zpow_pos (ulpExponent q)
  rw [abs_div, abs_of_pos hpos, div_lt_iff₀ hpos]
  calc |q| < (2 : ℚ) ^ (Int.log 2 |q| + 1) := hlt
    _ ≤ 2 ^ (53 + ulpExponent q) := zpow_le_zpow_right₀ (by norm_num) (by omega)
    _ = 2 ^ 53 * 2 ^ ulpExponent q := by
        rw [zpow_add₀ (by norm_num : (2 : ℚ) ≠ 0)]
        norm_num

/-- What rounding gives, short of an overflow, is a binary64 number. -/
theorem isDouble_nearest (q : ℚ) (h : |nearest q| < 2 ^ 1024) : isDouble (nearest q) := by
  by_cases h0 : q = 0
  · rw [h0, nearest_zero]
    exact ⟨0, 0, by simp, by norm_num, by norm_num, by norm_num⟩
  · have hsc := abs_lt.mp (scaled_abs_lt q h0)
    have hup : roundTiesEven (q / 2 ^ ulpExponent q) ≤ (2 ^ 53 : ℤ) :=
      roundTiesEven_le _ _ (by push_cast; exact le_of_lt hsc.2)
    have hlo : (-2 ^ 53 : ℤ) ≤ roundTiesEven (q / 2 ^ ulpExponent q) :=
      le_roundTiesEven _ _ (by push_cast; exact le_of_lt hsc.1)
    have hge := ulpExponent_ge q
    have hsucc : (2 : ℚ) ^ (ulpExponent q + 1) = 2 * 2 ^ ulpExponent q := by
      rw [zpow_add₀ (by norm_num : (2 : ℚ) ≠ 0)]
      ring
    rcases lt_or_eq_of_le hup with hlt | heq
    · rcases lt_or_eq_of_le hlo with hgt | heq'
      · exact ⟨roundTiesEven (q / 2 ^ ulpExponent q), ulpExponent q, rfl,
          abs_lt.mpr ⟨hgt, hlt⟩, hge, h⟩
      · refine ⟨-2 ^ 52, ulpExponent q + 1, ?_, by norm_num, by omega, h⟩
        unfold nearest
        rw [← heq', hsucc]
        push_cast
        ring
    · refine ⟨2 ^ 52, ulpExponent q + 1, ?_, by norm_num, by omega, h⟩
      unfold nearest
      rw [heq, hsucc]
      push_cast
      ring

theorem isDouble_natCast (n : ℕ) (h : n < 2 ^ 53) : isDouble (n : ℚ) := by
  refine ⟨n, 0, by simp, ?_, by norm_num, ?_⟩
  · rw [abs_of_nonneg (by positivity)]
    exact_mod_cast h
  · rw [abs_of_nonneg (by positivity)]
    have h1 : (n : ℚ) < 2 ^ 53 := by exact_mod_cast h
    have h2 : (2 : ℚ) ^ 53 < 2 ^ 1024 := by norm_num
    linarith

/-- Rounding a whole number gives a whole number. -/
theorem nearest_natCast (n : ℕ) : ∃ k : ℕ, nearest (n : ℚ) = k := by
  rcases lt_or_le n (2 ^ 53) with hlt | hge
  · exact ⟨n, nearest_of_isDouble _ (isDouble_natCast n hlt)⟩
  · have hnpos : (0 : ℚ) < |(n : ℚ)| := by
      rw [abs_of_nonneg (by positivity)]
      have : 0 < n := lt_of_lt_of_le (by positivity) hge
      exact_mod_cast this
    have hlog : (53 : ℤ) ≤ Int.log 2 |(n : ℚ)| := by
      apply (Int.zpow_le_iff_le_log (by norm_num : 1 < 2) hnpos).mp
      rw [abs_of_nonneg (by positivity)]
      have h53 : ((2 ^ 53 : ℕ) : ℚ) ≤ n := by exact_mod_cast hge
      norm_num at h53 ⊢
      exact h53
    have hu : 0 ≤ ulpExponent (n : ℚ) := by
      have := log_le_ulpExponent (n : ℚ)
      omega
    have hM : (0 : ℤ) ≤ roundTiesEven ((n : ℚ) / 2 ^ ulpExponent (n : ℚ)) :=
      le_roundTiesEven _ _ (by push_cast; positivity)
    refine ⟨(roundTiesEven ((n : ℚ) / 2 ^ ulpExponent (n : ℚ))).toNat *
      2 ^ (ulpExponent (n : ℚ)).toNat, ?_⟩
    unfold nearest
    have h1 : ((roundTiesEven ((n : ℚ) / 2 ^ ulpExponent (n : ℚ))).toNat : ℤ) =
        roundTiesEven ((n : ℚ) / 2 ^ ulpExponent (n : ℚ)) := Int.toNat_of_nonneg hM
    have h2 : (2 : ℚ) ^ ulpExponent (n : ℚ) = 2 ^ (ulpExponent (n : ℚ)).toNat := by
      rw [← zpow_natCast, Int.toNat_of_nonneg hu]
    rw [h2]
    push_cast
    rw [← h2]
    congr 1
    exact_mod_cast h1.symm

theorem ofRat_of_isDouble (d : ℚ) (h : isDouble d) : JsNumber.ofRat d = JsNumber.finite d := by
  have hn := nearest_of_isDouble d h
  obtain ⟨_, _, _, _, _, hlt⟩ := h
  obtain ⟨h1, h2⟩ := abs_lt.mp hlt
  unfold JsNumber.ofRat
  rw [hn]
  have c1 : ¬ (2 : ℚ) ^ 1024 ≤ d := not_le.mpr h2
  have c2 : ¬ d ≤ -(2 : ℚ) ^ 1024 := not_le.mpr h1
  have c3 : ¬ (d = 0 ∧ d < 0) := by
    rintro ⟨h0, hneg⟩
    rw [h0] at hneg
    exact lt_irrefl _ hneg
  rw [if_neg c1, if_neg c2, if_neg c3]

theorem ofNat_eq_finite (n : ℕ) (h : n < 2 ^ 53) :
    (OfNat.ofNat n : JsNumber) = JsNumber.finite n :=
  ofRat_of_isDouble _ (isDouble_natCast n h)

theorem JsNumber.zero_eq : (0 : JsNumber) = JsNumber.finite 0 := by
  have h := ofNat_eq_finite 0 (by norm_num)
  simpa using h

theorem JsNumber.one_eq : (1 : JsNumber) = JsNumber.finite 1 := by
  have h := ofNat_eq_finite 1 (by norm_num)
  simpa using h

theorem JsNumber.sixty_eq : (60 : JsNumber) = JsNumber.finite 60 := by
  have h := ofNat_eq_finite 60 (by norm_num)
  simpa using h

theorem JsNumber.not_le_of_lt {x y : JsNumber} (h : x < y) : ¬ y ≤ x := by
  change JsNumber.lt x y = true at h
  change ¬ JsNumber.le y x = true
  cases x <;> cases y <;> simp_all [JsNumber.lt, JsNumber.le]

theorem JsNumber.not_lt_of_le {x y : JsNumber} (h : x ≤ y) : ¬ y < x :=
  fun hlt => JsNumber.not_le_of_lt hlt h

theorem JsNumber.finite_le_finite (a b : ℚ) :
    JsNumber.finite a ≤ JsNumber.finite b ↔ a ≤ b := by
  change JsNumber.le _ _ = true ↔ _
  simp [JsNumber.le]

theorem JsNumber.finite_lt_finite (a b : ℚ) :
    JsNumber.finite a < JsNumber.finite b ↔ a < b := by
  change JsNumber.lt _ _ = true ↔ _
  simp [JsNumber.lt]

/-- The product of two whole numbers, while it stays below `2 ^ 53`. -/
theorem JsNumber.mul_natCast (a b : ℕ) (h : a * b < 2 ^ 53) :
    JsNumber.finite a * JsNumber.finite b = JsNumber.finite ((a * b : ℕ) : ℚ) := by
  change JsNumber.mul _ _ = _
  have hd := ofRat_of_isDouble _ (isDouble_natCast (a * b) h)
  by_cases h0 : (a : ℚ) * b = 0
  · have h0' : ((a * b : ℕ) : ℚ) = 0 := by push_cast; exact h0
    have ha : ¬ (a : ℚ) < 0 := not_lt.mpr (by positivity)
    have hb : ¬ (b : ℚ) < 0 := not_lt.mpr (by positivity)
    simp [JsNumber.mul, JsNumber.toRat?, h0, h0', JsNumber.isNegative, ha, hb]
  · push_cast at hd ⊢
    simp [JsNumber.mul, JsNumber.toRat?, h0, hd]

/-- One off a whole number, up to `2 ^ 53`. -/
theorem JsNumber.succ_sub_one (n : ℕ) (h : n < 2 ^ 53) :
    JsNumber.finite ((n + 1 : ℕ) : ℚ) - 1 = JsNumber.finite n := by
  rw [JsNumber.one_eq]
  change JsNumber.sub _ _ = _
  have hd := ofRat_of_isDouble _ (isDouble_natCast n h)
  have hval : ((n + 1 : ℕ) : ℚ) - 1 = n := by push_cast; ring
  by_cases h0 : (n : ℚ) = 0
  · simp [JsNumber.sub, JsNumber.toRat?, hval, h0]
  · simp [JsNumber.sub, JsNumber.toRat?, hval, h0, hd]


/-! ## C24-C28, C30: the Pomodoro store -/

theorem JsNumber.twentyFive_mul_sixty : (25 : JsNumber) * 60 = JsNumber.finite 1500 := by
  have h25 : (25 : JsNumber) = JsNumber.finite ((25 : ℕ) : ℚ) := ofNat_eq_finite 25 (by norm_num)
  have h60 : (60 : JsNumber) = JsNumber.finite ((60 : ℕ) : ℚ) := ofNat_eq_finite 60 (by norm_num)
  rw [h25, h60, JsNumber.mul_natCast 25 60 (by norm_num)]
  norm_num

theorem JsNumber.five_mul_sixty : (5 : JsNumber) * 60 = JsNumber.finite 300 := by
  have h5 : (5 : JsNumber) = JsNumber.finite ((5 : ℕ) : ℚ) := ofNat_eq_finite 5 (by norm_num)
  have h60 : (60 : JsNumber) = JsNumber.finite ((60 : ℕ) : ℚ) := ofNat_eq_finite 60 (by norm_num)
  rw [h5, h60, JsNumber.mul_natCast 5 60 (by norm_num)]
  norm_num

theorem JsNumber.one_mul_sixty : (1 : JsNumber) * 60 = JsNumber.finite 60 := by
  have h1 : (1 : JsNumber) = JsNumber.finite ((1 : ℕ) : ℚ) := ofNat_eq_finite 1 (by norm_num)
  have h60 : (60 : JsNumber) = JsNumber.finite ((60 : ℕ) : ℚ) := ofNat_eq_finite 60 (by norm_num)
  rw [h1, h60, JsNumber.mul_natCast 1 60 (by norm_num)]
  norm_num

/-- The store as created, its numbers evaluated. -/
theorem initial_eq :
    PomodoroState.initial =
      { isActive := false, isPaused := false, workDuration := JsNumber.finite 1500,
        breakDuration := JsNumber.finite 300, currentSession := Session.work,
        timeRemaining := JsNumber.finite 1500, completedSessions := 0, currentTaskId := none } := by
  simp [PomodoroState.initial, JsNumber.twentyFive_mul_sixty, JsNumber.five_mul_sixty]

theorem tick_paused (s : PomodoroState) (hp : s.isPaused = true)
    (ht : ¬ s.timeRemaining ≤ 0) : tick s = s := by
  simp [tick, hp, ht]

theorem tick_paused_positive (s : PomodoroState) (hp : s.isPaused = true)
    (ht : 0 < s.timeRemaining) : tick s = s :=
  tick_paused s hp (JsNumber.not_le_of_lt ht)

theorem ticks_paused_positive (n : Nat) (s : PomodoroState) (hp : s.isPaused = true)
    (ht : 0 < s.timeRemaining) : ticks n s = s := by
  induction n with
  | zero => rfl
  | succ n ih => rw [ticks, tick_paused_positive s hp ht, ih]

theorem tick_running_positive (s : PomodoroState) (hrun : s.running)
    (ht : 0 < s.timeRemaining) : tick s = { s with timeRemaining := s.timeRemaining - 1 } := by
  have hnot : ¬ s.timeRemaining ≤ 0 := JsNumber.not_le_of_lt ht
  simp [tick, hrun.1, hrun.2, ht, hnot]

theorem JsNumber.zero_lt_natCast (n : ℕ) (h : 0 < n) : (0 : JsNumber) < JsNumber.finite n := by
  rw [JsNumber.zero_eq, JsNumber.finite_lt_finite]
  exact_mod_cast h

/-- A running timer with `n` whole seconds left, `n` up to `2 ^ 53`, has none
left after `n` ticks, and has not completed its session yet. -/
theorem ticks_countdown (n : Nat) (hn : n ≤ 2 ^ 53) :
    ∀ s : PomodoroState, s.running → s.timeRemaining = JsNumber.finite n →
      ticks n s = { s with timeRemaining := JsNumber.finite 0 } := by
  induction n with
  | zero =>
    intro s _ h
    cases s
    simp_all [ticks]
  | succ n ih =>
    intro s hrun h
    have hpos : 0 < s.timeRemaining := by
      rw [h]
      exact JsNumber.zero_lt_natCast _ (Nat.succ_pos n)
    have hsub : s.timeRemaining - 1 = JsNumber.finite n := by
      rw [h]
      exact JsNumber.succ_sub_one n (by omega)
    have hnext := ih (by omega) { s with timeRemaining := JsNumber.finite n } hrun rfl
    rw [ticks, tick_running_positive s hrun hpos, hsub, hnext]

/-- C24 (the code at the failing input): the work timer that has run down to
zero, a state the store reaches by `setWorkDuration(1)`, `startTimer()` and
sixty ticks, is paused; one tick then completes the session although the timer
is paused, and resuming does not give the state back.  With time left, pausing,
ticking any number of times and resuming does give the state back. -/
theorem tick_completes_session_while_paused :
    ticks 60 (startTimer none (setWorkDuration 1 PomodoroState.initial)) = ranDown ∧
    ranDown.running ∧
    tick (pauseTimer ranDown) =
      { ranDown with
        isPaused := true, currentSession := Session.break_, timeRemaining := 300,
        completedSessions := 1 } ∧
    startTimer none (ticks 1 (pauseTimer ranDown)) ≠ ranDown ∧
    (∀ (s : PomodoroState) (n : Nat) (taskId : Option String), s.running →
      0 < s.timeRemaining → startTimer taskId (ticks n (pauseTimer s)) = s) := by
  have h300 : (300 : JsNumber) = JsNumber.finite 300 := by
    have h := ofNat_eq_finite 300 (by norm_num)
    simpa using h
  have hranDown : ranDown =
      { isActive := true, isPaused := false, workDuration := JsNumber.finite 60,
        breakDuration := JsNumber.finite 300, currentSession := Session.work,
        timeRemaining := JsNumber.finite 0, completedSessions := 0, currentTaskId := none } := by
    simp [ranDown, initial_eq, JsNumber.sixty_eq, JsNumber.zero_eq]
  have htick : tick (pauseTimer ranDown) =
      { ranDown with
        isPaused := true, currentSession := Session.break_, timeRemaining := 300,
        completedSessions := 1 } := by
    rw [hranDown, h300]
    simp [pauseTimer, tick, completeSession, PomodoroState.durationOf, JsNumber.zero_eq,
      JsNumber.finite_le_finite, JsNumber.finite_lt_finite]
  refine ⟨?_, by decide, htick, ?_, ?_⟩
  · have hstart : startTimer none (setWorkDuration 1 PomodoroState.initial) =
        { isActive := true, isPaused := false, workDuration := JsNumber.finite 60,
          breakDuration := JsNumber.finite 300, currentSession := Session.work,
          timeRemaining := JsNumber.finite 60, completedSessions := 0,
          currentTaskId := none } := by
      simp [startTimer, setWorkDuration, initial_eq, PomodoroState.durationOf,
        JsNumber.one_mul_sixty]
    have h60 : JsNumber.finite 60 = JsNumber.finite ((60 : ℕ) : ℚ) := by norm_num
    rw [hstart, ticks_countdown 60 (by norm_num) _ ⟨rfl, rfl⟩ h60, hranDown]
  · rw [ticks, ticks, htick]
    rw [hranDown]
    simp [startTimer]
  · intro s n taskId hrun ht
    have hp : pauseTimer s = { s with isPaused := true } := by
      simp [pauseTimer, hrun.1, hrun.2]
    have hticks := ticks_paused_positive n { s with isPaused := true } rfl ht
    rw [hp, hticks]
    cases s
    simp_all [startTimer, PomodoroState.running]

/-- C25 (as stated, refuted): resetTimer on a running break leaves the session
kind `break` and the remaining time at the break duration. -/
theorem resetTimer_keeps_break :
    resetTimer
        { PomodoroState.initial with
          isActive := true, currentSession := Session.break_, timeRemaining := 120 } =
      { PomodoroState.initial with currentSession := Session.break_, timeRemaining := 300 } := by
  have h300 : (300 : JsNumber) = JsNumber.finite 300 := by
    have h := ofNat_eq_finite 300 (by norm_num)
    simpa using h
  simp [resetTimer, initial_eq, PomodoroState.durationOf, h300]

/-- C25 (amended): for every state, resetTimer yields `isActive = false`,
`isPaused = false` and `currentTaskId = null`, keeps the session kind, and sets
`timeRemaining` to the configured duration of that kind: `workDuration` when it
is `work`, `breakDuration` when it is `break`; nothing else changes. -/
theorem resetTimer_effect (s : PomodoroState) :
    (resetTimer s).isActive = false ∧ (resetTimer s).isPaused = false ∧
    (resetTimer s).currentTaskId = none ∧
    (resetTimer s).currentSession = s.currentSession ∧
    (s.currentSession = Session.work → (resetTimer s).timeRemaining = s.workDuration) ∧
    (s.currentSession = Session.break_ → (resetTimer s).timeRemaining = s.breakDuration) ∧
    (resetTimer s).workDuration = s.workDuration ∧
    (resetTimer s).breakDuration = s.breakDuration ∧
    (resetTimer s).completedSessions = s.completedSessions := by
  refine ⟨rfl, rfl, rfl, rfl, ?_, ?_, rfl, rfl, rfl⟩
  · intro h; simp [resetTimer, PomodoroState.durationOf, h]
  · intro h; simp [resetTimer, PomodoroState.durationOf, h]

/-- C26: completeSession from a work session gives a break with
`completedSessions` one higher, no current task and `breakDuration` left; from a
break it gives work with `completedSessions` and the current task as they were
and `workDuration` left; `isActive`, `isPaused` and both durations stay. -/
theorem completeSession_effect (s : PomodoroState) :
    (s.currentSession = Session.work →
      completeSession s =
        { s with
          currentSession := Session.break_, timeRemaining := s.breakDuration,
          completedSessions := s.completedSessions + 1, currentTaskId := none }) ∧
    (s.currentSession = Session.break_ →
      completeSession s =
        { s with currentSession := Session.work, timeRemaining := s.workDuration }) ∧
    (completeSession s).isActive = s.isActive ∧
    (completeSession s).isPaused = s.isPaused ∧
    (completeSession s).workDuration = s.workDuration ∧
    (completeSession s).breakDuration = s.breakDuration := by
  refine ⟨?_, ?_, rfl, rfl, rfl, rfl⟩
  · intro h; simp [completeSession, PomodoroState.durationOf, h]
  · intro h
    cases s
    simp_all [completeSession, PomodoroState.durationOf]

theorem completeSession_sessions (s : PomodoroState) :
    (s.currentSession = Session.work ∧
      (completeSession s).currentSession = Session.break_ ∧
      (completeSession s).completedSessions = s.completedSessions + 1) ∨
    (s.currentSession = Session.break_ ∧
      (completeSession s).currentSession = Session.work ∧
      (completeSession s).completedSessions = s.completedSessions) := by
  cases h : s.currentSession with
  | work => left; simp [completeSession, h]
  | break_ => right; simp [completeSession, h]

/-- An operation leaves the session kind and the counter as they were, or does
to them what `completeSession` does. -/
theorem apply_sessions (op : PomodoroOp) (s : PomodoroState) :
    ((op.apply s).currentSession = s.currentSession ∧
      (op.apply s).completedSessions = s.completedSessions) ∨
    ((op.apply s).currentSession = (completeSession s).currentSession ∧
      (op.apply s).completedSessions = (completeSession s).completedSessions) := by
  cases op with
  | startTimer taskId =>
    left
    simp only [PomodoroOp.apply, startTimer]
    split
    · exact ⟨rfl, rfl⟩
    · split <;> exact ⟨rfl, rfl⟩
  | pauseTimer =>
    left
    simp only [PomodoroOp.apply, pauseTimer]
    split <;> exact ⟨rfl, rfl⟩
  | resetTimer => left; exact ⟨rfl, rfl⟩
  | tick =>
    simp only [PomodoroOp.apply, tick]
    by_cases h0 : s.timeRemaining ≤ 0
    · right
      have hnot : ¬ 0 < s.timeRemaining := JsNumber.not_lt_of_le h0
      simp [h0, hnot]
    · left
      simp only [h0, if_false]
      split <;> exact ⟨rfl, rfl⟩
  | completeSession => right; exact ⟨rfl, rfl⟩
  | setWorkDuration minutes => left; exact ⟨rfl, rfl⟩
  | setBreakDuration minutes => left; exact ⟨rfl, rfl⟩

theorem apply_completedSessions (op : PomodoroOp) (s : PomodoroState) :
    ((op.apply s).completedSessions = s.completedSessions ∧
      ¬ (s.currentSession = Session.work ∧ (op.apply s).currentSession = Session.break_)) ∨
    ((op.apply s).completedSessions = s.completedSessions + 1 ∧
      s.currentSession = Session.work ∧ (op.apply s).currentSession = Session.break_) := by
  rcases apply_sessions op s with ⟨h1, h2⟩ | ⟨h1, h2⟩
  · left
    refine ⟨h2, ?_⟩
    rintro ⟨hw, hb⟩
    rw [h1, hw] at hb
    cases hb
  · rcases completeSession_sessions s with ⟨hw, hb, hc⟩ | ⟨hb, hw, hc⟩
    · right
      exact ⟨h2.trans hc, hw, h1.trans hb⟩
    · left
      refine ⟨h2.trans hc, ?_⟩
      rintro ⟨hw2, _⟩
      rw [hb] at hw2
      cases hw2

theorem runOps_completedSessions (ops : List PomodoroOp) :
    ∀ s : PomodoroState, s.completedSessions ≤ (runOps s ops).completedSessions := by
  induction ops with
  | nil => intro s; exact Nat.le_refl _
  | cons op ops ih =>
    intro s
    have hstep : s.completedSessions ≤ (op.apply s).completedSessions := by
      rcases apply_completedSessions op s with ⟨h, _⟩ | ⟨h, _⟩ <;> omega
    exact Nat.le_trans hstep (ih (op.apply s))

/-- C27: along every finite sequence of operations of the Pomodoro store
`completedSessions` never decreases; one operation changes it exactly when it
takes the store from a work session to a break, and then it grows by one. -/
theorem completedSessions_monotone (ops : List PomodoroOp) (op : PomodoroOp)
    (s : PomodoroState) :
    s.completedSessions ≤ (runOps s ops).completedSessions ∧
    ((op.apply s).completedSessions ≠ s.completedSessions ↔
      s.currentSession = Session.work ∧ (op.apply s).currentSession = Session.break_) ∧
    ((op.apply s).completedSessions ≠ s.completedSessions →
      (op.apply s).completedSessions = s.completedSessions + 1) := by
  refine ⟨runOps_completedSessions ops s, ?_, ?_⟩
  · rcases apply_completedSessions op s with ⟨h, hno⟩ | ⟨h, hw, hb⟩
    · exact ⟨fun hne => absurd h hne, fun hwb => absurd hwb hno⟩
    · exact ⟨fun _ => ⟨hw, hb⟩, fun _ => by omega⟩
  · intro hne
    rcases apply_completedSessions op s with ⟨h, _⟩ | ⟨h, _⟩
    · exact absurd h hne
    · exact h

theorem ofRat_eq_finite (q r : ℚ) (h : nearest q = r) (hlt : |r| < 2 ^ 1024)
    (hsign : r ≠ 0 ∨ 0 ≤ q) : JsNumber.ofRat q = JsNumber.finite r := by
  obtain ⟨h1, h2⟩ := abs_lt.mp hlt
  unfold JsNumber.ofRat
  rw [h]
  have c1 : ¬ (2 : ℚ) ^ 1024 ≤ r := not_le.mpr h2
  have c2 : ¬ r ≤ -(2 : ℚ) ^ 1024 := not_le.mpr h1
  have c3 : ¬ (r = 0 ∧ q < 0) := by
    rintro ⟨h0, hneg⟩
    rcases hsign with hs | hs
    · exact hs h0
    · exact absurd hneg (not_lt.mpr hs)
  rw [if_neg c1, if_neg c2, if_neg c3]

theorem JsNumber.finite_mul_finite (a b : ℚ) (h : a * b ≠ 0) :
    JsNumber.finite a * JsNumber.finite b = JsNumber.ofRat (a * b) := by
  change JsNumber.mul _ _ = _
  simp [JsNumber.mul, JsNumber.toRat?, h]

theorem JsNumber.finite_sub_one (q : ℚ) (hq : q ≠ 1) :
    JsNumber.finite q - 1 = JsNumber.ofRat (q - 1) := by
  rw [JsNumber.one_eq]
  change JsNumber.sub _ _ = _
  have h0 : q - 1 ≠ 0 := sub_ne_zero.mpr hq
  simp [JsNumber.sub, JsNumber.toRat?, h0]

/-- A timer of `2 ^ 52` minutes, started. -/
theorem longTimer_eq :
    startTimer none (setWorkDuration (JsNumber.finite (2 ^ 52)) PomodoroState.initial) =
      { isActive := true, isPaused := false, workDuration := JsNumber.finite (60 * 2 ^ 52),
        breakDuration := JsNumber.finite 300, currentSession := Session.work,
        timeRemaining := JsNumber.finite (60 * 2 ^ 52), completedSessions := 0,
        currentTaskId := none } := by
  have hd : isDouble ((2 : ℚ) ^ 52 * 60) :=
    ⟨15, 54, by norm_num, by norm_num, by norm_num, by norm_num⟩
  have hmul : JsNumber.finite (2 ^ 52) * 60 = JsNumber.finite (60 * 2 ^ 52) := by
    rw [JsNumber.sixty_eq, JsNumber.finite_mul_finite _ _ (by norm_num),
      ofRat_of_isDouble _ hd]
    norm_num
  simp [startTimer, setWorkDuration, initial_eq, PomodoroState.durationOf, hmul]

/-- C28 (as stated, refuted): the timer is set to `2 ^ 52` minutes and started;
it runs with `60 × 2 ^ 52` seconds left, and a tick leaves all of them, the
difference `timeRemaining - 1` being the same binary64 number. -/
theorem tick_leaves_long_timer :
    (startTimer none
      (setWorkDuration (JsNumber.finite (2 ^ 52)) PomodoroState.initial)).running ∧
    (startTimer none
      (setWorkDuration (JsNumber.finite (2 ^ 52)) PomodoroState.initial)).timeRemaining =
        JsNumber.finite (60 * 2 ^ 52) ∧
    tick (startTimer none (setWorkDuration (JsNumber.finite (2 ^ 52)) PomodoroState.initial)) =
      startTimer none (setWorkDuration (JsNumber.finite (2 ^ 52)) PomodoroState.initial) := by
  rw [longTimer_eq]
  refine ⟨⟨rfl, rfl⟩, rfl, ?_⟩
  have hpos : (0 : JsNumber) < JsNumber.finite (60 * 2 ^ 52) := by
    rw [JsNumber.zero_eq, JsNumber.finite_lt_finite]
    norm_num
  have hnear : nearest (60 * 2 ^ 52 - 1) = 60 * 2 ^ 52 := by
    have h := nearest_eq (60 * 2 ^ 52 - 1) 57 (15 * 2 ^ 49) (by norm_num) (by norm_num)
      (by norm_num) (by norm_num [abs_lt])
    rw [h]
    norm_num
  have hsub : JsNumber.finite (60 * 2 ^ 52) - 1 = JsNumber.finite (60 * 2 ^ 52) := by
    rw [JsNumber.finite_sub_one _ (by norm_num)]
    exact ofRat_eq_finite _ _ hnear (by norm_num) (Or.inl (by norm_num))
  rw [tick_running_positive _ ⟨rfl, rfl⟩ hpos]
  simp only [hsub]

/-- C28 (amended): on a running timer with `timeRemaining > 0`, tick leaves the
difference `timeRemaining - 1` and changes nothing else; that difference is the
binary64 number nearest to the exact one, and for a whole number `n` of seconds,
`0 < n ≤ 2 ^ 53`, it is `n - 1`.  On a running timer with no time left (`0` or
`-0`), tick is the completeSession transition. -/
theorem tick_effect (s : PomodoroState) (hrun : s.running) :
    (0 < s.timeRemaining →
      tick s = { s with timeRemaining := s.timeRemaining - 1 } ∧
      (tick s).currentSession = s.currentSession) ∧
    (∀ n : ℕ, 0 < n → n ≤ 2 ^ 53 → s.timeRemaining = JsNumber.finite n →
      tick s = { s with timeRemaining := JsNumber.finite ((n - 1 : ℕ) : ℚ) }) ∧
    (∀ q : ℚ, 0 < q → q ≠ 1 → s.timeRemaining = JsNumber.finite q →
      tick s = { s with timeRemaining := JsNumber.ofRat (q - 1) }) ∧
    (s.timeRemaining = 0 ∨ s.timeRemaining = JsNumber.negZero → tick s = completeSession s) := by
  refine ⟨?_, ?_, ?_, ?_⟩
  · intro ht
    rw [tick_running_positive s hrun ht]
    exact ⟨rfl, rfl⟩
  · intro n hn hle h
    have hpos : 0 < s.timeRemaining := by
      rw [h]
      exact JsNumber.zero_lt_natCast n hn
    obtain ⟨k, rfl⟩ : ∃ k, n = k + 1 := ⟨n - 1, by omega⟩
    have hsub : s.timeRemaining - 1 = JsNumber.finite k := by
      rw [h]
      exact JsNumber.succ_sub_one k (by omega)
    rw [tick_running_positive s hrun hpos, hsub]
    simp
  · intro q hq hq1 h
    have hpos : 0 < s.timeRemaining := by
      rw [h, JsNumber.zero_eq, JsNumber.finite_lt_finite]
      exact hq
    rw [tick_running_positive s hrun hpos, h, JsNumber.finite_sub_one q hq1]
  · intro h0
    have hle : s.timeRemaining ≤ 0 := by
      rcases h0 with h0 | h0
      · rw [h0, JsNumber.zero_eq, JsNumber.finite_le_finite]
      · rw [h0, JsNumber.zero_eq]
        change JsNumber.le _ _ = true
        simp [JsNumber.le]
    have hnot : ¬ 0 < s.timeRemaining := JsNumber.not_lt_of_le hle
    simp [tick, hle, hnot]

/-- Witness for C28 (amended): the initial store once started. -/
theorem tick_effect_witness :
    (startTimer none PomodoroState.initial).running ∧
    tick (startTimer none PomodoroState.initial) =
      { startTimer none PomodoroState.initial with timeRemaining := JsNumber.finite 1499 } :=
  have hstart : (startTimer none PomodoroState.initial).timeRemaining =
      JsNumber.finite ((1500 : ℕ) : ℚ) := by
    simp [startTimer, initial_eq, PomodoroState.durationOf]
  have hrun : (startTimer none PomodoroState.initial).running := by
    simp [startTimer, initial_eq, PomodoroState.running]
  ⟨hrun, by
    rw [(tick_effect (startTimer none PomodoroState.initial) hrun).2.1 1500 (by norm_num)
      (by norm_num) hstart]
    norm_num⟩

theorem JsNumber.le_trans {x y z : JsNumber} (h1 : x ≤ y) (h2 : y ≤ z) : x ≤ z := by
  change JsNumber.le x y = true at h1
  change JsNumber.le y z = true at h2
  change JsNumber.le x z = true
  cases x <;> cases y <;> cases z <;> simp_all [JsNumber.le] <;> linarith

theorem JsNumber.isCount.zero_le {x : JsNumber} (h : x.isCount) : 0 ≤ x := by
  rw [JsNumber.zero_eq]
  change JsNumber.le _ _ = true
  rcases h with rfl | rfl | ⟨n, rfl, _⟩ <;> simp [JsNumber.le]

theorem JsNumber.isCount.count_le_self {x : JsNumber} (h : x.isCount) : x ≤ x := by
  change JsNumber.le _ _ = true
  rcases h with rfl | rfl | ⟨n, rfl, _⟩ <;> simp [JsNumber.le]

/-- Rounding a whole number gives a whole binary64 number or `Infinity`. -/
theorem ofRat_natCast_isCount (n : ℕ) : (JsNumber.ofRat (n : ℚ)).isCount := by
  obtain ⟨k, hk⟩ := nearest_natCast n
  have hnn : (0 : ℚ) ≤ nearest (n : ℚ) := nearest_nonneg _ (by positivity)
  unfold JsNumber.ofRat
  split_ifs with c1 c2 c3
  · exact Or.inr (Or.inl rfl)
  · exfalso
    have : (0 : ℚ) < 2 ^ 1024 := by positivity
    linarith
  · exfalso
    have : (0 : ℚ) ≤ n := by positivity
    exact absurd c3.2 (not_lt.mpr this)
  · refine Or.inr (Or.inr ⟨k, by rw [hk], ?_⟩)
    rw [← hk]
    apply isDouble_nearest
    rw [abs_of_nonneg hnn]
    exact not_le.mp c1

theorem JsNumber.isWhole.mul_sixty {minutes : JsNumber} (h : minutes.isWhole) :
    (minutes * 60).isCount := by
  rw [JsNumber.sixty_eq]
  rcases h with rfl | ⟨n, rfl⟩
  · left
    change JsNumber.mul _ _ = _
    simp [JsNumber.mul, JsNumber.toRat?, JsNumber.isNegative]
  · by_cases h0 : (n : ℚ) * 60 = 0
    · have hn : (n : ℚ) = 0 := by
        rcases mul_eq_zero.mp h0 with h | h
        · exact h
        · norm_num at h
      refine Or.inr (Or.inr ⟨0, ?_, isDouble_natCast 0 (by norm_num)⟩)
      change JsNumber.mul _ _ = _
      simp [JsNumber.mul, JsNumber.toRat?, JsNumber.isNegative, hn]
    · rw [JsNumber.finite_mul_finite _ _ h0]
      have hcast : (n : ℚ) * 60 = ((n * 60 : ℕ) : ℚ) := by push_cast; ring
      rw [hcast]
      exact ofRat_natCast_isCount _

/-- One second off a whole number of seconds leaves a whole number, not above
the one before. -/
theorem JsNumber.isCount.count_sub_one {x : JsNumber} (h : x.isCount) (hpos : 0 < x) :
    (x - 1).isCount ∧ x - 1 ≤ x := by
  rcases h with rfl | rfl | ⟨n, rfl, hd⟩
  · exfalso
    rw [JsNumber.zero_eq] at hpos
    change JsNumber.lt _ _ = true at hpos
    simp [JsNumber.lt] at hpos
  · have hsub : JsNumber.posInf - 1 = JsNumber.posInf := by
      rw [JsNumber.one_eq]
      change JsNumber.sub _ _ = _
      simp [JsNumber.sub, JsNumber.toRat?]
    rw [hsub]
    exact ⟨Or.inr (Or.inl rfl), by change JsNumber.le _ _ = true; simp [JsNumber.le]⟩
  · rw [JsNumber.zero_eq, JsNumber.finite_lt_finite] at hpos
    have hn : 0 < n := by exact_mod_cast hpos
    obtain ⟨k, rfl⟩ : ∃ k, n = k + 1 := ⟨n - 1, by omega⟩
    by_cases hk : k = 0
    · subst hk
      have hsub : JsNumber.finite ((0 + 1 : ℕ) : ℚ) - 1 = JsNumber.finite ((0 : ℕ) : ℚ) :=
        JsNumber.succ_sub_one 0 (by norm_num)
      rw [hsub]
      refine ⟨Or.inr (Or.inr ⟨0, rfl, isDouble_natCast 0 (by norm_num)⟩), ?_⟩
      rw [JsNumber.finite_le_finite]
      norm_num
    · have hq1 : ((k + 1 : ℕ) : ℚ) ≠ 1 := by
        intro h1
        apply hk
        have : ((k + 1 : ℕ) : ℚ) = ((1 : ℕ) : ℚ) := by rw [h1]; norm_num
        have := Nat.cast_injective this
        omega
      have hval : ((k + 1 : ℕ) : ℚ) - 1 = (k : ℚ) := by push_cast; ring
      rw [JsNumber.finite_sub_one _ hq1, hval]
      obtain ⟨j, hj⟩ := nearest_natCast k
      have hknn : (0 : ℚ) ≤ k := by positivity
      have hle : nearest (k : ℚ) ≤ ((k + 1 : ℕ) : ℚ) := by
        apply nearest_le _ _ hd
        · rw [abs_of_nonneg hknn, abs_of_nonneg (by positivity)]
          push_cast
          linarith
        · push_cast
          linarith
      have hnn : (0 : ℚ) ≤ nearest (k : ℚ) := nearest_nonneg _ hknn
      obtain ⟨_, _, _, _, _, hbig⟩ := hd
      rw [abs_of_nonneg (by positivity)] at hbig
      have hlt : |nearest (k : ℚ)| < 2 ^ 1024 := by
        rw [abs_of_nonneg hnn]
        linarith
      have hof : JsNumber.ofRat (k : ℚ) = JsNumber.finite (j : ℚ) := by
        rw [← hj]
        exact ofRat_eq_finite _ _ rfl hlt (Or.inr hknn)
      rw [hof]
      refine ⟨Or.inr (Or.inr ⟨j, rfl, ?_⟩), ?_⟩
      · rw [← hj]
        exact isDouble_nearest _ hlt
      · rw [JsNumber.finite_le_finite, ← hj]
        exact hle

theorem completeSession_wellFormed (s : PomodoroState) (h : s.wellFormed) :
    (completeSession s).wellFormed := by
  obtain ⟨hw, hb, _, _, hp⟩ := h
  refine ⟨hw, hb, ?_, ?_, hp⟩
  · cases hs : s.currentSession <;> simp [completeSession, PomodoroState.durationOf, hs, hw, hb]
  · cases hs : s.currentSession
    · simpa [completeSession, PomodoroState.durationOf, hs] using hb.count_le_self
    · simpa [completeSession, PomodoroState.durationOf, hs] using hw.count_le_self

theorem durationOf_isCount (s : PomodoroState) (h : s.wellFormed) :
    (s.durationOf s.currentSession).isCount := by
  obtain ⟨hw, hb, _, _, _⟩ := h
  unfold PomodoroState.durationOf
  split
  · exact hw
  · exact hb

theorem apply_wellFormed (op : PomodoroOp) (s : PomodoroState) (hop : op.wholeMinutes)
    (h : s.wellFormed) : (op.apply s).wellFormed := by
  have hall := h
  have hdur := durationOf_isCount s h
  obtain ⟨hw, hb, ht, hle, hp⟩ := h
  cases op with
  | startTimer taskId =>
    simp only [PomodoroOp.apply, startTimer]
    split
    · exact hall
    · split
      · exact ⟨hw, hb, ht, hle, fun hc => by simp at hc⟩
      · exact ⟨hw, hb, hdur, hdur.count_le_self, fun hc => by simp at hc⟩
  | pauseTimer =>
    simp only [PomodoroOp.apply, pauseTimer]
    split
    · next hc =>
      refine ⟨hw, hb, ht, hle, fun _ => ?_⟩
      simp only [Bool.and_eq_true] at hc
      exact hc.1
    · exact hall
  | resetTimer =>
    exact ⟨hw, hb, hdur, hdur.count_le_self, fun hc => by simp [PomodoroOp.apply, resetTimer] at hc⟩
  | tick =>
    simp only [PomodoroOp.apply, tick]
    by_cases hz : s.timeRemaining ≤ 0
    · have hnot : ¬ 0 < s.timeRemaining := JsNumber.not_lt_of_le hz
      simp only [hz, if_true, gt_iff_lt, hnot, decide_False, Bool.and_false, Bool.false_eq_true,
        if_false]
      exact completeSession_wellFormed s hall
    · simp only [hz, if_false]
      split
      · next hc =>
        simp only [Bool.and_eq_true, decide_eq_true_eq] at hc
        obtain ⟨hcount, hstep⟩ := ht.count_sub_one hc.2
        exact ⟨hw, hb, hcount, JsNumber.le_trans hstep hle, hp⟩
      · exact hall
  | completeSession => exact completeSession_wellFormed s hall
  | setWorkDuration minutes =>
    have hm : (minutes * 60).isCount := JsNumber.isWhole.mul_sixty hop
    simp only [PomodoroOp.apply, setWorkDuration]
    cases hs : s.currentSession with
    | work => exact ⟨hm, hb, by simpa using hm, by simpa [PomodoroState.durationOf, hs] using hm.count_le_self, hp⟩
    | break_ =>
      refine ⟨hm, hb, by simpa using ht, ?_, hp⟩
      simpa [PomodoroState.durationOf, hs] using hle
  | setBreakDuration minutes =>
    have hm : (minutes * 60).isCount := JsNumber.isWhole.mul_sixty hop
    simp only [PomodoroOp.apply, setBreakDuration]
    cases hs : s.currentSession with
    | work =>
      refine ⟨hw, hm, by simpa using ht, ?_, hp⟩
      simpa [PomodoroState.durationOf, hs] using hle
    | break_ => exact ⟨hw, hm, by simpa using hm, by simpa [PomodoroState.durationOf, hs] using hm.count_le_self, hp⟩

theorem runOps_wellFormed (ops : List PomodoroOp) :
    ∀ s : PomodoroState, s.wellFormed → (∀ op ∈ ops, op.wholeMinutes) →
      (runOps s ops).wellFormed := by
  induction ops with
  | nil => intro s h _; exact h
  | cons op ops ih =>
    intro s h hops
    exact ih (op.apply s)
      (apply_wellFormed op s (hops op (List.mem_cons_self _ _)) h)
      (fun o ho => hops o (List.mem_cons_of_mem _ ho))

theorem initial_wellFormed : PomodoroState.initial.wellFormed := by
  have h1500 : (JsNumber.finite 1500).isCount :=
    Or.inr (Or.inr ⟨1500, by norm_num, isDouble_natCast 1500 (by norm_num)⟩)
  have h300 : (JsNumber.finite 300).isCount :=
    Or.inr (Or.inr ⟨300, by norm_num, isDouble_natCast 300 (by norm_num)⟩)
  rw [initial_eq]
  exact ⟨h1500, h300, h1500, h1500.count_le_self, fun hc => by simp at hc⟩

/-- The literal `0.01`. -/
theorem ofRat_hundredth :
    JsNumber.ofRat (1 / 100) = JsNumber.finite (5764607523034235 / 2 ^ 59) := by
  have h := nearest_eq (1 / 100) (-7) 5764607523034235
    (by rw [abs_of_pos (by norm_num)]; norm_num) (by rw [abs_of_pos (by norm_num)]; norm_num)
    (by norm_num) (by norm_num [abs_lt])
  apply ofRat_eq_finite _ _ _ (by norm_num [abs_lt]) (Or.inl (by norm_num))
  rw [h]
  norm_num

/-- The product `0.01 * 60`, the number `0.6`. -/
theorem hundredth_mul_sixty :
    JsNumber.ofRat (1 / 100) * 60 = JsNumber.finite (5404319552844595 / 2 ^ 53) := by
  rw [ofRat_hundredth, JsNumber.sixty_eq, JsNumber.finite_mul_finite _ _ (by norm_num)]
  have h := nearest_eq (5764607523034235 / 2 ^ 59 * 60) (-1) 5404319552844595
    (by rw [abs_of_pos (by norm_num)]; norm_num) (by rw [abs_of_pos (by norm_num)]; norm_num)
    (by norm_num) (by norm_num [abs_lt])
  apply ofRat_eq_finite _ _ _ (by norm_num [abs_lt]) (Or.inl (by norm_num))
  rw [h]
  norm_num

/-- The difference `0.6 - 1`, the number `-0.4`. -/
theorem six_tenths_sub_one :
    JsNumber.finite (5404319552844595 / 2 ^ 53) - 1 =
      JsNumber.finite (-3602879701896397 / 2 ^ 53) := by
  rw [JsNumber.finite_sub_one _ (by norm_num)]
  have hd : isDouble ((5404319552844595 : ℚ) / 2 ^ 53 - 1) :=
    ⟨-3602879701896397, -53, by norm_num, by norm_num, by norm_num, by norm_num [abs_lt]⟩
  rw [ofRat_of_isDouble _ hd]
  norm_num

/-- The literal `-0.4`. -/
theorem ofRat_neg_four_tenths :
    JsNumber.ofRat (-2 / 5) = JsNumber.finite (-3602879701896397 / 2 ^ 53) := by
  have h := nearest_eq (-2 / 5) (-2) (-7205759403792794) (by norm_num [abs_of_neg])
    (by norm_num [abs_of_neg]) (by norm_num) (by norm_num [abs_lt])
  apply ofRat_eq_finite _ _ _ (by norm_num [abs_lt]) (Or.inl (by norm_num))
  rw [h]
  norm_num

/-- The store once the work duration is set and the timer started. -/
theorem setWorkDuration_startTimer (minutes : JsNumber) :
    runOps PomodoroState.initial
        [PomodoroOp.setWorkDuration minutes, PomodoroOp.startTimer none] =
      { isActive := true, isPaused := false, workDuration := minutes * 60,
        breakDuration := JsNumber.finite 300, currentSession := Session.work,
        timeRemaining := minutes * 60, completedSessions := 0, currentTaskId := none } := by
  simp [runOps, PomodoroOp.apply, startTimer, setWorkDuration, initial_eq,
    PomodoroState.durationOf]

/-- C30 (as stated, refuted): the work duration is set to `0.01` minutes, a
non-negative number, the timer started and ticked once.  The `0.6` seconds on
the timer are above zero, so the tick takes one off, and `-0.4` seconds
remain. -/
theorem fractional_minutes_run_below_zero :
    (∀ op ∈ [PomodoroOp.setWorkDuration (JsNumber.ofRat (1 / 100)), PomodoroOp.startTimer none,
        PomodoroOp.tick], op.nonNegative) ∧
    (runOps PomodoroState.initial
      [PomodoroOp.setWorkDuration (JsNumber.ofRat (1 / 100)),
        PomodoroOp.startTimer none]).timeRemaining = JsNumber.ofRat (1 / 100) * 60 ∧
    (runOps PomodoroState.initial
      [PomodoroOp.setWorkDuration (JsNumber.ofRat (1 / 100)), PomodoroOp.startTimer none,
        PomodoroOp.tick]).timeRemaining = JsNumber.ofRat (-2 / 5) ∧
    ¬ 0 ≤ (runOps PomodoroState.initial
      [PomodoroOp.setWorkDuration (JsNumber.ofRat (1 / 100)), PomodoroOp.startTimer none,
        PomodoroOp.tick]).timeRemaining := by
  have hstart : runOps PomodoroState.initial
      [PomodoroOp.setWorkDuration (JsNumber.ofRat (1 / 100)), PomodoroOp.startTimer none] =
      { isActive := true, isPaused := false,
        workDuration := JsNumber.finite (5404319552844595 / 2 ^ 53),
        breakDuration := JsNumber.finite 300, currentSession := Session.work,
        timeRemaining := JsNumber.finite (5404319552844595 / 2 ^ 53), completedSessions := 0,
        currentTaskId := none } := by
    rw [setWorkDuration_startTimer, hundredth_mul_sixty]
  have hpos : (0 : JsNumber) < JsNumber.finite (5404319552844595 / 2 ^ 53) := by
    rw [JsNumber.zero_eq, JsNumber.finite_lt_finite]
    norm_num
  have hrun : runOps PomodoroState.initial
      [PomodoroOp.setWorkDuration (JsNumber.ofRat (1 / 100)), PomodoroOp.startTimer none,
        PomodoroOp.tick] =
      tick (runOps PomodoroState.initial
        [PomodoroOp.setWorkDuration (JsNumber.ofRat (1 / 100)), PomodoroOp.startTimer none]) := by
    simp [runOps, PomodoroOp.apply]
  have htick : (runOps PomodoroState.initial
      [PomodoroOp.setWorkDuration (JsNumber.ofRat (1 / 100)), PomodoroOp.startTimer none,
        PomodoroOp.tick]).timeRemaining = JsNumber.finite (-3602879701896397 / 2 ^ 53) := by
    rw [hrun, hstart, tick_running_positive _ ⟨rfl, rfl⟩ hpos]
    exact six_tenths_sub_one
  refine ⟨?_, ?_, ?_, ?_⟩
  · intro op hop
    simp only [List.mem_cons, List.mem_singleton, List.not_mem_nil, or_false] at hop
    rcases hop with rfl | rfl | rfl
    · show (0 : JsNumber) ≤ JsNumber.ofRat (1 / 100)
      rw [ofRat_hundredth, JsNumber.zero_eq, JsNumber.finite_le_finite]
      norm_num
    · trivial
    · trivial
  · rw [hstart, hundredth_mul_sixty]
  · rw [htick, ofRat_neg_four_tenths]
  · rw [htick, JsNumber.zero_eq, JsNumber.finite_le_finite]
    norm_num

theorem JsNumber.isFrom.from_le_self {lo : ℚ} {x : JsNumber} (h : x.isFrom lo) : x ≤ x := by
  change JsNumber.le _ _ = true
  rcases h with rfl | rfl | ⟨q, rfl, _, _⟩ <;> simp [JsNumber.le]

theorem JsNumber.isFrom.mono {lo lo' : ℚ} {x : JsNumber} (h : x.isFrom lo) (hlo : lo' ≤ lo) :
    x.isFrom lo' := by
  rcases h with rfl | rfl | ⟨q, rfl, hq, hd⟩
  · exact Or.inl rfl
  · exact Or.inr (Or.inl rfl)
  · exact Or.inr (Or.inr ⟨q, rfl, hlo.trans hq, hd⟩)

theorem JsNumber.isFrom.lower_le {lo : ℚ} {x : JsNumber} (h : x.isFrom lo) (hlo : lo ≤ 0) :
    JsNumber.finite lo ≤ x := by
  change JsNumber.le _ _ = true
  rcases h with rfl | rfl | ⟨q, rfl, hq, _⟩ <;> simp [JsNumber.le, hlo]
  exact hq

theorem isDouble_zero : isDouble 0 :=
  ⟨0, 0, by simp, by norm_num, by norm_num, by norm_num⟩

/-- Non-negative minutes give a non-negative duration, or `Infinity`. -/
theorem JsNumber.mul_sixty_isFrom {minutes : JsNumber} (h : 0 ≤ minutes) :
    (minutes * 60).isFrom 0 := by
  rw [JsNumber.zero_eq] at h
  change JsNumber.le _ _ = true at h
  rw [JsNumber.sixty_eq]
  cases minutes with
  | nan => simp [JsNumber.le] at h
  | negInf => simp [JsNumber.le] at h
  | posInf =>
    refine Or.inr (Or.inl ?_)
    change JsNumber.mul _ _ = _
    simp [JsNumber.mul, JsNumber.toRat?, JsNumber.isNegative]
  | negZero =>
    left
    change JsNumber.mul _ _ = _
    simp [JsNumber.mul, JsNumber.toRat?, JsNumber.isNegative]
  | finite q =>
    have hq : 0 ≤ q := by simpa [JsNumber.le] using h
    by_cases h0 : q * 60 = 0
    · have hq0 : q = 0 := by
        rcases mul_eq_zero.mp h0 with h | h
        · exact h
        · norm_num at h
      refine Or.inr (Or.inr ⟨0, ?_, le_refl _, isDouble_zero⟩)
      change JsNumber.mul _ _ = _
      simp [JsNumber.mul, JsNumber.toRat?, JsNumber.isNegative, hq0]
    · rw [JsNumber.finite_mul_finite _ _ h0]
      have hpos : 0 < q * 60 := lt_of_le_of_ne (by positivity) (Ne.symm h0)
      have hnn : (0 : ℚ) ≤ nearest (q * 60) := nearest_nonneg _ (le_of_lt hpos)
      unfold JsNumber.ofRat
      split_ifs with c1 c2 c3
      · exact Or.inr (Or.inl rfl)
      · exfalso
        have : (0 : ℚ) < 2 ^ 1024 := by positivity
        linarith
      · exact absurd c3.2 (not_lt.mpr (le_of_lt hpos))
      · refine Or.inr (Or.inr ⟨_, rfl, hnn, ?_⟩)
        apply isDouble_nearest
        rw [abs_of_nonneg hnn]
        exact not_le.mp c1

theorem isDouble_neg_one : isDouble (-1) :=
  ⟨-1, 0, by simp, by norm_num, by norm_num, by norm_num⟩

/-- One second off a positive number of seconds leaves `-1` at least, and
not more than there was. -/
theorem JsNumber.isFrom.from_sub_one {x : JsNumber} (h : x.isFrom (-1)) (hpos : 0 < x) :
    (x - 1).isFrom (-1) ∧ x - 1 ≤ x := by
  rcases h with rfl | rfl | ⟨q, rfl, _, hd⟩
  · exfalso
    rw [JsNumber.zero_eq] at hpos
    change JsNumber.lt _ _ = true at hpos
    simp [JsNumber.lt] at hpos
  · have hsub : JsNumber.posInf - 1 = JsNumber.posInf := by
      rw [JsNumber.one_eq]
      change JsNumber.sub _ _ = _
      simp [JsNumber.sub, JsNumber.toRat?]
    rw [hsub]
    exact ⟨Or.inr (Or.inl rfl), by change JsNumber.le _ _ = true; simp [JsNumber.le]⟩
  · rw [JsNumber.zero_eq, JsNumber.finite_lt_finite] at hpos
    by_cases hq1 : q = 1
    · subst hq1
      have hsub : JsNumber.finite 1 - 1 = JsNumber.finite 0 := by
        rw [JsNumber.one_eq]
        change JsNumber.sub _ _ = _
        simp [JsNumber.sub, JsNumber.toRat?]
      rw [hsub]
      refine ⟨Or.inr (Or.inr ⟨0, rfl, by norm_num, isDouble_zero⟩), ?_⟩
      rw [JsNumber.finite_le_finite]
      norm_num
    · rw [JsNumber.finite_sub_one q hq1]
      have hlow : -1 ≤ nearest (q - 1) := by
        rcases le_or_lt 1 q with h1 | h1
        · have := nearest_nonneg (q - 1) (by linarith)
          linarith
        · apply le_nearest _ _ isDouble_neg_one
          · rw [abs_of_nonpos (by linarith), abs_of_neg (by norm_num)]
            linarith
          · linarith
      have hup : nearest (q - 1) ≤ q := by
        rcases le_or_lt (1 / 2) q with h1 | h1
        · apply nearest_le _ _ hd
          · rw [abs_of_pos hpos, abs_le]
            constructor <;> linarith
          · linarith
        · have := nearest_nonpos (q - 1) (by linarith)
          linarith
      obtain ⟨_, _, _, _, _, hbig⟩ := hd
      rw [abs_of_pos hpos] at hbig
      have hlt : |nearest (q - 1)| < 2 ^ 1024 := by
        rw [abs_lt]
        have : (1 : ℚ) < 2 ^ 1024 := by norm_num
        constructor <;> linarith
      obtain ⟨hlt1, hlt2⟩ := abs_lt.mp hlt
      unfold JsNumber.ofRat
      split_ifs with c1 c2 c3
      · exact absurd c1 (not_le.mpr hlt2)
      · exact absurd c2 (not_le.mpr hlt1)
      · refine ⟨Or.inl rfl, ?_⟩
        change JsNumber.le _ _ = true
        simp [JsNumber.le, le_of_lt hpos]
      · refine ⟨Or.inr (Or.inr ⟨_, rfl, hlow, isDouble_nearest _ hlt⟩), ?_⟩
        rw [JsNumber.finite_le_finite]
        exact hup

theorem completeSession_bounded (s : PomodoroState) (h : s.bounded) :
    (completeSession s).bounded := by
  obtain ⟨hw, hb, _, _, hp⟩ := h
  refine ⟨hw, hb, ?_, ?_, hp⟩
  · cases hs : s.currentSession
    · simpa [completeSession, PomodoroState.durationOf, hs] using hb.mono (by norm_num)
    · simpa [completeSession, PomodoroState.durationOf, hs] using hw.mono (by norm_num)
  · cases hs : s.currentSession
    · simpa [completeSession, PomodoroState.durationOf, hs] using hb.from_le_self
    · simpa [completeSession, PomodoroState.durationOf, hs] using hw.from_le_self

theorem durationOf_isFrom (s : PomodoroState) (h : s.bounded) :
    (s.durationOf s.currentSession).isFrom 0 := by
  obtain ⟨hw, hb, _, _, _⟩ := h
  unfold PomodoroState.durationOf
  split
  · exact hw
  · exact hb

theorem apply_bounded (op : PomodoroOp) (s : PomodoroState) (hop : op.nonNegative)
    (h : s.bounded) : (op.apply s).bounded := by
  have hall := h
  have hdur := durationOf_isFrom s h
  have hdur' : (s.durationOf s.currentSession).isFrom (-1) := hdur.mono (by norm_num)
  obtain ⟨hw, hb, ht, hle, hp⟩ := h
  cases op with
  | startTimer taskId =>
    simp only [PomodoroOp.apply, startTimer]
    split
    · exact hall
    · split
      · exact ⟨hw, hb, ht, hle, fun hc => by simp at hc⟩
      · exact ⟨hw, hb, hdur', hdur.from_le_self, fun hc => by simp at hc⟩
  | pauseTimer =>
    simp only [PomodoroOp.apply, pauseTimer]
    split
    · next hc =>
      refine ⟨hw, hb, ht, hle, fun _ => ?_⟩
      simp only [Bool.and_eq_true] at hc
      exact hc.1
    · exact hall
  | resetTimer =>
    exact ⟨hw, hb, hdur', hdur.from_le_self, fun hc => by simp [PomodoroOp.apply, resetTimer] at hc⟩
  | tick =>
    simp only [PomodoroOp.apply, tick]
    by_cases hz : s.timeRemaining ≤ 0
    · have hnot : ¬ 0 < s.timeRemaining := JsNumber.not_lt_of_le hz
      simp only [hz, if_true, gt_iff_lt, hnot, decide_False, Bool.and_false, Bool.false_eq_true,
        if_false]
      exact completeSession_bounded s hall
    · simp only [hz, if_false]
      split
      · next hc =>
        simp only [Bool.and_eq_true, decide_eq_true_eq] at hc
        obtain ⟨hfrom, hstep⟩ := ht.from_sub_one hc.2
        exact ⟨hw, hb, hfrom, JsNumber.le_trans hstep hle, hp⟩
      · exact hall
  | completeSession => exact completeSession_bounded s hall
  | setWorkDuration minutes =>
    have hm : (minutes * 60).isFrom 0 := JsNumber.mul_sixty_isFrom hop
    have hm' : (minutes * 60).isFrom (-1) := hm.mono (by norm_num)
    simp only [PomodoroOp.apply, setWorkDuration]
    cases hs : s.currentSession with
    | work =>
      exact ⟨hm, hb, by simpa using hm',
        by simpa [PomodoroState.durationOf, hs] using hm.from_le_self, hp⟩
    | break_ =>
      refine ⟨hm, hb, by simpa using ht, ?_, hp⟩
      simpa [PomodoroState.durationOf, hs] using hle
  | setBreakDuration minutes =>
    have hm : (minutes * 60).isFrom 0 := JsNumber.mul_sixty_isFrom hop
    have hm' : (minutes * 60).isFrom (-1) := hm.mono (by norm_num)
    simp only [PomodoroOp.apply, setBreakDuration]
    cases hs : s.currentSession with
    | work =>
      refine ⟨hw, hm, by simpa using ht, ?_, hp⟩
      simpa [PomodoroState.durationOf, hs] using hle
    | break_ =>
      exact ⟨hw, hm, by simpa using hm',
        by simpa [PomodoroState.durationOf, hs] using hm.from_le_self, hp⟩

theorem runOps_bounded (ops : List PomodoroOp) :
    ∀ s : PomodoroState, s.bounded → (∀ op ∈ ops, op.nonNegative) →
      (runOps s ops).bounded := by
  induction ops with
  | nil => intro s h _; exact h
  | cons op ops ih =>
    intro s h hops
    exact ih (op.apply s)
      (apply_bounded op s (hops op (List.mem_cons_self _ _)) h)
      (fun o ho => hops o (List.mem_cons_of_mem _ ho))

theorem initial_bounded : PomodoroState.initial.bounded := by
  have h1500 : (JsNumber.finite 1500).isFrom 0 :=
    Or.inr (Or.inr ⟨1500, rfl, by norm_num,
      by simpa using isDouble_natCast 1500 (by norm_num)⟩)
  have h300 : (JsNumber.finite 300).isFrom 0 :=
    Or.inr (Or.inr ⟨300, rfl, by norm_num, by simpa using isDouble_natCast 300 (by norm_num)⟩)
  rw [initial_eq]
  exact ⟨h1500, h300, h1500.mono (by norm_num), h1500.from_le_self, fun hc => by simp at hc⟩

/-- C30 (amended): in every state the store reaches from its initial state by
startTimer, pauseTimer, resetTimer, tick, completeSession, and setWorkDuration
and setBreakDuration called with whole minutes not below zero, the remaining
time is at least 0 and at most the configured duration of the current session
kind, and a paused timer is active.  When the minutes are non-negative without
being whole, the remaining time is still at most that duration and a paused
timer is active, and the remaining time is at least -1. -/
theorem reachable_timeRemaining_bounds (ops : List PomodoroOp) :
    ((∀ op ∈ ops, op.wholeMinutes) →
      0 ≤ (runOps PomodoroState.initial ops).timeRemaining ∧
      ((runOps PomodoroState.initial ops).currentSession = Session.work →
        (runOps PomodoroState.initial ops).timeRemaining ≤
          (runOps PomodoroState.initial ops).workDuration) ∧
      ((runOps PomodoroState.initial ops).currentSession = Session.break_ →
        (runOps PomodoroState.initial ops).timeRemaining ≤
          (runOps PomodoroState.initial ops).breakDuration) ∧
      ((runOps PomodoroState.initial ops).isPaused = true →
        (runOps PomodoroState.initial ops).isActive = true)) ∧
    ((∀ op ∈ ops, op.nonNegative) →
      JsNumber.finite (-1) ≤ (runOps PomodoroState.initial ops).timeRemaining ∧
      ((runOps PomodoroState.initial ops).currentSession = Session.work →
        (runOps PomodoroState.initial ops).timeRemaining ≤
          (runOps PomodoroState.initial ops).workDuration) ∧
      ((runOps PomodoroState.initial ops).currentSession = Session.break_ →
        (runOps PomodoroState.initial ops).timeRemaining ≤
          (runOps PomodoroState.initial ops).breakDuration) ∧
      ((runOps PomodoroState.initial ops).isPaused = true →
        (runOps PomodoroState.initial ops).isActive = true)) := by
  constructor
  · intro hops
    obtain ⟨_, _, ht, hle, hp⟩ := runOps_wellFormed ops PomodoroState.initial initial_wellFormed hops
    refine ⟨ht.zero_le, ?_, ?_, hp⟩
    · intro hs
      simpa [PomodoroState.durationOf, hs] using hle
    · intro hs
      simpa [PomodoroState.durationOf, hs] using hle
  · intro hops
    obtain ⟨_, _, ht, hle, hp⟩ := runOps_bounded ops PomodoroState.initial initial_bounded hops
    refine ⟨ht.lower_le (by norm_num), ?_, ?_, hp⟩
    · intro hs
      simpa [PomodoroState.durationOf, hs] using hle
    · intro hs
      simpa [PomodoroState.durationOf, hs] using hle

/-- Witness for C30 (amended): the break is set to two minutes, the timer
started, ticked and paused. -/
theorem reachable_timeRemaining_bounds_witness :
    (∀ op ∈ [PomodoroOp.setBreakDuration (JsNumber.finite 2), PomodoroOp.startTimer none,
        PomodoroOp.tick, PomodoroOp.pauseTimer], op.wholeMinutes) ∧
    0 ≤ (runOps PomodoroState.initial
      [PomodoroOp.setBreakDuration (JsNumber.finite 2), PomodoroOp.startTimer none,
        PomodoroOp.tick, PomodoroOp.pauseTimer]).timeRemaining :=
  have hops : ∀ op ∈ [PomodoroOp.setBreakDuration (JsNumber.finite 2),
      PomodoroOp.startTimer none, PomodoroOp.tick, PomodoroOp.pauseTimer],
      op.wholeMinutes := by
    intro op hop
    simp only [List.mem_cons, List.mem_singleton, List.not_mem_nil, or_false] at hop
    rcases hop with rfl | rfl | rfl | rfl
    · exact Or.inr ⟨2, by norm_num⟩
    · trivial
    · trivial
    · trivial
  ⟨hops, ((reachable_timeRemaining_bounds _).1 hops).1⟩

/-! ## C21: isOverdue -/

/-- C21 (the code at the failing input): a task to do whose due date is a
timestamp object with `seconds: 0`, the first second of 1970, is not overdue
for the code at the time 1000 ms, although its instant, 0 ms, is strictly
before; the same task with `seconds: 1` or `seconds: -1` is overdue at that
time.  Away from `seconds: 0`, and with the instant of a timestamp object
within the range of a `Date`, isOverdue is true if and only if the status is
not `completed` and the due date is present and strictly before now. -/
theorem isOverdue_misses_epoch_second :
    isOverdue sampleParser { status := "to-do", dueDate := DueValue.timestamp 0 } 1000 = false ∧
    (DueValue.timestamp 0).instant sampleParser = some 0 ∧
    (0 : Int) < 1000 ∧
    isOverdue sampleParser { status := "to-do", dueDate := DueValue.timestamp 1 } 1000 = false ∧
    isOverdue sampleParser { status := "to-do", dueDate := DueValue.timestamp 1 } 1001 = true ∧
    isOverdue sampleParser { status := "to-do", dueDate := DueValue.timestamp (-1) } 1000 = true ∧
    (∀ (parseDate : String → Option Int) (task : CardTask) (now : Int),
      task.dueDate.regular →
        (isOverdue parseDate task now = true ↔
          task.status ≠ "completed" ∧
            ∃ ms, task.dueDate.instant parseDate = some ms ∧ ms < now)) := by
  refine ⟨by decide, by decide, by decide, by decide, by decide, by decide, ?_⟩
  intro parseDate task now hreg
  cases hd : task.dueDate with
  | absent => simp [isOverdue, hd, DueValue.instant]
  | date d =>
    cases d with
    | time ms => simp [isOverdue, hd, DueValue.instant, JsDate.before]
    | invalid => simp [isOverdue, hd, DueValue.instant, JsDate.before]
  | str s =>
    by_cases hs : s = ""
    · simp [isOverdue, hd, DueValue.instant, hs]
    · cases hp : parseDate s with
      | none => simp [isOverdue, hd, DueValue.instant, hs, newDate, hp, JsDate.before]
      | some ms => simp [isOverdue, hd, DueValue.instant, hs, newDate, hp, JsDate.before]
  | timestamp seconds =>
    rw [hd] at hreg
    obtain ⟨h0, hlo, hhi⟩ := hreg
    have hclip : dateOfMillis (seconds * 1000) = JsDate.time (seconds * 1000) := by
      have hno : ¬ (seconds * 1000 < -maxTimeValue ∨ maxTimeValue < seconds * 1000) := by
        rintro (h | h) <;> omega
      simp [dateOfMillis, hno]
    simp [isOverdue, hd, DueValue.instant, h0, hclip, JsDate.before]
  | other => simp [isOverdue, hd, DueValue.instant]

/-- Witness for C21: a timestamp object of one second, a regular due date, is
overdue at 1001 ms. -/
theorem isOverdue_misses_epoch_second_witness :
    (DueValue.timestamp 1).regular ∧
    (isOverdue sampleParser { status := "to-do", dueDate := DueValue.timestamp 1 } 1001 = true ↔
      "to-do" ≠ "completed" ∧
        ∃ ms, (DueValue.timestamp 1).instant sampleParser = some ms ∧ ms < 1001) :=
  have hreg : (DueValue.timestamp 1).regular := by
    refine ⟨by decide, by decide, by decide⟩
  ⟨hreg,
    isOverdue_misses_epoch_second.2.2.2.2.2.2 sampleParser
      { status := "to-do", dueDate := DueValue.timestamp 1 } 1001 hreg⟩

/-! ## C29: the PomodoroTimer component -/

/-- C29 (the code at the failing input): the store has no function under the
key `incrementCompletedSessions`; when the last second of a work countdown
elapses, the call of it throws, the store keeps its `completedSessions` and the
component is left on work.  When a break countdown ends, nothing is thrown, the
counter is unchanged and the component switches to work. -/
theorem work_countdown_end_throws (timer : TimerState) (store : PomodoroState) :
    pomodoroStoreCall "incrementCompletedSessions" = none ∧
    intervalTick { timeLeft := 1, isActive := true, isBreak := false } PomodoroState.initial =
      { timer := { timeLeft := 1, isActive := true, isBreak := false }
        store := PomodoroState.initial
        thrown := some { message := "incrementCompletedSessions is not a function" } } ∧
    (timer.timeLeft ≤ 1 → timer.isBreak = false →
      (intervalTick timer store).store.completedSessions = store.completedSessions ∧
      (intervalTick timer store).timer.isBreak = false ∧
      (intervalTick timer store).thrown ≠ none) ∧
    (timer.timeLeft ≤ 1 → timer.isBreak = true →
      intervalTick timer store =
        { timer := { timeLeft := 0, isActive := false, isBreak := false }, store := store }) := by
  have hkey : pomodoroStoreCall "incrementCompletedSessions" = none := by
    simp [pomodoroStoreCall]
  refine ⟨hkey, by simp [intervalTick, hkey], ?_, ?_⟩
  · intro ht hb
    simp [intervalTick, ht, hb, hkey]
  · intro ht hb
    simp [intervalTick, ht, hb]

/-! ## C22, C23: the habit tracker -/

theorem map_habit_getElem? (habits : List Habit) (i : Nat) (habit : Habit)
    (f : Habit → Habit) (hi : habits[i]? = some habit) :
    (habits.map fun h => if h.id = habit.id then f h else h)[i]? = some (f habit) := by
  rw [List.getElem?_map, hi]
  simp

theorem findLog_atProgress_zero (habit : Habit) (day : String)
    (h : ∀ log ∈ habit.logs, log.date ≠ day) : findLog habit day = none := by
  unfold findLog
  rw [List.find?_eq_none]
  intro log hmem
  simpa using h log hmem

theorem findLog_last (habit : Habit) (day : String) (earlier : List HabitLog)
    (last : HabitLog) (hlogs : habit.logs = earlier ++ [last])
    (hearlier : ∀ log ∈ earlier, log.date ≠ day) (hlast : last.date = day) :
    findLog habit day = some last := by
  unfold findLog
  have hnone : earlier.find? (fun log => decide (log.date = day)) = none := by
    rw [List.find?_eq_none]
    intro log hmem
    simpa using hearlier log hmem
  rw [hlogs, List.find?_append, hnone]
  simp [hlast]

/-- What the progress read for a day is, for a habit at a progress. -/
theorem getHabitProgress_atProgress (toISODay : Int → String) (habit : Habit) (ms : Int)
    (progress : Nat) (h : habit.atProgress (toISODay ms) progress) :
    getHabitProgress toISODay habit (JsDate.time ms) = Except.ok progress := by
  rcases h with ⟨h0, hno⟩ | ⟨_, earlier, last, hlogs, hearlier, hlast, hp⟩
  · simp [getHabitProgress, dateString, findLog_atProgress_zero habit _ hno, h0]
  · simp [getHabitProgress, dateString, findLog_last habit _ earlier last hlogs hearlier hlast,
      hp]

/-- One click takes the clicked habit from progress `p` to `p + 1`, or to no
log when `p` is the goal. -/
theorem clickHabit_step (toISODay : Int → String) (i : Nat) (ms : Int) (userId : String)
    (habits : List Habit) (habit : Habit) (click : String × Int) (p : Nat)
    (hi : habits[i]? = some habit) (hg : 1 ≤ habit.goal)
    (hp : habit.atProgress (toISODay ms) p) (hle : p ≤ habit.goal) :
    ∃ h', (clickHabit toISODay i (JsDate.time ms) userId habits click)[i]? = some h' ∧
      h'.goal = habit.goal ∧
      h'.atProgress (toISODay ms) (if p + 1 > habit.goal then 0 else p + 1) := by
  unfold clickHabit
  rw [hi]
  simp only [toggleHabitCompletion, dateString]
  rcases hp with ⟨h0, hno⟩ | ⟨h1, earlier, last, hlogs, hearlier, hlast, hprog⟩
  · subst h0
    rw [findLog_atProgress_zero habit _ hno]
    simp only [withNewLog]
    refine ⟨_, map_habit_getElem? habits i habit _ hi, rfl, ?_⟩
    have hnot : ¬ 0 + 1 > habit.goal := by omega
    rw [if_neg hnot]
    right
    exact ⟨by omega, habit.logs, _, rfl, hno, rfl, rfl⟩
  · rw [findLog_last habit _ earlier last hlogs hearlier hlast]
    by_cases hwrap : p + 1 > habit.goal
    · have hnew : (if last.progress + 1 > habit.goal then 0 else last.progress + 1) = 0 := by
        rw [hprog, if_pos hwrap]
      simp only [hnew, if_true, withoutLog]
      refine ⟨_, map_habit_getElem? habits i habit _ hi, rfl, ?_⟩
      rw [if_pos hwrap]
      left
      refine ⟨rfl, ?_⟩
      intro log hmem
      simp only [hlogs, List.filter_append, List.mem_append, List.mem_filter] at hmem
      rcases hmem with ⟨hmem, _⟩ | ⟨hmem, hid⟩
      · exact hearlier log hmem
      · rw [List.mem_singleton] at hmem
        subst hmem
        simp at hid
    · have hne : (if last.progress + 1 > habit.goal then 0 else last.progress + 1) ≠ 0 := by
        rw [hprog, if_neg hwrap]
        omega
      simp only [hne, if_false, withProgress]
      refine ⟨_, map_habit_getElem? habits i habit _ hi, rfl, ?_⟩
      rw [if_neg hwrap]
      right
      refine ⟨by omega, earlier.map (fun log =>
          if log.id = last.id then
            { log with
              progress := if last.progress + 1 > habit.goal then 0 else last.progress + 1 }
          else log),
        { last with
          progress := if last.progress + 1 > habit.goal then 0 else last.progress + 1 },
        ?_, ?_, hlast, ?_⟩
      · simp [hlogs]
      · intro log hmem
        rw [List.mem_map] at hmem
        obtain ⟨orig, horig, rfl⟩ := hmem
        have := hearlier orig horig
        split
        · exact this
        · exact this
      · show (if last.progress + 1 > habit.goal then 0 else last.progress + 1) = p + 1
        rw [hprog, if_neg hwrap]

theorem clickHabitTimes_progress (toISODay : Int → String) (i : Nat) (ms : Int)
    (userId : String) (clicks : List (String × Int)) :
    ∀ (habits : List Habit) (habit : Habit) (p : Nat), habits[i]? = some habit →
      1 ≤ habit.goal → habit.atProgress (toISODay ms) p → p ≤ habit.goal →
      ∃ h', (clickHabitTimes toISODay i (JsDate.time ms) userId habits clicks)[i]? = some h' ∧
        h'.goal = habit.goal ∧
        h'.atProgress (toISODay ms) ((p + clicks.length) % (habit.goal + 1)) := by
  induction clicks with
  | nil =>
    intro habits habit p hi _ hp hle
    refine ⟨habit, hi, rfl, ?_⟩
    have hmod : (p + ([] : List (String × Int)).length) % (habit.goal + 1) = p := by
      rw [List.length_nil, Nat.add_zero]
      exact Nat.mod_eq_of_lt (by omega)
    rw [hmod]
    exact hp
  | cons click clicks ih =>
    intro habits habit p hi hg hp hle
    obtain ⟨h1, hi1, hgoal1, hp1⟩ :=
      clickHabit_step toISODay i ms userId habits habit click p hi hg hp hle
    have hle1 : (if p + 1 > habit.goal then 0 else p + 1) ≤ h1.goal := by
      rw [hgoal1]; split <;> omega
    obtain ⟨h2, hi2, hgoal2, hp2⟩ := ih _ h1 _ hi1 (by rw [hgoal1]; exact hg)
      (by simpa using hp1) hle1
    refine ⟨h2, by simpa [clickHabitTimes] using hi2, hgoal2.trans hgoal1, ?_⟩
    have hmod : ((if p + 1 > habit.goal then 0 else p + 1) + clicks.length) % (h1.goal + 1) =
        (p + (click :: clicks).length) % (habit.goal + 1) := by
      rw [hgoal1]
      by_cases hwrap : p + 1 > habit.goal
      · have hpg : p = habit.goal := by omega
        rw [if_pos hwrap, List.length_cons, hpg]
        have : habit.goal + (clicks.length + 1) = clicks.length + (habit.goal + 1) := by omega
        rw [this, Nat.add_mod_right, Nat.zero_add]
      · rw [if_neg hwrap, List.length_cons]
        congr 1
        omega
    rw [← hmod]
    exact hp2

/-- C22: for a habit with goal `g ≥ 1` and a day without a log, the progress
read by getHabitProgress after `k` consecutive toggles, each on the state the
one before left and each resolving, is `k` modulo `g + 1`: it runs 1, 2, …, `g`
and is 0 after the `(g + 1)`-th toggle, when the habit has no log for the day. -/
theorem habit_progress_cycle (toISODay : Int → String) (i : Nat) (ms : Int)
    (userId : String) (habits : List Habit) (habit : Habit) (clicks : List (String × Int))
    (hi : habits[i]? = some habit) (hg : 1 ≤ habit.goal)
    (hno : ∀ log ∈ habit.logs, log.date ≠ toISODay ms) :
    ∃ h', (clickHabitTimes toISODay i (JsDate.time ms) userId habits clicks)[i]? = some h' ∧
      getHabitProgress toISODay h' (JsDate.time ms) =
        Except.ok (clicks.length % (habit.goal + 1)) ∧
      (clicks.length ≤ habit.goal →
        getHabitProgress toISODay h' (JsDate.time ms) = Except.ok clicks.length) ∧
      (clicks.length = habit.goal + 1 →
        getHabitProgress toISODay h' (JsDate.time ms) = Except.ok 0 ∧
        ∀ log ∈ h'.logs, log.date ≠ toISODay ms) := by
  obtain ⟨h', hi', hgoal, hp⟩ := clickHabitTimes_progress toISODay i ms userId clicks habits
    habit 0 hi hg (Or.inl ⟨rfl, hno⟩) (Nat.zero_le _)
  rw [Nat.zero_add] at hp
  have hread := getHabitProgress_atProgress toISODay h' ms _ hp
  refine ⟨h', hi', hread, ?_, ?_⟩
  · intro hle
    rw [hread, Nat.mod_eq_of_lt (by omega)]
  · intro heq
    have hzero : clicks.length % (habit.goal + 1) = 0 := by rw [heq, Nat.mod_self]
    rw [hzero] at hp hread
    refine ⟨hread, ?_⟩
    rcases hp with ⟨_, hnone⟩ | ⟨hpos, _⟩
    · exact hnone
    · omega

/-- Witness for C22: goal 3, four toggles, read after each: 1, 2, 3, 0. -/
theorem habit_progress_cycle_witness :
    ([sampleHabit][0]? = some sampleHabit ∧ 1 ≤ sampleHabit.goal ∧
      ∀ log ∈ sampleHabit.logs, log.date ≠ sampleDay 5) ∧
    (∃ h', (clickHabitTimes sampleDay 0 (JsDate.time 5) "u1" [sampleHabit]
          [("l1", 10), ("", 11), ("", 12), ("", 13)])[0]? = some h' ∧
      getHabitProgress sampleDay h' (JsDate.time 5) = Except.ok 0 ∧
      ∀ log ∈ h'.logs, log.date ≠ sampleDay 5) ∧
    ((clickHabitTimes sampleDay 0 (JsDate.time 5) "u1" [sampleHabit] [("l1", 10)]).map
        (fun h => h.logs.map fun log => log.progress) = [[1]] ∧
      (clickHabitTimes sampleDay 0 (JsDate.time 5) "u1" [sampleHabit]
        [("l1", 10), ("", 11)]).map (fun h => h.logs.map fun log => log.progress) = [[2]] ∧
      (clickHabitTimes sampleDay 0 (JsDate.time 5) "u1" [sampleHabit]
        [("l1", 10), ("", 11), ("", 12)]).map
        (fun h => h.logs.map fun log => log.progress) = [[3]] ∧
      (clickHabitTimes sampleDay 0 (JsDate.time 5) "u1" [sampleHabit]
        [("l1", 10), ("", 11), ("", 12), ("", 13)]).map
        (fun h => h.logs.map fun log => log.progress) = [[]]) :=
  have hno : ∀ log ∈ sampleHabit.logs, log.date ≠ sampleDay 5 := by
    intro log hmem
    simp [sampleHabit] at hmem
  ⟨⟨by decide, by decide, hno⟩,
    (habit_progress_cycle sampleDay 0 5 "u1" [sampleHabit] sampleHabit
        [("l1", 10), ("", 11), ("", 12), ("", 13)] (by decide) (by decide) hno).imp
      fun _ h => ⟨h.1, (h.2.2.2 (by decide)).1, (h.2.2.2 (by decide)).2⟩,
    by decide⟩

theorem withNewLog_logsOk (habit : Habit) (day : String) (newLog : HabitLog)
    (hnone : findLog habit day = none) (hdate : newLog.date = day)
    (hprog : newLog.progress = 1) (hok : habit.logsOk) :
    Habit.logsOk { habit with logs := habit.logs ++ [newLog] } := by
  obtain ⟨hg, hnd, hrange⟩ := hok
  have hno : ∀ log ∈ habit.logs, log.date ≠ day := by
    intro log hmem
    have := List.find?_eq_none.mp hnone log hmem
    simpa using this
  refine ⟨hg, ?_, ?_⟩
  · simp only [List.map_append, List.map_cons, List.map_nil]
    rw [List.nodup_append]
    refine ⟨hnd, List.nodup_singleton _, ?_⟩
    intro d hd hd'
    rw [List.mem_singleton] at hd'
    rw [List.mem_map] at hd
    obtain ⟨log, hmem, hlog⟩ := hd
    exact hno log hmem (by rw [hlog, hd', hdate])
  · intro log hmem
    rcases List.mem_append.mp hmem with hmem | hmem
    · exact hrange log hmem
    · rw [List.mem_singleton] at hmem
      subst hmem
      show 1 ≤ log.progress ∧ log.progress ≤ habit.goal
      omega

theorem withoutLog_logsOk (habit : Habit) (existingLog : HabitLog) (hok : habit.logsOk) :
    Habit.logsOk
      { habit with logs := habit.logs.filter fun log => decide (log.id ≠ existingLog.id) } := by
  obtain ⟨hg, hnd, hrange⟩ := hok
  refine ⟨hg, ?_, ?_⟩
  · exact List.Nodup.sublist ((List.filter_sublist _).map _) hnd
  · intro log hmem
    exact hrange log (List.mem_filter.mp hmem).1

theorem withProgress_logsOk (habit : Habit) (existingLog : HabitLog) (newProgress : Nat)
    (h1 : 1 ≤ newProgress) (h2 : newProgress ≤ habit.goal) (hok : habit.logsOk) :
    Habit.logsOk
      { habit with
        logs := habit.logs.map fun log =>
          if log.id = existingLog.id then { log with progress := newProgress } else log } := by
  obtain ⟨hg, hnd, hrange⟩ := hok
  refine ⟨hg, ?_, ?_⟩
  · have hdates : (habit.logs.map fun log =>
          if log.id = existingLog.id then { log with progress := newProgress } else log).map
          (fun log => log.date) = habit.logs.map fun log => log.date := by
      rw [List.map_map]
      apply List.map_congr_left
      intro log _
      simp only [Function.comp]
      split <;> rfl
    show ((habit.logs.map fun log =>
          if log.id = existingLog.id then { log with progress := newProgress } else log).map
          (fun log => log.date)).Nodup
    rw [hdates]
    exact hnd
  · intro log hmem
    obtain ⟨orig, horig, rfl⟩ := List.mem_map.mp hmem
    split
    · exact ⟨h1, h2⟩
    · exact hrange orig horig

/-- The habits `toggleHabitCompletion` leaves are the habits it found, or those
with the habits of the toggled id rewritten by a function that keeps the
invariant of the toggled habit; and the write it issues stores no progress 0. -/
theorem toggleHabitCompletion_form (toISODay : Int → String) (habit : Habit) (date : JsDate)
    (userId : String) (now : Int) (remote : Except JsError String) (habits : List Habit)
    (error : Option String) :
    ((toggleHabitCompletion toISODay habit date userId now remote habits error).habits = habits ∨
      ∃ f : Habit → Habit,
        (toggleHabitCompletion toISODay habit date userId now remote habits error).habits =
          (habits.map fun h => if h.id = habit.id then f h else h) ∧
        (habit.logsOk → (f habit).logsOk)) ∧
    ∀ w ∈ (toggleHabitCompletion toISODay habit date userId now remote habits error).writes,
      w.storesProgress := by
  unfold toggleHabitCompletion
  cases date with
  | invalid => simp [dateString]
  | time ms =>
    simp only [dateString]
    cases hfind : findLog habit (toISODay ms) with
    | none =>
      cases remote with
      | error e => simp [HabitOp.storesProgress]
      | ok docId =>
        refine ⟨Or.inr ⟨fun h => { h with logs := h.logs ++ [_] }, rfl, ?_⟩, ?_⟩
        · exact withNewLog_logsOk habit _ _ hfind rfl rfl
        · simp [HabitOp.storesProgress]
    | some existingLog =>
      by_cases hwrap : existingLog.progress + 1 > habit.goal
      · have hnew : (if existingLog.progress + 1 > habit.goal then 0
            else existingLog.progress + 1) = 0 := if_pos hwrap
        simp only [hnew, if_true]
        cases remote with
        | error e => simp [HabitOp.storesProgress]
        | ok docId =>
          refine ⟨Or.inr ⟨fun h => { h with logs := h.logs.filter _ }, rfl, ?_⟩, ?_⟩
          · exact withoutLog_logsOk habit existingLog
          · simp [HabitOp.storesProgress]
      · have hnew : (if existingLog.progress + 1 > habit.goal then 0
            else existingLog.progress + 1) = existingLog.progress + 1 := if_neg hwrap
        have hne : existingLog.progress + 1 ≠ 0 := by omega
        simp only [hnew, hne, if_false]
        cases remote with
        | error e => simp [HabitOp.storesProgress]
        | ok docId =>
          refine ⟨Or.inr ⟨fun h => { h with logs := h.logs.map _ }, rfl, ?_⟩, ?_⟩
          · exact withProgress_logsOk habit existingLog _ (by omega) (by omega)
          · simp [HabitOp.storesProgress]

/-- C23 (as stated, refuted): two habits of the state carry the same id, and
each has a goal of at least 1, distinct date keys and every progress within its
goal.  The first, which has no log for the day, is toggled: the update by id
appends the new log to both, so the second holds two logs for that day, and
the logs of a habit that was not toggled have changed. -/
theorem toggle_duplicates_log_under_shared_id :
    sampleHabit.logsOk ∧ twinHabit.logsOk ∧
    (toggleHabitCompletion sampleDay sampleHabit (JsDate.time 5) "u1" 10 (Except.ok "l2")
        [sampleHabit, twinHabit] none).habits =
      [{ sampleHabit with
          logs :=
            [{ habitId := "h1", date := "1970-01-01", progress := 1, userId := "u1",
               createdAt := 10, updatedAt := 10, id := "l2" }] },
        { twinHabit with
          logs :=
            [{ habitId := "h1", date := "1970-01-01", progress := 1, userId := "u1",
               createdAt := 1, updatedAt := 1, id := "l1" },
             { habitId := "h1", date := "1970-01-01", progress := 1, userId := "u1",
               createdAt := 10, updatedAt := 10, id := "l2" }] }] ∧
    ¬ ∀ h ∈ (toggleHabitCompletion sampleDay sampleHabit (JsDate.time 5) "u1" 10
        (Except.ok "l2") [sampleHabit, twinHabit] none).habits, h.logsOk := by
  have heval : (toggleHabitCompletion sampleDay sampleHabit (JsDate.time 5) "u1" 10
      (Except.ok "l2") [sampleHabit, twinHabit] none).habits =
      [{ sampleHabit with
          logs :=
            [{ habitId := "h1", date := "1970-01-01", progress := 1, userId := "u1",
               createdAt := 10, updatedAt := 10, id := "l2" }] },
        { twinHabit with
          logs :=
            [{ habitId := "h1", date := "1970-01-01", progress := 1, userId := "u1",
               createdAt := 1, updatedAt := 1, id := "l1" },
             { habitId := "h1", date := "1970-01-01", progress := 1, userId := "u1",
               createdAt := 10, updatedAt := 10, id := "l2" }] }] := by
    decide
  refine ⟨⟨by decide, by decide, fun log hmem => by simp [sampleHabit] at hmem⟩,
    ⟨by decide, by decide, ?_⟩, heval, ?_⟩
  · intro log hmem
    simp only [twinHabit, List.mem_singleton] at hmem
    subst hmem
    exact ⟨by decide, by decide⟩
  · rw [heval]
    intro hall
    have hbad := (hall _ (List.mem_cons_of_mem _ (List.mem_singleton.mpr rfl))).2.1
    revert hbad
    decide

/-- C23 (amended): in a state whose habits have pairwise distinct ids, when
every habit has a goal of at least 1, logs with pairwise distinct date keys and
every progress between 1 and its goal, the same holds after
toggleHabitCompletion for any habit of the state, any date and any outcome of
the Firestore call; the habits of every other id are unchanged, each at its
place, and no write stores a progress of 0. -/
theorem toggle_keeps_logs_invariant (toISODay : Int → String) (habit : Habit) (date : JsDate)
    (userId : String) (now : Int) (remote : Except JsError String) (habits : List Habit)
    (error : Option String) (hmem : habit ∈ habits)
    (hids : (habits.map fun h => h.id).Nodup) (hok : ∀ h ∈ habits, h.logsOk) :
    (∀ h ∈ (toggleHabitCompletion toISODay habit date userId now remote habits error).habits,
      h.logsOk) ∧
    (toggleHabitCompletion toISODay habit date userId now remote habits error).habits.length =
      habits.length ∧
    (∀ (i : Nat) (h : Habit), habits[i]? = some h → h.id ≠ habit.id →
      (toggleHabitCompletion toISODay habit date userId now remote habits error).habits[i]? =
        some h) ∧
    (∀ w ∈ (toggleHabitCompletion toISODay habit date userId now remote habits error).writes,
      w.storesProgress) := by
  obtain ⟨hform, hwrites⟩ :=
    toggleHabitCompletion_form toISODay habit date userId now remote habits error
  refine ⟨?_, ?_, ?_, hwrites⟩
  · rcases hform with heq | ⟨f, heq, hf⟩
    · rw [heq]; exact hok
    · rw [heq]
      intro h hh
      obtain ⟨orig, horig, rfl⟩ := List.mem_map.mp hh
      by_cases hid : orig.id = habit.id
      · have : orig = habit := List.inj_on_of_nodup_map hids horig hmem hid
        subst this
        simp only [if_true]
        exact hf (hok orig horig)
      · simp only [hid, if_false]
        exact hok orig horig
  · rcases hform with heq | ⟨f, heq, _⟩
    · rw [heq]
    · rw [heq, List.length_map]
  · intro i h hi hid
    rcases hform with heq | ⟨f, heq, _⟩
    · rw [heq]; exact hi
    · rw [heq, List.getElem?_map, hi]
      simp [hid]

/-- Witness for C23 (amended): the sample habit, alone in the state, is toggled. -/
theorem toggle_keeps_logs_invariant_witness :
    (sampleHabit ∈ [sampleHabit] ∧ ([sampleHabit].map fun h => h.id).Nodup ∧
      ∀ h ∈ [sampleHabit], h.logsOk) ∧
    ∀ h ∈ (toggleHabitCompletion sampleDay sampleHabit (JsDate.time 5) "u1" 10
        (Except.ok "l1") [sampleHabit] none).habits, h.logsOk :=
  have hok : ∀ h ∈ [sampleHabit], h.logsOk := by
    intro h hh
    rw [List.mem_singleton] at hh
    subst hh
    exact ⟨by decide, by decide, fun log hmem => by simp [sampleHabit] at hmem⟩
  ⟨⟨by decide, by decide, hok⟩,
    (toggle_keeps_logs_invariant sampleDay sampleHabit (JsDate.time 5) "u1" 10
      (Except.ok "l1") [sampleHabit] none (by decide) (by decide) hok).1⟩

end SmartTodo
